import Mathlib

/-!
# Verification of the CD-pipeline creation/read workflow of edp-admin-console

Shallow embedding of `src/service/cd_pipeline.go` together with the input
models of `src/models/cd_pipeline.go` and the read-model row types.  Stateful
calls to the two backing stores (the relational read model and the
orchestrator's custom-resource API) are modelled by an explicit environment of
response oracles, and every store interaction performed by the service is
recorded, in execution order, in a trace of events, so that claims about
"which writes happened" and "in which order" become statements about the trace.

The embedding of the Go standard library's `sort.Slice` (used by
`sortStagesByOrder`) reproduces the actual algorithm of `sort.go` as shipped
with the Go releases of this repository's era (Go 1.8 through 1.18):
introsort with a depth bound, falling back to heap sort, and — for ranges of
at most 12 elements — a single gap-6 Shell-sort pass followed by insertion
sort.  That algorithm, not the spec's description of it, is the authority for
the sorting claims.
-/

namespace Edp

/-- Configuration read by the service: the tenant identifier (`context.Tenant`),
the configured wildcard domain (`beego.AppConfig.String("dnsWildcard")`) and
the namespace (`context.Namespace`). -/
structure Config where
  tenant : String
  wildcard : String
  ns : String
deriving DecidableEq, Repr

/-- `models.ApplicationWithBranch` from `src/models/cd_pipeline.go`. -/
structure ApplicationWithBranch where
  ApplicationName : String
  BranchName : String
deriving DecidableEq, Repr

/-- `models.StageCreate` from `src/models/cd_pipeline.go`. -/
structure StageCreate where
  Name : String
  Description : String
  StepName : String
  QualityGateType : String
  TriggerType : String
  Order : Int
deriving DecidableEq, Repr

/-- `models.CDPipelineCreateCommand` from `src/models/cd_pipeline.go`. -/
structure CDPipelineCreateCommand where
  Name : String
  Applications : List ApplicationWithBranch
  ThirdPartyServices : List String
  Stages : List StageCreate
deriving DecidableEq, Repr

/-- `query.Codebase`, the parent application of a branch row.  Modelled from
the spec: the `models/query` codebase type is not under `src/`; the read path
only uses its `Name` (denormalization of the application name onto the
branch association). -/
structure QueryCodebase where
  Name : String
deriving DecidableEq, Repr

/-- `query.CodebaseBranch` read-model row.  Modelled from the spec: the
`models/query` branch type is not under `src/`; the fields are the ones the
service reads and writes (`AppName`, `Codebase`, `Name`, `VCSLink`,
`CICDLink`). -/
structure QueryCodebaseBranch where
  Name : String
  AppName : String
  Codebase : QueryCodebase
  VCSLink : String
  CICDLink : String
deriving DecidableEq, Repr

/-- `query.Stage` from `src/models/query/stage.go`.  The recursive back
pointer `CDPipeline *CDPipeline` (an ORM foreign key, never read by the
service code under verification) is omitted. -/
structure QueryStage where
  Id : Int
  Name : String
  Description : String
  TriggerType : String
  QualityGate : String
  JenkinsStepName : String
  Order : Int
  OpenshiftProjectLink : String
deriving DecidableEq, Repr

instance : Inhabited QueryStage := ⟨⟨0, "", "", "", "", "", 0, ""⟩⟩

/-- `query.CDPipeline` read-model row.  Modelled from the spec: the
`models/query` pipeline type is not under `src/`; the fields are the ones
the service reads and writes (`Name`, `Status`, `JenkinsLink`, the stage
collection and the branch associations). -/
structure QueryCDPipeline where
  Name : String
  Status : String
  JenkinsLink : String
  Stage : List QueryStage
  CodebaseBranch : List QueryCodebaseBranch
deriving DecidableEq, Repr

/-- `k8s.CDPipelineSpec`: pipeline resource spec (name, derived branch
references, third-party services).  Modelled from the spec: the `k8s` package
is not under `src/`; the field set is fixed by `convertPipelineData`. -/
structure CDPipelineSpec where
  Name : String
  CodebaseBranch : List String
  ThirdPartyServices : List String
deriving DecidableEq, Repr

/-- `k8s.CDPipelineStatus` (lifecycle status string and last-updated
timestamp; time is modelled as an opaque tick counter). -/
structure CDPipelineStatus where
  LastTimeUpdated : Nat
  Status : String
deriving DecidableEq, Repr

/-- `k8s.CDPipeline` custom resource.  Modelled from the spec: resource
payloads are structured records with name, namespace, spec and status; the
`TypeMeta` strings are the constants set in `CreatePipeline`. -/
structure K8sCDPipeline where
  APIVersion : String
  Kind : String
  Name : String
  Namespace : String
  Spec : CDPipelineSpec
  Status : CDPipelineStatus
deriving DecidableEq, Repr

/-- `k8s.StageSpec`: stage resource spec, fields fixed by `createCrd`. -/
structure StageSpec where
  Name : String
  Description : String
  QualityGate : String
  JenkinsStep : String
  TriggerType : String
  Order : Int
  CdPipeline : String
deriving DecidableEq, Repr

/-- `k8s.StageStatus`. -/
structure StageStatus where
  LastTimeUpdated : Nat
  Status : String
deriving DecidableEq, Repr

/-- `k8s.Stage` custom resource.  Modelled from the spec: resource payloads
are structured records with name, namespace, spec and status; field set fixed
by `createCrd`. -/
structure K8sStage where
  APIVersion : String
  Kind : String
  Name : String
  Namespace : String
  Spec : StageSpec
  Status : StageStatus
deriving DecidableEq, Repr

/-- Tri-state outcome of a resource-store `Get` (`found` / `IsNotFound` /
any other error), mirroring how the service discriminates on
`k8serrors.IsNotFound`. -/
inductive RestResult (α : Type) where
  | found (x : α)
  | notFound
  | err (msg : String)
deriving DecidableEq, Repr

/-- The error values the service can return:
`models.ErrNonValidRelatedBranch`, `models.ErrCDPipelineIsExists`, the
`fmt.Errorf("stage %s is already exists", ...)` of `checkStagesInK8s`, and
propagated store errors (kept with their message). -/
inductive ServiceErr where
  | errNonValidRelatedBranch
  | errCDPipelineIsExists
  | stageAlreadyExists (stageName : String)
  | upstream (msg : String)
deriving DecidableEq, Repr

/-- One store interaction performed by the service, recorded in execution
order.  The service never issues a delete, so there is no delete event. -/
inductive Event where
  | dbGetPipeline (name : String)
  | k8sGetPipeline (name : String)
  | k8sGetStage (name : String)
  | k8sPostPipeline (crd : K8sCDPipeline)
  | k8sPostStage (crd : K8sStage)
deriving DecidableEq, Repr

/-- Environment of store responses the one-shot creation/read flow runs
against: the read-model repository, the orchestrator resource client, the
resolve-check data, the clock and the configuration.

`existingAppBranches` is modelled from the spec:
`CodebaseService.checkAppAndBranch` is not under `src/`; per the spec, every
`ApplicationWithBranch` entry must resolve to an existing Codebase+Branch
pair, so the check is membership of each pair in the set of existing ones. -/
structure Env where
  existingAppBranches : List (String × String)
  dbPipeline : String → Except String (Option QueryCDPipeline)
  k8sPipeline : String → RestResult K8sCDPipeline
  k8sStage : String → RestResult K8sStage
  postPipeline : K8sCDPipeline → Except String K8sCDPipeline
  postStage : K8sStage → Except String K8sStage
  now : Nat
  cfg : Config

/-- `CodebaseService.checkAppAndBranch` (modelled from the spec, see `Env`):
true iff every requested application/branch pair resolves. -/
def checkAppAndBranch (env : Env) (apps : List ApplicationWithBranch) : Bool :=
  apps.all fun a => env.existingAppBranches.contains (a.ApplicationName, a.BranchName)

/-! ## Embedding of Go `sort.Slice` (`sort.go`, Go 1.8–1.18)

`sortStagesByOrder` calls `sort.Slice(stages, func(i, j int) bool { return
stages[i].Order < stages[j].Order })`.  The slice is modelled as a
`List QueryStage` indexed observably by `sg`; `data.Swap(i, j)` is `swapL`;
`data.Less(i, j)` is `lessO`. -/

/-- Read the slice element at index `i` (indices produced by the algorithm
are always in bounds; out of bounds reads return the default element). -/
def sg (l : List QueryStage) (i : Nat) : QueryStage :=
  l.getD i default

/-- `data.Swap(i, j)`. -/
def swapL (l : List QueryStage) (i j : Nat) : List QueryStage :=
  (l.set i (sg l j)).set j (sg l i)

/-- `data.Less(i, j)`, i.e. `stages[i].Order < stages[j].Order`. -/
def lessO (l : List QueryStage) (i j : Nat) : Bool :=
  (sg l i).Order < (sg l j).Order

/-- Inner loop of `insertionSort_func`:
`for j := i; j > a && data.Less(j, j-1); j-- { data.Swap(j, j-1) }`. -/
def insertLoop (a : Nat) : List QueryStage → Nat → List QueryStage
  | l, 0 => l
  | l, j + 1 =>
    if a ≤ j ∧ lessO l (j + 1) j then insertLoop a (swapL l (j + 1) j) j else l

/-- Outer loop of `insertionSort_func`, iterating `i` upward from `i0` while
`i < b`; the first argument is fuel bounding the remaining iterations. -/
def insertOuter (a b : Nat) : Nat → List QueryStage → Nat → List QueryStage
  | 0, l, _ => l
  | fuel + 1, l, i => if i < b then insertOuter a b fuel (insertLoop a l i) (i + 1) else l

/-- `insertionSort_func(data, a, b)`: insertion sort of the range `[a, b)`. -/
def insertionSortGo (l : List QueryStage) (a b : Nat) : List QueryStage :=
  insertOuter a b (b - a) l (a + 1)

/-- The gap-6 Shell-sort pass performed by `quickSort_func` on ranges of at
most 12 elements:
`for i := a + 6; i < b; i++ { if data.Less(i, i-6) { data.Swap(i, i-6) } }`;
fuel bounds the remaining iterations. -/
def shellLoop (b : Nat) : Nat → List QueryStage → Nat → List QueryStage
  | 0, l, _ => l
  | fuel + 1, l, i =>
    if i < b then
      shellLoop b fuel (if lessO l i (i - 6) then swapL l i (i - 6) else l) (i + 1)
    else l

/-- The short-range branch of `quickSort_func`: Shell pass then insertion
sort, guarded by `b - a > 1`. -/
def shortSortGo (l : List QueryStage) (a b : Nat) : List QueryStage :=
  if b - a > 1 then insertionSortGo (shellLoop b (b - (a + 6)) l (a + 6)) a b else l

/-- `siftDown_func(data, lo, hi, first)`: sift the element at heap position
`root` down a max-heap occupying positions `[0, hi)` at slice offset `first`.
The `child := max child sibling` selection of the Go loop is rendered as two
explicit branches. -/
def siftDownGo (lo hi first : Nat) (l : List QueryStage) (root : Nat) :
    List QueryStage :=
  if h : 2 * root + 1 < hi then
    if h2 : 2 * root + 2 < hi ∧ lessO l (first + (2 * root + 1)) (first + (2 * root + 2)) then
      if lessO l (first + root) (first + (2 * root + 2)) then
        siftDownGo lo hi first (swapL l (first + root) (first + (2 * root + 2))) (2 * root + 2)
      else l
    else
      if lessO l (first + root) (first + (2 * root + 1)) then
        siftDownGo lo hi first (swapL l (first + root) (first + (2 * root + 1))) (2 * root + 1)
      else l
  else l
termination_by hi - root
decreasing_by
  · omega
  · omega

/-- Heap-building loop of `heapSort_func`:
`for i := (hi-1)/2; i >= 0; i--`.  The `Nat` argument is `i + 1`. -/
def heapBuild (hi first : Nat) : List QueryStage → Nat → List QueryStage
  | l, 0 => l
  | l, i + 1 => heapBuild hi first (siftDownGo 0 hi first l i) i

/-- Extraction loop of `heapSort_func`:
`for i := hi - 1; i >= 0; i-- { data.Swap(first, first+i); siftDown(data, lo, i, first) }`.
The `Nat` argument is `i + 1`. -/
def heapExtract (first : Nat) : List QueryStage → Nat → List QueryStage
  | l, 0 => l
  | l, i + 1 => heapExtract first (siftDownGo 0 i first (swapL l first (first + i)) 0) i

/-- `heapSort_func(data, a, b)`. -/
def heapSortGo (l : List QueryStage) (a b : Nat) : List QueryStage :=
  let first := a
  let hi := b - a
  heapExtract first (heapBuild hi first l ((hi - 1) / 2 + 1)) hi

/-- `medianOfThree_func(data, m1, m0, m2)`. -/
def medianOfThreeGo (l : List QueryStage) (m1 m0 m2 : Nat) : List QueryStage :=
  let l := if lessO l m1 m0 then swapL l m1 m0 else l
  if lessO l m2 m1 then
    let l := swapL l m2 m1
    if lessO l m1 m0 then swapL l m1 m0 else l
  else l

/-- First scan of `doPivot_func`: `for ; a < c && data.Less(a, pivot); a++`;
fuel bounds the remaining iterations; only the index moves. -/
def dpScanA (l : List QueryStage) (pivot c : Nat) : Nat → Nat → Nat
  | 0, a => a
  | fuel + 1, a => if a < c ∧ lessO l a pivot then dpScanA l pivot c fuel (a + 1) else a

/-- `for ; b < c && !data.Less(pivot, b); b++` (index `b` moves up). -/
def dpScanB (l : List QueryStage) (pivot c : Nat) : Nat → Nat → Nat
  | 0, b => b
  | fuel + 1, b => if b < c ∧ ¬ lessO l pivot b then dpScanB l pivot c fuel (b + 1) else b

/-- `for ; b < c && data.Less(pivot, c-1); c--` (index `c` moves down). -/
def dpScanC (l : List QueryStage) (pivot b : Nat) : Nat → Nat → Nat
  | 0, c => c
  | fuel + 1, c => if b < c ∧ lessO l pivot (c - 1) then dpScanC l pivot b fuel (c - 1) else c

/-- Main partition loop of `doPivot_func` over indices `b` and `c`:
scan `b` up, scan `c` down, and while `b < c` swap `b` with `c-1`; fuel
bounds the remaining iterations. -/
def dpMainLoop (pivot : Nat) : Nat → List QueryStage → Nat → Nat →
    List QueryStage × Nat × Nat
  | 0, l, b, c => (l, b, c)
  | fuel + 1, l, b, c =>
    let b' := dpScanB l pivot c (c - b) b
    let c' := dpScanC l pivot b' (c - b') c
    if b' ≥ c' then (l, b', c')
    else dpMainLoop pivot fuel (swapL l b' (c' - 1)) (b' + 1) (c' - 1)

/-- The `protect` loop of `doPivot_func`:
`for ; a < b && !data.Less(b-1, pivot); b--` /
`for ; a < b && data.Less(a, pivot); a++` / swap and step; fuel bounds the
remaining iterations. -/
def dpScanB2 (l : List QueryStage) (pivot a : Nat) : Nat → Nat → Nat
  | 0, b => b
  | fuel + 1, b =>
    if a < b ∧ ¬ lessO l (b - 1) pivot then dpScanB2 l pivot a fuel (b - 1) else b

/-- `for ; a < b && data.Less(a, pivot); a++` inside the `protect` loop. -/
def dpScanA2 (l : List QueryStage) (pivot b : Nat) : Nat → Nat → Nat
  | 0, a => a
  | fuel + 1, a => if a < b ∧ lessO l a pivot then dpScanA2 l pivot b fuel (a + 1) else a

/-- Body of the `protect` branch of `doPivot_func`. -/
def dpProtectLoop (pivot : Nat) : Nat → List QueryStage → Nat → Nat →
    List QueryStage × Nat
  | 0, l, _, b => (l, b)
  | fuel + 1, l, a, b =>
    let b' := dpScanB2 l pivot a (b - a) b
    let a' := dpScanA2 l pivot b' (b' - a) a
    if a' ≥ b' then (l, b')
    else dpProtectLoop pivot fuel (swapL l a' (b' - 1)) (a' + 1) (b' - 1)

/-- `doPivot_func(data, lo, hi)`, returning the permuted slice together with
`(midlo, midhi)`. -/
def doPivotGo (l : List QueryStage) (lo hi : Nat) : List QueryStage × Nat × Nat :=
  let m := (lo + hi) / 2
  let l :=
    if hi - lo > 40 then
      let s := (hi - lo) / 8
      let l := medianOfThreeGo l lo (lo + s) (lo + 2 * s)
      let l := medianOfThreeGo l m (m - s) (m + s)
      medianOfThreeGo l (hi - 1) (hi - 1 - s) (hi - 1 - 2 * s)
    else l
  let l := medianOfThreeGo l lo m (hi - 1)
  let pivot := lo
  let a := dpScanA l pivot (hi - 1) (hi - 1 - (lo + 1)) (lo + 1)
  let (l, b, c) := dpMainLoop pivot (hi - 1 - a) l a (hi - 1)
  let protect : Bool := decide (hi - c < 5)
  let (l, b, c, protect) :=
    if !protect && decide (hi - c < (hi - lo) / 4) then
      -- the `dups` heuristic: move elements equal to the pivot into the middle
      let (l, c, d1) :=
        if ¬ lessO l pivot (hi - 1) then (swapL l c (hi - 1), c + 1, 1) else (l, c, 0)
      let (b, d2) := if ¬ lessO l (b - 1) pivot then (b - 1, 1) else (b, 0)
      let (l, b, d3) :=
        if ¬ lessO l m pivot then (swapL l m (b - 1), b - 1, 1) else (l, b, 0)
      (l, b, c, decide (d1 + d2 + d3 > 1))
    else (l, b, c, protect)
  let (l, b) :=
    if protect then dpProtectLoop pivot (b - (lo + 1)) l (lo + 1) b else (l, b)
  (swapL l pivot (b - 1), b - 1, c)

/-- The final pivot swap of `doPivot_func`, preceded by the optional
`protect` pass; split out of the tail of `doPivotGo` for proof structuring
(`doPivotGo` reduces to it definitionally). -/
def dpFinish (lo hi : Nat) (l : List QueryStage) (b c : Nat)
    (protect : Bool) : List QueryStage × Nat × Nat :=
  let (l, b) :=
    if protect then dpProtectLoop lo (b - (lo + 1)) l (lo + 1) b else (l, b)
  (swapL l lo (b - 1), b - 1, c)

/-- The tail of `doPivot_func` after the partition loop: the `dups`
heuristic followed by `dpFinish`; `doPivotGo` reduces to it definitionally. -/
def dpTail (lo hi m : Nat) (l : List QueryStage) (b c : Nat) :
    List QueryStage × Nat × Nat :=
  let protect : Bool := decide (hi - c < 5)
  let (l, b, c, protect) :=
    if !protect && decide (hi - c < (hi - lo) / 4) then
      let (l, c, d1) :=
        if ¬ lessO l lo (hi - 1) then (swapL l c (hi - 1), c + 1, 1)
        else (l, c, 0)
      let (b, d2) := if ¬ lessO l (b - 1) lo then (b - 1, 1) else (b, 0)
      let (l, b, d3) :=
        if ¬ lessO l m lo then (swapL l m (b - 1), b - 1, 1) else (l, b, 0)
      (l, b, c, decide (d1 + d2 + d3 > 1))
    else (l, b, c, protect)
  dpFinish lo hi l b c protect

/-- `quickSort_func(data, a, b, maxDepth)`: the introsort driver.  The first
argument is fuel bounding the recursion (both the `for b-a > 12` loop and the
recursive calls strictly shrink the range, so `b - a` fuel always suffices);
fuel is consumed only on the long-range path. -/
def quickSortGo : Nat → List QueryStage → Nat → Nat → Nat → List QueryStage
  | fuel, l, a, b, maxDepth =>
    if b - a > 12 then
      match fuel with
      | 0 => l
      | fuel + 1 =>
        if maxDepth = 0 then heapSortGo l a b
        else
          let r := doPivotGo l a b
          if r.2.1 - a < b - r.2.2 then
            quickSortGo fuel (quickSortGo fuel r.1 a r.2.1 (maxDepth - 1))
              r.2.2 b (maxDepth - 1)
          else
            quickSortGo fuel (quickSortGo fuel r.1 r.2.2 b (maxDepth - 1))
              a r.2.1 (maxDepth - 1)
    else shortSortGo l a b

/-- `maxDepth(n) = 2 * ⌈log2(n+1)⌉`: the loop counts the bits of `n`. -/
def bitsGo : Nat → Nat
  | 0 => 0
  | n + 1 => bitsGo ((n + 1) / 2) + 1
decreasing_by omega

/-- `maxDepth` from `sort.go`. -/
def maxDepthGo (n : Nat) : Nat := bitsGo n * 2

/-- `sort.Slice(stages, less)` over the whole slice. -/
def goSortSlice (l : List QueryStage) : List QueryStage :=
  quickSortGo l.length l 0 l.length (maxDepthGo l.length)

/-- `sortStagesByOrder` from `src/service/cd_pipeline.go`. -/
def sortStagesByOrder (stages : List QueryStage) : List QueryStage :=
  goSortSlice stages

/-! ## LinkBuilder: derived URL / name construction -/

/-- The Jenkins (CI) link template of `createJenkinsLink` /
`createJenkinsLinks`:
`fmt.Sprintf("https://%s-%s-edp-cicd.%s/job/%s", "jenkins", tenant, wildcard,
fmt.Sprintf("%s-%s", name, "cd-pipeline"))`; the fixed `"jenkins"` argument
is merged into the literal segment of the template. -/
def jenkinsLinkOf (cfg : Config) (pipelineName : String) : String :=
  "https://jenkins-" ++ cfg.tenant ++ "-edp-cicd." ++ cfg.wildcard
    ++ "/job/" ++ (pipelineName ++ "-" ++ "cd-pipeline")

/-- The project-link template of `createOpenshiftProjectLinks`:
`fmt.Sprintf(OpenshiftProjectLink+"%s-%s-%s", wildcard, tenant, pipelineName,
stage.Name)` with `OpenshiftProjectLink = "https://master.%s/console/project/"`. -/
def openshiftProjectLinkOf (cfg : Config) (pipelineName stageName : String) : String :=
  "https://master." ++ cfg.wildcard ++ "/console/project/"
    ++ cfg.tenant ++ "-" ++ pipelineName ++ "-" ++ stageName

/-- The VCS link of `createLinksForBranchEntities`. -/
def vcsLinkOf (cfg : Config) (codebaseName branchName : String) : String :=
  "https://" ++ "gerrit" ++ "-" ++ cfg.tenant ++ "-edp-cicd." ++ cfg.wildcard
    ++ "/gitweb?p=" ++ codebaseName ++ ".git;a=shortlog;h=refs/heads/" ++ branchName

/-- The per-branch CI link of `createLinksForBranchEntities`. -/
def branchCicdLinkOf (cfg : Config) (codebaseName branchName : String) : String :=
  "https://" ++ "jenkins" ++ "-" ++ cfg.tenant ++ "-edp-cicd." ++ cfg.wildcard
    ++ "/job/" ++ codebaseName ++ "/view/" ++ branchName.toUpper

/-- `createLinksForBranchEntities` from `src/service/cd_pipeline.go`. -/
def createLinksForBranchEntities (cfg : Config) (branches : List QueryCodebaseBranch) :
    List QueryCodebaseBranch :=
  branches.map fun branch =>
    { branch with
        VCSLink := vcsLinkOf cfg branch.Codebase.Name branch.Name
        CICDLink := branchCicdLinkOf cfg branch.Codebase.Name branch.Name }

/-- `createJenkinsLink` from `src/service/cd_pipeline.go`: sets the
pipeline's Jenkins link and the links of its branch associations. -/
def createJenkinsLink (cfg : Config) (p : QueryCDPipeline) : QueryCDPipeline :=
  { p with
      JenkinsLink := jenkinsLinkOf cfg p.Name
      CodebaseBranch := createLinksForBranchEntities cfg p.CodebaseBranch }

/-- `createOpenshiftProjectLinks` from `src/service/cd_pipeline.go`. -/
def createOpenshiftProjectLinks (cfg : Config) (stages : List QueryStage)
    (cdPipelineName : String) : List QueryStage :=
  stages.map fun stage =>
    { stage with OpenshiftProjectLink := openshiftProjectLinkOf cfg cdPipelineName stage.Name }

/-! ## PipelineOrchestrationService -/

/-- The enrichment `GetCDPipelineByName` performs on a pipeline row found in
the read model: Jenkins/branch links, then (for a non-empty stage list) stage
sort and project links, then the `AppName` denormalization on each branch
association. -/
def enrichPipeline (cfg : Config) (p : QueryCDPipeline) : QueryCDPipeline :=
  let p := createJenkinsLink cfg p
  let p :=
    if p.Stage.length ≠ 0 then
      { p with Stage := createOpenshiftProjectLinks cfg (sortStagesByOrder p.Stage) p.Name }
    else p
  { p with CodebaseBranch := p.CodebaseBranch.map fun branch =>
      { branch with AppName := branch.Codebase.Name } }

/-- `GetCDPipelineByName` from `src/service/cd_pipeline.go`, returning the
result together with the trace of store interactions. -/
def getCDPipelineByName (env : Env) (pipelineName : String) :
    Except ServiceErr (Option QueryCDPipeline) × List Event :=
  match env.dbPipeline pipelineName with
  | .error e => (.error (.upstream e), [.dbGetPipeline pipelineName])
  | .ok none => (.ok none, [.dbGetPipeline pipelineName])
  | .ok (some p) => (.ok (some (enrichPipeline env.cfg p)), [.dbGetPipeline pipelineName])

/-- `getCDPipelineCR` from `src/service/cd_pipeline.go`: a not-found from the
resource store is mapped to `nil` with no error; any other error is
propagated. -/
def getCDPipelineCR (env : Env) (pipelineName : String) :
    Except String (Option K8sCDPipeline) × List Event :=
  match env.k8sPipeline pipelineName with
  | .notFound => (.ok none, [.k8sGetPipeline pipelineName])
  | .err e => (.error e, [.k8sGetPipeline pipelineName])
  | .found p => (.ok (some p), [.k8sGetPipeline pipelineName])

/-- `convertPipelineData` from `src/service/cd_pipeline.go`: derives the
branch-reference strings `<applicationName>-<branchName>` in the input order
of `Applications`. -/
def convertPipelineData (cdPipeline : CDPipelineCreateCommand) : CDPipelineSpec :=
  { Name := cdPipeline.Name
    CodebaseBranch :=
      cdPipeline.Applications.map fun v => v.ApplicationName ++ "-" ++ v.BranchName
    ThirdPartyServices := cdPipeline.ThirdPartyServices }

/-- The pipeline custom resource built inline by `CreatePipeline` before the
`Post`. -/
def buildPipelineCrd (env : Env) (cdPipeline : CDPipelineCreateCommand) : K8sCDPipeline :=
  { APIVersion := "edp.epam.com/v1alpha1"
    Kind := "CDPipeline"
    Name := cdPipeline.Name
    Namespace := env.cfg.ns
    Spec := convertPipelineData cdPipeline
    Status := { LastTimeUpdated := env.now, Status := "initialized" } }

/-- `createCrd` from `src/service/cd_pipeline.go`: the stage custom resource,
named `<pipelineName>-<stageName>`, carrying the stage's attributes, the
back-reference to the pipeline, and status `"initialized"`. -/
def createCrd (cfg : Config) (now : Nat) (cdPipelineName : String) (stage : StageCreate) :
    K8sStage :=
  { APIVersion := "edp.epam.com/v1alpha1"
    Kind := "Stage"
    Name := cdPipelineName ++ "-" ++ stage.Name
    Namespace := cfg.ns
    Spec :=
      { Name := stage.Name
        Description := stage.Description
        QualityGate := stage.QualityGateType
        JenkinsStep := stage.StepName
        TriggerType := stage.TriggerType
        Order := stage.Order
        CdPipeline := cdPipelineName }
    Status := { LastTimeUpdated := now, Status := "initialized" } }

/-- `checkStagesInK8s` from `src/service/cd_pipeline.go`: for each requested
stage in input order, look the composite name up in the resource store; a
not-found continues, a found aborts with the stage-exists error, any other
error is propagated. -/
def checkStagesInK8s (env : Env) (cdPipelineName : String) :
    List StageCreate → Except ServiceErr Unit × List Event
  | [] => (.ok (), [])
  | stage :: rest =>
    let stageName := cdPipelineName ++ "-" ++ stage.Name
    match env.k8sStage stageName with
    | .notFound =>
      let (r, t) := checkStagesInK8s env cdPipelineName rest
      (r, .k8sGetStage stageName :: t)
    | .err e => (.error (.upstream e), [.k8sGetStage stageName])
    | .found _ => (.error (.stageAlreadyExists stage.Name), [.k8sGetStage stageName])

/-- `saveStagesIntoK8s` from `src/service/cd_pipeline.go`: build and post
each stage resource in input order, aborting on the first post error. -/
def saveStagesIntoK8s (env : Env) (cdPipelineName : String) :
    List StageCreate → Except ServiceErr (List K8sStage) × List Event
  | [] => (.ok [], [])
  | stage :: rest =>
    let crd := createCrd env.cfg env.now cdPipelineName stage
    match env.postStage crd with
    | .error e => (.error (.upstream e), [.k8sPostStage crd])
    | .ok stageCr =>
      let (r, t) := saveStagesIntoK8s env cdPipelineName rest
      (match r with
       | .error e => .error e
       | .ok l => .ok (stageCr :: l), .k8sPostStage crd :: t)

/-- `CreateStages` from `src/service/cd_pipeline.go`: check all requested
stages against the resource store, then save them all. -/
def createStages (env : Env) (cdPipeline : CDPipelineCreateCommand) :
    Except ServiceErr (List K8sStage) × List Event :=
  let (chk, t1) := checkStagesInK8s env cdPipeline.Name cdPipeline.Stages
  match chk with
  | .error e => (.error e, t1)
  | .ok () =>
    let (r, t2) := saveStagesIntoK8s env cdPipeline.Name cdPipeline.Stages
    (r, t1 ++ t2)

/-- `CreatePipeline` from `src/service/cd_pipeline.go`: resolve-check the
application/branch references, check both stores for a name collision, post
the pipeline resource, then create the stage resources. -/
def createPipeline (env : Env) (cdPipeline : CDPipelineCreateCommand) :
    Except ServiceErr K8sCDPipeline × List Event :=
  if checkAppAndBranch env cdPipeline.Applications = false then
    (.error .errNonValidRelatedBranch, [])
  else
    let (r1, t1) := getCDPipelineByName env cdPipeline.Name
    match r1 with
    | .error e => (.error e, t1)
    | .ok (some _) => (.error .errCDPipelineIsExists, t1)
    | .ok none =>
      let (r2, t2) := getCDPipelineCR env cdPipeline.Name
      match r2 with
      | .error e => (.error (.upstream e), t1 ++ t2)
      | .ok (some _) => (.error .errCDPipelineIsExists, t1 ++ t2)
      | .ok none =>
        let crd := buildPipelineCrd env cdPipeline
        match env.postPipeline crd with
        | .error e => (.error (.upstream e), t1 ++ t2 ++ [.k8sPostPipeline crd])
        | .ok cdPipelineCr =>
          let (r3, t3) := createStages env cdPipeline
          let t := t1 ++ t2 ++ [.k8sPostPipeline crd] ++ t3
          match r3 with
          | .error e => (.error e, t)
          | .ok _ => (.ok cdPipelineCr, t)

/-- Whether an event is a resource-store write. -/
def Event.isWrite : Event → Bool
  | .k8sPostPipeline _ => true
  | .k8sPostStage _ => true
  | _ => false

/-- Whether an event is a stage-resource write. -/
def Event.isStagePost : Event → Bool
  | .k8sPostStage _ => true
  | _ => false

/-- Whether an event is a stage-resource existence check. -/
def Event.isStageGet : Event → Bool
  | .k8sGetStage _ => true
  | _ => false

/-- The resource-store writes of a trace, in order. -/
def writesOf (t : List Event) : List Event :=
  t.filter Event.isWrite

/-! ## The name validation pattern

`models.CDPipelineCreateCommand.Name` and `models.StageCreate.Name` carry the
beego validation tag `Match(/^[a-z0-9]([-a-z0-9]*[a-z0-9])$/)`.  The regular
expression is rendered with a backtracking star combinator, so the matcher is
the pattern itself, not a paraphrase of it. -/

/-- The character class `[a-z0-9]`. -/
def isLowerAlnum (c : Char) : Bool :=
  (decide ('a' ≤ c) && decide (c ≤ 'z')) || (decide ('0' ≤ c) && decide (c ≤ '9'))

/-- The character class `[-a-z0-9]`. -/
def isLowerAlnumHyphen (c : Char) : Bool :=
  c = '-' || isLowerAlnum c

/-- Backtracking matcher for `cls* k`: either the star consumes nothing and
the continuation `k` matches, or the first character is in the class and the
star continues. -/
def matchStar (cls : Char → Bool) (k : List Char → Bool) : List Char → Bool
  | [] => k []
  | c :: rest => k (c :: rest) || (cls c && matchStar cls k rest)

/-- The whole anchored pattern `^[a-z0-9]([-a-z0-9]*[a-z0-9])$`: one leading
`[a-z0-9]`, then `[-a-z0-9]*`, then exactly one trailing `[a-z0-9]` at the
end of the string.  Note the group has no `?`: it is mandatory. -/
def matchNamePattern (s : String) : Bool :=
  match s.toList with
  | [] => false
  | c :: rest =>
    isLowerAlnum c &&
      matchStar isLowerAlnumHyphen
        (fun l => match l with
          | [d] => isLowerAlnum d
          | _ => false) rest

/-! ## Parsers for the derived-name / link templates

These definitions follow the spec's words, not the source (the source never
parses its own links): they are the second leg of the round-trip claim, to be
compared with the construction functions above. -/

/-- Split a character list at its last hyphen: `some (before, after)` where
`after` is hyphen-free, or `none` when no hyphen occurs. -/
def lastHyphenSplit : List Char → Option (List Char × List Char)
  | [] => none
  | c :: rest =>
    match lastHyphenSplit rest with
    | some (p, s) => some (c :: p, s)
    | none => if c = '-' then some ([], rest) else none

/-- Drop an expected leading character sequence, or fail. -/
def dropLead : List Char → List Char → Option (List Char)
  | [], l => some l
  | _ :: _, [] => none
  | p :: ps, c :: cs => if p = c then dropLead ps cs else none

/-- Drop an expected trailing character sequence, or fail. -/
def dropTail (tail l : List Char) : Option (List Char) :=
  (dropLead tail.reverse l.reverse).map List.reverse

/-- Spec-side parser of the derived stage resource name
`<pipelineName>-<stageName>`: split at the last hyphen. -/
def parseStageResourceName (s : String) : Option (String × String) :=
  (lastHyphenSplit s.toList).map fun pr => (String.mk pr.1, String.mk pr.2)

/-- Spec-side parser of the project link: strip the fixed
`https://master.<wildcard>/console/project/<tenant>-` lead, then split the
remaining `<pipelineName>-<stageName>` at its last hyphen. -/
def parseProjectLink (cfg : Config) (link : String) : Option (String × String) :=
  (dropLead ("https://master." ++ cfg.wildcard ++ "/console/project/"
      ++ cfg.tenant ++ "-").toList link.toList).bind
    fun rest => (lastHyphenSplit rest).map fun pr => (String.mk pr.1, String.mk pr.2)

/-- Spec-side parser of the CI (Jenkins) link: strip the fixed
`https://jenkins-<tenant>-edp-cicd.<wildcard>/job/` lead and the fixed
`-cd-pipeline` tail, leaving the pipeline name. -/
def parseJenkinsLink (cfg : Config) (link : String) : Option String :=
  ((dropLead ("https://jenkins-" ++ cfg.tenant ++ "-edp-cicd." ++ cfg.wildcard
      ++ "/job/").toList link.toList).bind
    fun rest => dropTail "-cd-pipeline".toList rest).map String.mk

/-! ## Helper lemmas about the creation flow -/

/-! ## Verification-side definitions: sortedness predicates, heap view,
witness fixtures -/

/-- Witness configuration. -/
def wCfg : Config := ⟨"t", "w", "ns"⟩

/-- Witness stage `build`, `Order` 0. -/
def wBuild : StageCreate := ⟨"build", "d1", "s1", "q1", "manual", 0⟩

/-- Witness stage `deploy`, `Order` 1. -/
def wDeploy : StageCreate := ⟨"deploy", "d2", "s2", "q2", "manual", 1⟩

/-- The spec's scenario command. -/
def wCmd : CDPipelineCreateCommand :=
  { Name := "release-pipe", Applications := [⟨"svc-a", "master"⟩],
    ThirdPartyServices := [], Stages := [wBuild, wDeploy] }

/-- Witness environment: clean stores, every write succeeds. -/
def wEnv : Env :=
  { existingAppBranches := [("svc-a", "master")]
    dbPipeline := fun _ => .ok none
    k8sPipeline := fun _ => .notFound
    k8sStage := fun _ => .notFound
    postPipeline := fun c => .ok c
    postStage := fun c => .ok c
    now := 3
    cfg := wCfg }

/-- A pre-existing stage resource used by witnesses. -/
def wStageCr : K8sStage := ⟨"", "", "", "", ⟨"", "", "", "", "", 0, ""⟩, ⟨0, ""⟩⟩

/-- A pre-existing read-model pipeline row used by witnesses. -/
def wRow : QueryCDPipeline := ⟨"release-pipe", "active", "", [], []⟩

/-- Witness environment in which the composite name of the scenario's second
stage already exists in the resource store. -/
def wEnvStageDup : Env :=
  { wEnv with k8sStage := fun n =>
      if n = "release-pipe-deploy" then .found wStageCr else .notFound }

/-- Ascending order of the `Order` field over an index range `[a, b)`. -/
def SortedRange (l : List QueryStage) (a b : Nat) : Prop :=
  ∀ p q, a ≤ p → p < q → q < b → (sg l p).Order ≤ (sg l q).Order

/-- The concrete stage list refuting stability: seven stages, where the two
stages of `Order` 5 are named `x` (first) and `y` (fourth). -/
def c5input : List QueryStage :=
  [⟨0, "x", "", "", "", "", 5, ""⟩, ⟨0, "b", "", "", "", "", 0, ""⟩,
   ⟨0, "c", "", "", "", "", 0, ""⟩, ⟨0, "y", "", "", "", "", 5, ""⟩,
   ⟨0, "e", "", "", "", "", 0, ""⟩, ⟨0, "f", "", "", "", "", 0, ""⟩,
   ⟨0, "g", "", "", "", "", 3, ""⟩]

/-- Pointwise predicate preservation over an index range. -/
def BoundPres (l r : List QueryStage) (a b : Nat) : Prop :=
  ∀ P : QueryStage → Prop, (∀ k, a ≤ k → k < b → P (sg l k)) →
    ∀ k, a ≤ k → k < b → P (sg r k)

/-- Heap value at heap position `k` of the range rooted at slice offset
`first`. -/
def hval (l : List QueryStage) (first k : Nat) : Int :=
  (sg l (first + k)).Order

/-- All parent/child links of the implicit max-heap on heap positions
`[0, hi)` hold for parents `s` and above. -/
def HeapLinks (l : List QueryStage) (first hi s : Nat) : Prop :=
  ∀ i c, s ≤ i → (c = 2 * i + 1 ∨ c = 2 * i + 2) → c < hi →
    hval l first c ≤ hval l first i

/-- A read-model pipeline row whose stages arrive with `Order` values
`[2, 0, 1]`, used by the C6 witness. -/
def wP6 : QueryCDPipeline :=
  { Name := "release-pipe"
    Status := "active"
    JenkinsLink := ""
    Stage := [⟨0, "deploy", "", "", "", "", 2, ""⟩,
      ⟨1, "build", "", "", "", "", 0, ""⟩, ⟨2, "qa", "", "", "", "", 1, ""⟩]
    CodebaseBranch := [⟨"master", "", ⟨"svc-a"⟩, "", ""⟩] }

/-- A store environment whose read model holds `wP6`. -/
def wEnv6 : Env :=
  { wEnv with
      dbPipeline := fun s =>
        if s = "release-pipe" then .ok (some wP6) else .ok none }

theorem writesOf_append (a b : List Event) :
    writesOf (a ++ b) = writesOf a ++ writesOf b := by
  simp [writesOf, List.filter_append]

theorem getCDPipelineByName_of_none {env : Env} {n : String}
    (h : env.dbPipeline n = .ok none) :
    getCDPipelineByName env n = (.ok none, [.dbGetPipeline n]) := by
  simp [getCDPipelineByName, h]

theorem getCDPipelineByName_of_some {env : Env} {n : String} {p : QueryCDPipeline}
    (h : env.dbPipeline n = .ok (some p)) :
    getCDPipelineByName env n =
      (.ok (some (enrichPipeline env.cfg p)), [.dbGetPipeline n]) := by
  simp [getCDPipelineByName, h]

theorem getCDPipelineCR_of_notFound {env : Env} {n : String}
    (h : env.k8sPipeline n = .notFound) :
    getCDPipelineCR env n = (.ok none, [.k8sGetPipeline n]) := by
  simp [getCDPipelineCR, h]

theorem getCDPipelineCR_of_found {env : Env} {n : String} {p : K8sCDPipeline}
    (h : env.k8sPipeline n = .found p) :
    getCDPipelineCR env n = (.ok (some p), [.k8sGetPipeline n]) := by
  simp [getCDPipelineCR, h]

theorem getCDPipelineCR_of_err {env : Env} {n : String} {e : String}
    (h : env.k8sPipeline n = .err e) :
    getCDPipelineCR env n = (.error e, [.k8sGetPipeline n]) := by
  simp [getCDPipelineCR, h]

/-- When every requested stage is absent from the resource store, the check
loop succeeds and its trace is exactly one existence check per stage, in
input order. -/
theorem checkStagesInK8s_of_allAbsent {env : Env} (p : String) :
    ∀ (stages : List StageCreate),
      (∀ st ∈ stages, env.k8sStage (p ++ "-" ++ st.Name) = .notFound) →
      checkStagesInK8s env p stages =
        (.ok (), stages.map fun st => .k8sGetStage (p ++ "-" ++ st.Name))
  | [], _ => by simp [checkStagesInK8s]
  | st :: rest, h => by
    have hst := h st (by simp)
    have hrest := checkStagesInK8s_of_allAbsent p rest
      (fun s hs => h s (by simp [hs]))
    simp [checkStagesInK8s, hst, hrest]

/-- The check loop aborts with the stage-exists error at the first stage
whose composite name is found, leaving the trace at the checks so far. -/
theorem checkStagesInK8s_of_found {env : Env} (p : String) :
    ∀ (pre : List StageCreate) {st : StageCreate} (rest : List StageCreate)
      {x : K8sStage},
      (∀ s ∈ pre, env.k8sStage (p ++ "-" ++ s.Name) = .notFound) →
      env.k8sStage (p ++ "-" ++ st.Name) = .found x →
      checkStagesInK8s env p (pre ++ st :: rest) =
        (.error (.stageAlreadyExists st.Name),
          (pre.map fun s => .k8sGetStage (p ++ "-" ++ s.Name))
            ++ [.k8sGetStage (p ++ "-" ++ st.Name)])
  | [], st, rest, x, _, hst => by simp [checkStagesInK8s, hst]
  | s :: pre, st, rest, x, hpre, hst => by
    have hs := hpre s (by simp)
    have ih := checkStagesInK8s_of_found p pre rest
      (fun a ha => hpre a (by simp [ha])) hst
    simp [checkStagesInK8s, hs, ih]

/-- Every event the check loop records is a stage existence check. -/
theorem checkStagesInK8s_events {env : Env} {p : String} :
    ∀ (stages : List StageCreate) {e : Event},
      e ∈ (checkStagesInK8s env p stages).2 → e.isStageGet = true
  | [], e => by simp [checkStagesInK8s]
  | st :: rest, e => by
    intro hmem
    cases h : env.k8sStage (p ++ "-" ++ st.Name) with
    | notFound =>
      simp only [checkStagesInK8s, h, List.mem_cons] at hmem
      rcases hmem with rfl | hmem2
      · rfl
      · exact checkStagesInK8s_events rest hmem2
    | err msg =>
      simp only [checkStagesInK8s, h, List.mem_singleton] at hmem
      subst hmem; rfl
    | found x =>
      simp only [checkStagesInK8s, h, List.mem_singleton] at hmem
      subst hmem; rfl

/-- If the check loop succeeds, it has checked every requested stage. -/
theorem checkStagesInK8s_ok_mem {env : Env} {p : String} :
    ∀ {stages : List StageCreate},
      (checkStagesInK8s env p stages).1 = .ok () →
      ∀ st ∈ stages,
        Event.k8sGetStage (p ++ "-" ++ st.Name) ∈ (checkStagesInK8s env p stages).2
  | [], _, st, hst => by simp at hst
  | s :: rest, h, st, hmem => by
    cases hk : env.k8sStage (p ++ "-" ++ s.Name) with
    | notFound =>
      have hrest : (checkStagesInK8s env p rest).1 = .ok () := by
        simpa only [checkStagesInK8s, hk] using h
      simp only [checkStagesInK8s, hk, List.mem_cons]
      rcases List.mem_cons.mp hmem with rfl | hmem2
      · left; rfl
      · right; exact checkStagesInK8s_ok_mem hrest st hmem2
    | err msg => simp [checkStagesInK8s, hk] at h
    | found x => simp [checkStagesInK8s, hk] at h

/-- When every post succeeds, the save loop succeeds and its trace is exactly
one stage-resource write per requested stage, in input order, each carrying
the crd built by `createCrd`. -/
theorem saveStagesIntoK8s_of_allOk {env : Env} (p : String)
    (hpost : ∀ c, ∃ r, env.postStage c = .ok r) :
    ∀ (stages : List StageCreate),
      (∃ l, (saveStagesIntoK8s env p stages).1 = .ok l) ∧
      (saveStagesIntoK8s env p stages).2 =
        stages.map fun st => .k8sPostStage (createCrd env.cfg env.now p st)
  | [] => by simp [saveStagesIntoK8s]
  | st :: rest => by
    obtain ⟨r, hr⟩ := hpost (createCrd env.cfg env.now p st)
    obtain ⟨⟨l, hl⟩, ht⟩ := saveStagesIntoK8s_of_allOk p hpost rest
    refine ⟨⟨r :: l, ?_⟩, ?_⟩ <;>
      simp [saveStagesIntoK8s, hr, hl, ht]

/-- Every event the save loop records is a stage-resource write. -/
theorem saveStagesIntoK8s_events {env : Env} {p : String} :
    ∀ (stages : List StageCreate) {e : Event},
      e ∈ (saveStagesIntoK8s env p stages).2 → e.isStagePost = true
  | [], e => by simp [saveStagesIntoK8s]
  | st :: rest, e => by
    intro hmem
    cases h : env.postStage (createCrd env.cfg env.now p st) with
    | error msg =>
      simp only [saveStagesIntoK8s, h, List.mem_singleton] at hmem
      subst hmem; rfl
    | ok r =>
      simp only [saveStagesIntoK8s, h, List.mem_cons] at hmem
      rcases hmem with rfl | hmem2
      · rfl
      · exact saveStagesIntoK8s_events rest hmem2

/-- The save loop never produces the stage-exists error: its only error is a
propagated store error. -/
theorem saveStagesIntoK8s_error_upstream {env : Env} {p : String} :
    ∀ (stages : List StageCreate) {e : ServiceErr},
      (saveStagesIntoK8s env p stages).1 = .error e → ∃ msg, e = .upstream msg
  | [], e => by simp [saveStagesIntoK8s]
  | st :: rest, e => by
    intro he
    cases h : env.postStage (createCrd env.cfg env.now p st) with
    | error msg =>
      simp only [saveStagesIntoK8s, h, Except.error.injEq] at he
      exact ⟨msg, he.symm⟩
    | ok r =>
      simp only [saveStagesIntoK8s, h] at he
      cases hrec : (saveStagesIntoK8s env p rest).1 with
      | error e2 =>
        rw [hrec] at he
        simp only [Except.error.injEq] at he
        subst he
        exact saveStagesIntoK8s_error_upstream rest hrec
      | ok l =>
        rw [hrec] at he
        simp at he

theorem writesOf_map_stageGet {α : Type} (f : α → String) (l : List α) :
    writesOf (l.map fun x => Event.k8sGetStage (f x)) = [] := by
  induction l with
  | nil => rfl
  | cons x xs ih => simp [writesOf, Event.isWrite]

theorem writesOf_map_stagePost {α : Type} (f : α → K8sStage) (l : List α) :
    writesOf (l.map fun x => Event.k8sPostStage (f x)) =
      l.map fun x => Event.k8sPostStage (f x) := by
  induction l with
  | nil => rfl
  | cons x xs ih => simp [writesOf, Event.isWrite]

/-- When the reference check passes, both stores show no collision and every
stage is absent, `createStages` succeeds with the full check-then-save
trace. -/
theorem createStages_success {env : Env} {cmd : CDPipelineCreateCommand}
    (habsent : ∀ st ∈ cmd.Stages, env.k8sStage (cmd.Name ++ "-" ++ st.Name) = .notFound)
    (hpostS : ∀ c, ∃ r, env.postStage c = .ok r) :
    ∃ l, createStages env cmd =
      (.ok l,
        (cmd.Stages.map fun st => .k8sGetStage (cmd.Name ++ "-" ++ st.Name))
          ++ cmd.Stages.map fun st => .k8sPostStage (createCrd env.cfg env.now cmd.Name st)) := by
  have hchk := checkStagesInK8s_of_allAbsent cmd.Name cmd.Stages habsent
  obtain ⟨⟨l, hl⟩, ht⟩ := saveStagesIntoK8s_of_allOk cmd.Name hpostS cmd.Stages
  exact ⟨l, by simp [createStages, hchk, hl, ht]⟩
/-! ## The claims

Concrete fixtures used by the witnesses: a configuration, the spec's own
scenario command (`release-pipe` with stages `build` and `deploy`), and
environments differing in what the stores answer. -/

/-- C3: For every creation command containing an application/branch pair
that does not resolve, `CreatePipeline` fails with the invalid-reference
error and performs no interaction with either store at all (the reference
check is the first step: the trace is empty, so there is neither an
existence query nor a write). -/
theorem claim_C3_invalid_reference_first (env : Env) (cmd : CDPipelineCreateCommand)
    (h : checkAppAndBranch env cmd.Applications = false) :
    createPipeline env cmd = (.error .errNonValidRelatedBranch, []) := by
  simp [createPipeline, h]

/-- Witness for C3 at a concrete command whose single application/branch
pair does not resolve. -/
theorem claim_C3_witness :
    createPipeline { wEnv with existingAppBranches := [] } wCmd =
      (.error .errNonValidRelatedBranch, []) :=
  claim_C3_invalid_reference_first _ _ (by rfl)

/-- C2: under a passing reference check, a pipeline-name collision in the
read-model store makes `CreatePipeline` fail with the already-exists error
and zero resource-store writes (the write projection of the trace is empty),
and a collision in the resource store alone likewise fails with the
already-exists error (also without any write). -/
theorem claim_C2_duplicate_name_rejected (env : Env) (cmd : CDPipelineCreateCommand)
    (hchk : checkAppAndBranch env cmd.Applications = true) :
    (∀ p, env.dbPipeline cmd.Name = .ok (some p) →
      (createPipeline env cmd).1 = .error .errCDPipelineIsExists ∧
        writesOf (createPipeline env cmd).2 = [])
    ∧ (env.dbPipeline cmd.Name = .ok none →
      ∀ p, env.k8sPipeline cmd.Name = .found p →
        (createPipeline env cmd).1 = .error .errCDPipelineIsExists ∧
          writesOf (createPipeline env cmd).2 = []) := by
  constructor
  · intro p hdb
    have h1 := getCDPipelineByName_of_some hdb
    simp [createPipeline, hchk, h1, writesOf, Event.isWrite]
  · intro hdb p hk
    have h1 := getCDPipelineByName_of_none hdb
    have h2 := getCDPipelineCR_of_found hk
    simp [createPipeline, hchk, h1, h2, writesOf, Event.isWrite]

/-- Witness for C2 at a concrete environment whose read model already holds
the requested name. -/
theorem claim_C2_witness :
    (createPipeline { wEnv with dbPipeline := fun _ => .ok (some wRow) } wCmd).1 =
      .error .errCDPipelineIsExists
    ∧ writesOf (createPipeline { wEnv with dbPipeline := fun _ => .ok (some wRow) } wCmd).2 =
      [] :=
  (claim_C2_duplicate_name_rejected _ _ (by rfl)).1 wRow rfl

/-- C7: not-found is never conflated with failure.  (i) A name absent from
the read model makes `GetCDPipelineByName` return `nil` with no error.
(ii) In `getCDPipelineCR` a not-found is mapped to `nil` with no error, and
during creation it lets the flow proceed to the pipeline write (the
pipeline-post event is in the trace), while (iii) any other lookup error is
propagated to the caller as an error. -/
theorem claim_C7_notFound_not_conflated :
    (∀ (env : Env) (n : String), env.dbPipeline n = .ok none →
      getCDPipelineByName env n = (.ok none, [.dbGetPipeline n]))
    ∧ (∀ (env : Env) (n : String), env.k8sPipeline n = .notFound →
      (getCDPipelineCR env n).1 = .ok none)
    ∧ (∀ (env : Env) (cmd : CDPipelineCreateCommand),
      checkAppAndBranch env cmd.Applications = true →
      env.dbPipeline cmd.Name = .ok none →
      env.k8sPipeline cmd.Name = .notFound →
      Event.k8sPostPipeline (buildPipelineCrd env cmd) ∈ (createPipeline env cmd).2)
    ∧ (∀ (env : Env) (cmd : CDPipelineCreateCommand) (e : String),
      checkAppAndBranch env cmd.Applications = true →
      env.dbPipeline cmd.Name = .ok none →
      env.k8sPipeline cmd.Name = .err e →
      (createPipeline env cmd).1 = .error (.upstream e)) := by
  refine ⟨?_, ?_, ?_, ?_⟩
  · intro env n h
    exact getCDPipelineByName_of_none h
  · intro env n h
    rw [getCDPipelineCR_of_notFound h]
  · intro env cmd hchk hdb hk
    have h1 := getCDPipelineByName_of_none hdb
    have h2 := getCDPipelineCR_of_notFound hk
    cases hp : env.postPipeline (buildPipelineCrd env cmd) with
    | error e => simp [createPipeline, hchk, h1, h2, hp]
    | ok r =>
      cases hcs : createStages env cmd with
      | mk r3 t3 => cases r3 <;> simp [createPipeline, hchk, h1, h2, hp, hcs]
  · intro env cmd e hchk hdb hk
    have h1 := getCDPipelineByName_of_none hdb
    have h2 := getCDPipelineCR_of_err hk
    simp [createPipeline, hchk, h1, h2]

/-- Witness for C7: at a concrete environment the upstream lookup error is
propagated. -/
theorem claim_C7_witness :
    (createPipeline { wEnv with k8sPipeline := fun _ => .err "boom" } wCmd).1 =
      .error (.upstream "boom") :=
  claim_C7_notFound_not_conflated.2.2.2 _ _ "boom" (by rfl) rfl rfl

/-- C1: for every creation command whose references all resolve, whose name
collides in neither store, and whose store writes succeed, `CreatePipeline`
succeeds, and the resource-store writes of the run are exactly one pipeline
resource followed by one stage resource per requested stage in input order;
the written pipeline resource carries the branch-reference strings
`<applicationName>-<branchName>` in the input order of `Applications` and
status `"initialized"`, and every written stage resource carries the stage's
`Description`, `QualityGate`, `JenkinsStep`, `TriggerType`, `Order`, the
back-reference to the pipeline name, and status `"initialized"`. -/
theorem claim_C1_create_success (env : Env) (cmd : CDPipelineCreateCommand)
    (hchk : checkAppAndBranch env cmd.Applications = true)
    (hdb : env.dbPipeline cmd.Name = .ok none)
    (hk : env.k8sPipeline cmd.Name = .notFound)
    (habsent : ∀ st ∈ cmd.Stages, env.k8sStage (cmd.Name ++ "-" ++ st.Name) = .notFound)
    (hpostP : ∀ c, ∃ r, env.postPipeline c = .ok r)
    (hpostS : ∀ c, ∃ r, env.postStage c = .ok r) :
    (∃ r, (createPipeline env cmd).1 = .ok r)
    ∧ writesOf (createPipeline env cmd).2 =
        Event.k8sPostPipeline (buildPipelineCrd env cmd)
          :: (cmd.Stages.map fun st =>
                Event.k8sPostStage (createCrd env.cfg env.now cmd.Name st))
    ∧ (buildPipelineCrd env cmd).Spec.CodebaseBranch =
        (cmd.Applications.map fun a => a.ApplicationName ++ "-" ++ a.BranchName)
    ∧ (buildPipelineCrd env cmd).Status.Status = "initialized"
    ∧ ∀ st ∈ cmd.Stages,
        (createCrd env.cfg env.now cmd.Name st).Name = cmd.Name ++ "-" ++ st.Name ∧
        (createCrd env.cfg env.now cmd.Name st).Spec.Description = st.Description ∧
        (createCrd env.cfg env.now cmd.Name st).Spec.QualityGate = st.QualityGateType ∧
        (createCrd env.cfg env.now cmd.Name st).Spec.JenkinsStep = st.StepName ∧
        (createCrd env.cfg env.now cmd.Name st).Spec.TriggerType = st.TriggerType ∧
        (createCrd env.cfg env.now cmd.Name st).Spec.Order = st.Order ∧
        (createCrd env.cfg env.now cmd.Name st).Spec.CdPipeline = cmd.Name ∧
        (createCrd env.cfg env.now cmd.Name st).Status.Status = "initialized" := by
  have h1 := getCDPipelineByName_of_none hdb
  have h2 := getCDPipelineCR_of_notFound hk
  obtain ⟨r, hr⟩ := hpostP (buildPipelineCrd env cmd)
  obtain ⟨l, hcs⟩ := createStages_success habsent hpostS
  have hrun :
      createPipeline env cmd =
        (.ok r,
          [Event.dbGetPipeline cmd.Name] ++ [Event.k8sGetPipeline cmd.Name]
            ++ [Event.k8sPostPipeline (buildPipelineCrd env cmd)]
            ++ ((cmd.Stages.map fun st => Event.k8sGetStage (cmd.Name ++ "-" ++ st.Name))
                ++ cmd.Stages.map fun st =>
                    Event.k8sPostStage (createCrd env.cfg env.now cmd.Name st))) := by
    simp [createPipeline, hchk, h1, h2, hr, hcs]
  refine ⟨⟨r, by rw [hrun]⟩, ?_, by simp [buildPipelineCrd, convertPipelineData], rfl,
    fun st _ => ⟨rfl, rfl, rfl, rfl, rfl, rfl, rfl, rfl⟩⟩
  rw [hrun]
  simp only [writesOf_append, writesOf_map_stageGet, writesOf_map_stagePost]
  simp [writesOf, Event.isWrite]

/-- Witness for C1: the spec's scenario run against clean stores succeeds
with exactly the pipeline write followed by the two stage writes. -/
theorem claim_C1_witness :
    (∃ r, (createPipeline wEnv wCmd).1 = .ok r)
    ∧ writesOf (createPipeline wEnv wCmd).2 =
        Event.k8sPostPipeline (buildPipelineCrd wEnv wCmd)
          :: [Event.k8sPostStage (createCrd wCfg 3 "release-pipe" wBuild),
              Event.k8sPostStage (createCrd wCfg 3 "release-pipe" wDeploy)] := by
  have h := claim_C1_create_success wEnv wCmd (by rfl) rfl rfl
    (fun st _ => rfl) (fun c => ⟨c, rfl⟩) (fun c => ⟨c, rfl⟩)
  exact ⟨h.1, h.2.1⟩

/-- C4: under a passing reference check with both name checks clean and a
successful pipeline write, a requested stage whose derived composite name
`<pipelineName>-<stageName>` already exists in the resource store makes the
whole operation abort with the stage-exists error, while the write projection
of the trace is exactly the pipeline write: the pipeline resource persisted
earlier in the same call stays created, and no compensating delete occurs
(the event vocabulary of the service has no delete at all). -/
theorem claim_C4_stage_collision_keeps_pipeline (env : Env)
    (cmd : CDPipelineCreateCommand) (pre : List StageCreate) (st : StageCreate)
    (rest : List StageCreate) (x : K8sStage) (r : K8sCDPipeline)
    (hchk : checkAppAndBranch env cmd.Applications = true)
    (hdb : env.dbPipeline cmd.Name = .ok none)
    (hk : env.k8sPipeline cmd.Name = .notFound)
    (hpostP : env.postPipeline (buildPipelineCrd env cmd) = .ok r)
    (hsplit : cmd.Stages = pre ++ st :: rest)
    (hpre : ∀ s ∈ pre, env.k8sStage (cmd.Name ++ "-" ++ s.Name) = .notFound)
    (hst : env.k8sStage (cmd.Name ++ "-" ++ st.Name) = .found x) :
    (createPipeline env cmd).1 = .error (.stageAlreadyExists st.Name)
    ∧ writesOf (createPipeline env cmd).2 =
        [Event.k8sPostPipeline (buildPipelineCrd env cmd)] := by
  have h1 := getCDPipelineByName_of_none hdb
  have h2 := getCDPipelineCR_of_notFound hk
  have hchk2 := checkStagesInK8s_of_found cmd.Name pre rest hpre hst
  have hcs : createStages env cmd =
      (.error (.stageAlreadyExists st.Name),
        (pre.map fun s => .k8sGetStage (cmd.Name ++ "-" ++ s.Name))
          ++ [.k8sGetStage (cmd.Name ++ "-" ++ st.Name)]) := by
    rw [createStages, hsplit, hchk2]
  have hrun :
      createPipeline env cmd =
        (.error (.stageAlreadyExists st.Name),
          [Event.dbGetPipeline cmd.Name] ++ [Event.k8sGetPipeline cmd.Name]
            ++ [Event.k8sPostPipeline (buildPipelineCrd env cmd)]
            ++ ((pre.map fun s => Event.k8sGetStage (cmd.Name ++ "-" ++ s.Name))
                ++ [Event.k8sGetStage (cmd.Name ++ "-" ++ st.Name)])) := by
    simp [createPipeline, hchk, h1, h2, hpostP, hcs]
  rw [hrun]
  refine ⟨rfl, ?_⟩
  simp only [writesOf_append, writesOf_map_stageGet]
  simp [writesOf, Event.isWrite]

/-- Witness for C4: the scenario command where the composite name of the
second stage already exists; the run fails with the stage-exists error yet
the pipeline write stays in the trace. -/
theorem claim_C4_witness :
    (createPipeline wEnvStageDup wCmd).1 = .error (.stageAlreadyExists "deploy")
    ∧ writesOf (createPipeline wEnvStageDup wCmd).2 =
      [Event.k8sPostPipeline (buildPipelineCrd wEnvStageDup wCmd)] :=
  claim_C4_stage_collision_keeps_pipeline _ wCmd [wBuild] wDeploy [] wStageCr _
    (by rfl) rfl rfl rfl rfl
    (by intro s hs; simp only [List.mem_singleton] at hs; subst hs; rfl) (by rfl)

/-- If an event is a stage existence check it is not a stage write. -/
theorem isStageGet_not_isStagePost {e : Event} (h : e.isStageGet = true) :
    e.isStagePost = false := by
  cases e <;> simp_all [Event.isStageGet, Event.isStagePost]

/-- If an event is a stage write it is not a stage existence check. -/
theorem isStagePost_not_isStageGet {e : Event} (h : e.isStagePost = true) :
    e.isStageGet = false := by
  cases e <;> simp_all [Event.isStageGet, Event.isStagePost]

theorem createStages_of_check_error {env : Env} {cmd : CDPipelineCreateCommand}
    {e : ServiceErr} (h : (checkStagesInK8s env cmd.Name cmd.Stages).1 = .error e) :
    createStages env cmd = (.error e, (checkStagesInK8s env cmd.Name cmd.Stages).2) := by
  simp [createStages, h]

theorem createStages_of_check_ok {env : Env} {cmd : CDPipelineCreateCommand}
    (h : (checkStagesInK8s env cmd.Name cmd.Stages).1 = .ok ()) :
    createStages env cmd =
      ((saveStagesIntoK8s env cmd.Name cmd.Stages).1,
        (checkStagesInK8s env cmd.Name cmd.Stages).2
          ++ (saveStagesIntoK8s env cmd.Name cmd.Stages).2) := by
  simp [createStages, h]

/-- Shape lemma for runs that never enter the stage phase: the three C10
conclusions hold for any result/trace pair without stage writes, with the
membership obligation generic in the consequent. -/
theorem c10_shape_no_stage {Q : Prop} (p : Except ServiceErr K8sCDPipeline × List Event)
    (hres : ∀ s, p.1 ≠ .error (.stageAlreadyExists s))
    (ht : ∀ e ∈ p.2, e.isStagePost = false) :
    (∃ t1 t2, p.2 = t1 ++ t2
      ∧ (∀ e ∈ t1, e.isStagePost = false)
      ∧ (∀ e ∈ t2, e.isStageGet = false))
    ∧ ((∃ e ∈ p.2, e.isStagePost = true) → Q)
    ∧ (∀ s, p.1 = .error (.stageAlreadyExists s) → ∀ e ∈ p.2, e.isStagePost = false) := by
  refine ⟨⟨p.2, [], by simp, ht, by simp⟩, ?_, fun s hs => absurd hs (hres s)⟩
  rintro ⟨e, he, hp⟩
  rw [ht e he] at hp
  cases hp

/-- C10: the stage-creation phase is check-all-then-write-all.  For every
environment and command: (i) the trace splits into a first part without any
stage write followed by a second part without any stage existence check —
every check precedes every write; (ii) if any stage write happened at all,
then every requested stage's existence check is in the trace; and (iii)
whenever the run fails with the stage-exists error, the trace contains no
stage write at all — only the pipeline resource was written. -/
theorem claim_C10_check_all_then_write_all (env : Env) (cmd : CDPipelineCreateCommand) :
    (∃ t1 t2, (createPipeline env cmd).2 = t1 ++ t2
      ∧ (∀ e ∈ t1, e.isStagePost = false)
      ∧ (∀ e ∈ t2, e.isStageGet = false))
    ∧ ((∃ e ∈ (createPipeline env cmd).2, e.isStagePost = true) →
        ∀ st ∈ cmd.Stages,
          Event.k8sGetStage (cmd.Name ++ "-" ++ st.Name) ∈ (createPipeline env cmd).2)
    ∧ (∀ s, (createPipeline env cmd).1 = .error (.stageAlreadyExists s) →
        ∀ e ∈ (createPipeline env cmd).2, e.isStagePost = false) := by
  cases hcb : checkAppAndBranch env cmd.Applications with
  | false =>
    have hrun : createPipeline env cmd = (.error .errNonValidRelatedBranch, []) := by
      simp [createPipeline, hcb]
    rw [hrun]
    exact c10_shape_no_stage _ (by intro s; simp) (by simp)
  | true =>
  cases hdb : env.dbPipeline cmd.Name with
  | error e =>
    have hrun : createPipeline env cmd =
        (.error (.upstream e), [.dbGetPipeline cmd.Name]) := by
      simp [createPipeline, hcb, getCDPipelineByName, hdb]
    rw [hrun]
    refine c10_shape_no_stage _ (by intro s; simp) ?_
    intro ev he; simp at he; subst he; rfl
  | ok o =>
  cases o with
  | some p =>
    have hrun : createPipeline env cmd =
        (.error .errCDPipelineIsExists, [.dbGetPipeline cmd.Name]) := by
      simp [createPipeline, hcb, getCDPipelineByName, hdb]
    rw [hrun]
    refine c10_shape_no_stage _ (by intro s; simp) ?_
    intro ev he; simp at he; subst he; rfl
  | none =>
  have h1 := getCDPipelineByName_of_none hdb
  cases hk : env.k8sPipeline cmd.Name with
  | err e =>
    have hrun : createPipeline env cmd =
        (.error (.upstream e), [.dbGetPipeline cmd.Name, .k8sGetPipeline cmd.Name]) := by
      simp [createPipeline, hcb, h1, getCDPipelineCR_of_err hk]
    rw [hrun]
    refine c10_shape_no_stage _ (by intro s; simp) ?_
    intro ev he; simp at he; rcases he with rfl | rfl <;> rfl
  | found p =>
    have hrun : createPipeline env cmd =
        (.error .errCDPipelineIsExists,
          [.dbGetPipeline cmd.Name, .k8sGetPipeline cmd.Name]) := by
      simp [createPipeline, hcb, h1, getCDPipelineCR_of_found hk]
    rw [hrun]
    refine c10_shape_no_stage _ (by intro s; simp) ?_
    intro ev he; simp at he; rcases he with rfl | rfl <;> rfl
  | notFound =>
  have h2 := getCDPipelineCR_of_notFound hk
  cases hp : env.postPipeline (buildPipelineCrd env cmd) with
  | error e =>
    have hrun : createPipeline env cmd =
        (.error (.upstream e),
          [.dbGetPipeline cmd.Name, .k8sGetPipeline cmd.Name,
            .k8sPostPipeline (buildPipelineCrd env cmd)]) := by
      simp [createPipeline, hcb, h1, h2, hp]
    rw [hrun]
    refine c10_shape_no_stage _ (by intro s; simp) ?_
    intro ev he; simp at he; rcases he with rfl | rfl | rfl <;> rfl
  | ok r =>
  cases hchk2 : (checkStagesInK8s env cmd.Name cmd.Stages).1 with
  | error e2 =>
    have hcs := createStages_of_check_error hchk2
    have hrun : createPipeline env cmd =
        (.error e2,
          [Event.dbGetPipeline cmd.Name, Event.k8sGetPipeline cmd.Name,
            Event.k8sPostPipeline (buildPipelineCrd env cmd)]
            ++ (checkStagesInK8s env cmd.Name cmd.Stages).2) := by
      simp [createPipeline, hcb, h1, h2, hp, hcs]
    rw [hrun]
    have hnostage : ∀ e ∈
        [Event.dbGetPipeline cmd.Name, Event.k8sGetPipeline cmd.Name,
          Event.k8sPostPipeline (buildPipelineCrd env cmd)]
          ++ (checkStagesInK8s env cmd.Name cmd.Stages).2, e.isStagePost = false := by
      intro ev he
      rcases List.mem_append.mp he with h3 | h3
      · simp at h3; rcases h3 with rfl | rfl | rfl <;> rfl
      · exact isStageGet_not_isStagePost (checkStagesInK8s_events _ h3)
    refine ⟨⟨_, [], by simp, hnostage, by simp⟩, ?_, fun s _ => hnostage⟩
    rintro ⟨ev, he, hpost⟩
    rw [hnostage ev he] at hpost
    cases hpost
  | ok u =>
  cases u
  have hcs := createStages_of_check_ok hchk2
  have hsplit2 : (createPipeline env cmd).2 =
      ([Event.dbGetPipeline cmd.Name, Event.k8sGetPipeline cmd.Name,
        Event.k8sPostPipeline (buildPipelineCrd env cmd)]
        ++ (checkStagesInK8s env cmd.Name cmd.Stages).2)
        ++ (saveStagesIntoK8s env cmd.Name cmd.Stages).2 := by
    cases hsv : (saveStagesIntoK8s env cmd.Name cmd.Stages).1 <;>
      simp [createPipeline, hcb, h1, h2, hp, hcs, hsv]
  have hfirst : ∀ e ∈
      [Event.dbGetPipeline cmd.Name, Event.k8sGetPipeline cmd.Name,
        Event.k8sPostPipeline (buildPipelineCrd env cmd)]
        ++ (checkStagesInK8s env cmd.Name cmd.Stages).2, e.isStagePost = false := by
    intro ev he
    rcases List.mem_append.mp he with h3 | h3
    · simp at h3; rcases h3 with rfl | rfl | rfl <;> rfl
    · exact isStageGet_not_isStagePost (checkStagesInK8s_events _ h3)
  refine ⟨⟨_, _, hsplit2, hfirst,
    fun e he => isStagePost_not_isStageGet (saveStagesIntoK8s_events _ he)⟩, ?_, ?_⟩
  · intro _ st hst
    rw [hsplit2]
    have := checkStagesInK8s_ok_mem hchk2 st hst
    simp [this]
  · intro s hres
    cases hsv : (saveStagesIntoK8s env cmd.Name cmd.Stages).1 with
    | ok l =>
      have : (createPipeline env cmd).1 = .ok r := by
        simp [createPipeline, hcb, h1, h2, hp, hcs, hsv]
      rw [this] at hres
      cases hres
    | error e3 =>
      obtain ⟨msg, rfl⟩ := saveStagesIntoK8s_error_upstream _ hsv
      have : (createPipeline env cmd).1 = .error (.upstream msg) := by
        simp [createPipeline, hcb, h1, h2, hp, hcs, hsv]
      rw [this] at hres
      cases hres

/-- Witness for C10 at the stage-collision environment: the run fails with
the stage-exists error and its trace contains no stage write. -/
theorem claim_C10_witness :
    ∀ e ∈ (createPipeline wEnvStageDup wCmd).2, e.isStagePost = false :=
  (claim_C10_check_all_then_write_all wEnvStageDup wCmd).2.2 "deploy" (by rfl)

/-! ## C9: the name validation pattern -/

/-- Characterization of the backtracking star: `cls* k` matches `l` iff `l`
splits as a class-only run followed by a continuation match. -/
theorem matchStar_iff (cls : Char → Bool) (k : List Char → Bool) :
    ∀ l : List Char, matchStar cls k l = true ↔
      ∃ l1 l2, l = l1 ++ l2 ∧ (∀ x ∈ l1, cls x = true) ∧ k l2 = true
  | [] => by
    constructor
    · intro h
      exact ⟨[], [], rfl, by simp, h⟩
    · rintro ⟨l1, l2, heq, hall, hk⟩
      have h1 : l1 = [] := by cases l1 <;> simp_all
      subst h1
      simp only [List.nil_append] at heq
      subst heq
      exact hk
  | c :: rest => by
    constructor
    · intro h
      rw [matchStar] at h
      rcases Bool.or_eq_true_iff.mp h with h | h
      · exact ⟨[], c :: rest, rfl, by simp, h⟩
      · obtain ⟨hc, hrest⟩ := Bool.and_eq_true_iff.mp h
        obtain ⟨l1, l2, heq, hall, hk⟩ := (matchStar_iff cls k rest).mp hrest
        refine ⟨c :: l1, l2, by simp [heq], ?_, hk⟩
        intro x hx
        rcases List.mem_cons.mp hx with rfl | hx
        · exact hc
        · exact hall x hx
    · rintro ⟨l1, l2, heq, hall, hk⟩
      cases l1 with
      | nil =>
        simp only [List.nil_append] at heq
        subst heq
        rw [matchStar]
        simp [hk]
      | cons c1 l1 =>
        simp only [List.cons_append, List.cons.injEq] at heq
        obtain ⟨rfl, heq2⟩ := heq
        rw [matchStar]
        refine Bool.or_eq_true_iff.mpr (Or.inr (Bool.and_eq_true_iff.mpr ⟨hall c (by simp), ?_⟩))
        exact (matchStar_iff cls k rest).mpr
          ⟨l1, l2, heq2, fun x hx => hall x (by simp [hx]), hk⟩

/-- C9 counterexample: the single-character name `"a"` is a non-empty string
of lowercase alphanumerics with no leading or trailing hyphen, yet the
pattern `^[a-z0-9]([-a-z0-9]*[a-z0-9])$` rejects it — the group after the
first character is mandatory (it has no `?`), so a second character is
required. -/
theorem claim_C9_counterexample :
    matchNamePattern "a" = false ∧ isLowerAlnum 'a' = true ∧ 'a' ≠ '-' := by
  refine ⟨by rfl, by rfl, by decide⟩

/-- C9 (amended): the name validation pattern accepts exactly the strings of
length at least two over lowercase alphanumerics and hyphens whose first and
last characters are not hyphens (being in `[a-z0-9]` is exactly being in
`[-a-z0-9]` and not a hyphen); single-character names are rejected. -/
theorem claim_C9_pattern_characterization (s : String) :
    matchNamePattern s = true ↔
      ∃ c mid d, s.toList = c :: (mid ++ [d]) ∧ isLowerAlnum c = true ∧
        (∀ x ∈ mid, isLowerAlnumHyphen x = true) ∧ isLowerAlnum d = true := by
  cases hl : s.toList with
  | nil =>
    simp only [matchNamePattern, hl]
    constructor
    · intro h; cases h
    · rintro ⟨c, mid, d, heq, -⟩; cases heq
  | cons c rest =>
    simp only [matchNamePattern, hl]
    constructor
    · intro h
      obtain ⟨hc, hstar⟩ := Bool.and_eq_true_iff.mp h
      obtain ⟨l1, l2, heq, hall, hk⟩ := (matchStar_iff _ _ rest).mp hstar
      cases l2 with
      | nil => exact absurd hk (by simp)
      | cons d l3 =>
        cases l3 with
        | nil => exact ⟨c, l1, d, by rw [heq], hc, hall, hk⟩
        | cons d2 l4 => exact absurd hk (by simp)
    · rintro ⟨c2, mid, d, heq, hc2, hall, hd⟩
      rw [List.cons.injEq] at heq  -- heq : c = c2 ∧ rest = mid ++ [d]
      obtain ⟨rfl, heq2⟩ := heq
      refine Bool.and_eq_true_iff.mpr ⟨hc2, ?_⟩
      exact (matchStar_iff _ _ rest).mpr ⟨mid, [d], heq2, hall, hd⟩

/-- Witness for C9: the two-character name `"ab"` satisfies the
characterization, so the pattern accepts it. -/
theorem claim_C9_witness : matchNamePattern "ab" = true :=
  (claim_C9_pattern_characterization "ab").mpr
    ⟨'a', [], 'b', by rfl, by rfl, by simp, by rfl⟩

/-! ## C8: derived names, link templates and their round-trips -/

theorem toList_appendStr (s t : String) : (s ++ t).toList = s.toList ++ t.toList := rfl

theorem strMk_toList (s : String) : String.mk s.toList = s := rfl

theorem lastHyphenSplit_of_no_hyphen :
    ∀ {s : List Char}, (∀ c ∈ s, c ≠ '-') → lastHyphenSplit s = none
  | [], _ => rfl
  | c :: rest, h => by
    have hr := lastHyphenSplit_of_no_hyphen (fun x hx => h x (List.mem_cons_of_mem c hx))
    have hc : ¬ (c = '-') := h c (by simp)
    simp [lastHyphenSplit, hr, hc]

theorem lastHyphenSplit_append :
    ∀ {p : List Char} {s : List Char}, (∀ c ∈ s, c ≠ '-') →
      lastHyphenSplit (p ++ '-' :: s) = some (p, s)
  | [], s, h => by simp [lastHyphenSplit, lastHyphenSplit_of_no_hyphen h]
  | c :: p, s, h => by
    simp [lastHyphenSplit, lastHyphenSplit_append (p := p) h]

theorem dropLead_append : ∀ (a b : List Char), dropLead a (a ++ b) = some b
  | [], _ => rfl
  | c :: a, b => by simp [dropLead, dropLead_append a b]

theorem dropTail_append (a b : List Char) : dropTail b (a ++ b) = some a := by
  have h := dropLead_append b.reverse a.reverse
  simp [dropTail, List.reverse_append, h]

/-- C8 counterexample: with hyphenated names the construction does not
round-trip, because it is not injective: the distinct pairs `("a-b", "c")`
and `("a", "b-c")` produce the same derived stage resource name and the same
project link, so no parser applied to a constructed name or link can always
return the original pipeline and stage names. -/
theorem claim_C8_counterexample :
    (createCrd wCfg 0 "a-b" ⟨"c", "", "", "", "", 0⟩).Name =
      (createCrd wCfg 0 "a" ⟨"b-c", "", "", "", "", 0⟩).Name
    ∧ openshiftProjectLinkOf wCfg "a-b" "c" = openshiftProjectLinkOf wCfg "a" "b-c"
    ∧ (("a-b" : String), ("c" : String)) ≠ (("a" : String), ("b-c" : String)) := by
  exact ⟨by decide, by decide, by decide⟩

/-- C8 (amended): the derived stage resource name is exactly
`<pipelineName>-<stageName>`, and the CI and project links placed on the read
views follow the fixed templates with tenant and wildcard substituted.  The
CI link round-trips unconditionally: stripping its fixed lead and the fixed
`-cd-pipeline` tail returns the pipeline name.  The stage resource name and
the project link round-trip whenever the stage name contains no hyphen
(splitting at the last hyphen); for hyphenated stage names distinct name
pairs can collide, so the unrestricted round-trip of the original claim
fails. -/
theorem claim_C8_templates_and_roundtrip (cfg : Config) :
    (∀ (now : Nat) (p : String) (st : StageCreate),
      (createCrd cfg now p st).Name = p ++ "-" ++ st.Name)
    ∧ (∀ q : QueryCDPipeline,
      (createJenkinsLink cfg q).JenkinsLink = jenkinsLinkOf cfg q.Name)
    ∧ (∀ (stages : List QueryStage) (pn : String),
      (createOpenshiftProjectLinks cfg stages pn).map QueryStage.OpenshiftProjectLink =
        stages.map fun st => openshiftProjectLinkOf cfg pn st.Name)
    ∧ (∀ p : String, parseJenkinsLink cfg (jenkinsLinkOf cfg p) = some p)
    ∧ (∀ p sn : String, (∀ c ∈ sn.toList, c ≠ '-') →
      parseStageResourceName (p ++ "-" ++ sn) = some (p, sn)
      ∧ parseProjectLink cfg (openshiftProjectLinkOf cfg p sn) = some (p, sn)) := by
  refine ⟨fun _ _ _ => rfl, fun _ => rfl, ?_, ?_, ?_⟩
  · intro stages pn
    simp [createOpenshiftProjectLinks]
  · intro p
    have hsplit : (jenkinsLinkOf cfg p).toList =
        ("https://jenkins-" ++ cfg.tenant ++ "-edp-cicd." ++ cfg.wildcard
          ++ "/job/").toList ++ (p.toList ++ '-' :: "cd-pipeline".toList) := by
      have hlit : ("-" : String).toList = ['-'] := rfl
      simp only [jenkinsLinkOf, toList_appendStr, List.append_assoc, hlit,
        List.singleton_append]
    have hdt : dropTail "-cd-pipeline".toList (p.toList ++ '-' :: "cd-pipeline".toList) =
        some p.toList :=
      dropTail_append p.toList "-cd-pipeline".toList
    simp only [parseJenkinsLink]
    rw [hsplit, dropLead_append]
    show (dropTail "-cd-pipeline".toList
      (p.toList ++ '-' :: "cd-pipeline".toList)).map String.mk = some p
    rw [hdt]
    rfl
  · intro p sn hfree
    constructor
    · have hsplit : (p ++ "-" ++ sn).toList = p.toList ++ '-' :: sn.toList := by
        have hlit : ("-" : String).toList = ['-'] := rfl
        simp only [toList_appendStr, List.append_assoc, hlit, List.singleton_append,
          List.cons_append, List.nil_append]
      simp only [parseStageResourceName]
      rw [hsplit, lastHyphenSplit_append hfree]
      rfl
    · have hsplit : (openshiftProjectLinkOf cfg p sn).toList =
          ("https://master." ++ cfg.wildcard ++ "/console/project/"
            ++ cfg.tenant ++ "-").toList ++ (p.toList ++ '-' :: sn.toList) := by
        have hlit : ("-" : String).toList = ['-'] := rfl
        simp only [openshiftProjectLinkOf, toList_appendStr, List.append_assoc, hlit,
          List.singleton_append, List.cons_append, List.nil_append]
      simp only [parseProjectLink]
      rw [hsplit, dropLead_append]
      show ((lastHyphenSplit (p.toList ++ '-' :: sn.toList)).map fun pr =>
        (String.mk pr.1, String.mk pr.2)) = some (p, sn)
      rw [lastHyphenSplit_append hfree]
      rfl

/-- Witness for C8: the scenario names round-trip concretely. -/
theorem claim_C8_witness :
    parseStageResourceName ("release-pipe" ++ "-" ++ "build") =
      some ("release-pipe", "build")
    ∧ parseProjectLink wCfg (openshiftProjectLinkOf wCfg "release-pipe" "build") =
      some ("release-pipe", "build")
    ∧ parseJenkinsLink wCfg (jenkinsLinkOf wCfg "release-pipe") = some "release-pipe" := by
  have h := (claim_C8_templates_and_roundtrip wCfg).2.2.2
  exact ⟨(h.2 "release-pipe" "build" (by decide)).1,
    (h.2 "release-pipe" "build" (by decide)).2, h.1 "release-pipe"⟩

/-! ## C5: behaviour of the embedded `sort.Slice` -/

theorem sg_eq_getElem {l : List QueryStage} {i : Nat} (h : i < l.length) :
    sg l i = l[i] :=
  List.getD_eq_getElem l default h

theorem length_swapL (l : List QueryStage) (i j : Nat) :
    (swapL l i j).length = l.length := by
  simp [swapL]

theorem sg_swapL_snd {l : List QueryStage} {i j : Nat} (hj : j < l.length) :
    sg (swapL l i j) j = sg l i := by
  unfold sg swapL
  rw [List.getD_eq_getElem?_getD, List.getElem?_set_self (by simpa using hj)]
  rfl

theorem sg_swapL_fst {l : List QueryStage} {i j : Nat} (hi : i < l.length)
    (hne : j ≠ i) : sg (swapL l i j) i = sg l j := by
  unfold sg swapL
  rw [List.getD_eq_getElem?_getD, List.getElem?_set_ne hne,
    List.getElem?_set_self hi]
  rfl

theorem sg_swapL_other {l : List QueryStage} {i j k : Nat} (h1 : k ≠ i)
    (h2 : k ≠ j) : sg (swapL l i j) k = sg l k := by
  unfold sg swapL
  rw [List.getD_eq_getElem?_getD, List.getElem?_set_ne (Ne.symm h2),
    List.getElem?_set_ne (Ne.symm h1), ← List.getD_eq_getElem?_getD]

/-- An adjacent swap of two stages with different `Order` values leaves every
`Order`-class subsequence of the slice unchanged (this is the stability
argument: insertion sort only ever swaps adjacent strict inversions). -/
theorem filter_swapL_adj (v : Int) :
    ∀ (l : List QueryStage) (j : Nat), j + 1 < l.length →
      (sg l (j + 1)).Order ≠ (sg l j).Order →
      (swapL l (j + 1) j).filter (fun s => s.Order = v) =
        l.filter (fun s => s.Order = v)
  | [], j, h, _ => by simp at h
  | [x], j, h, _ => by simp at h
  | x :: y :: t, 0, h, hne => by
    have hswap : swapL (x :: y :: t) 1 0 = y :: x :: t := rfl
    rw [hswap]
    have hxy : y.Order ≠ x.Order := hne
    by_cases hx : x.Order = v
    · by_cases hy : y.Order = v
      · exact absurd (hy.trans hx.symm) hxy
      · simp [List.filter_cons, hx, hy]
    · by_cases hy : y.Order = v
      · simp [List.filter_cons, hx, hy]
      · simp [List.filter_cons, hx, hy]
  | x :: y :: t, j + 1, h, hne => by
    have hstep : swapL (x :: y :: t) (j + 2) (j + 1) =
        x :: swapL (y :: t) (j + 1) j := rfl
    rw [hstep]
    have h2 : j + 1 < (y :: t).length := by simpa using h
    have hne2 : (sg (y :: t) (j + 1)).Order ≠ (sg (y :: t) j).Order := hne
    simp [List.filter_cons, filter_swapL_adj v (y :: t) j h2 hne2]

/-- Invariant-carrying specification of the inner insertion loop: if the
slice is sorted on `[a, j)` and on `[j, i+1)` with every element of `[a, j)`
at most every element of `(j, i]`, then bubbling the element at `j` to its
place yields a slice sorted on `[a, i+1)` with the same length and the same
`Order`-class subsequences. -/
theorem insertLoop_spec (a : Nat) :
    ∀ (j : Nat) (l : List QueryStage) (i : Nat),
      j ≤ i → i < l.length →
      SortedRange l a j →
      SortedRange l j (i + 1) →
      (∀ p q, a ≤ p → p < j → j < q → q ≤ i → (sg l p).Order ≤ (sg l q).Order) →
      SortedRange (insertLoop a l j) a (i + 1)
      ∧ (insertLoop a l j).length = l.length
      ∧ ∀ v : Int, (insertLoop a l j).filter (fun s => s.Order = v) =
          l.filter (fun s => s.Order = v)
  | 0, l, i, _, _, _, hs2, _ => by
    refine ⟨?_, rfl, fun v => rfl⟩
    intro p q hap hpq hq
    exact hs2 p q (Nat.zero_le p) hpq hq
  | j + 1, l, i, hji, hil, hs1, hs2, hbr => by
    by_cases hc : a ≤ j ∧ lessO l (j + 1) j
    · obtain ⟨haj, hlt0⟩ := hc
      have hlt : (sg l (j + 1)).Order < (sg l j).Order := by
        simpa [lessO] using hlt0
      have hj1l : j + 1 < l.length := lt_of_le_of_lt hji hil
      have hjl : j < l.length := by omega
      have hA : sg (swapL l (j + 1) j) j = sg l (j + 1) := sg_swapL_snd hjl
      have hB : sg (swapL l (j + 1) j) (j + 1) = sg l j :=
        sg_swapL_fst hj1l (by omega)
      have hC : ∀ k, k ≠ j → k ≠ j + 1 → sg (swapL l (j + 1) j) k = sg l k :=
        fun k h1 h2 => sg_swapL_other h2 h1
      have hs1' : SortedRange (swapL l (j + 1) j) a j := by
        intro p q hap hpq hq
        rw [hC p (by omega) (by omega), hC q (by omega) (by omega)]
        exact hs1 p q hap hpq (by omega)
      have hs2' : SortedRange (swapL l (j + 1) j) j (i + 1) := by
        intro p q hjp hpq hq
        rcases Nat.eq_or_lt_of_le hjp with rfl | hjp2
        · -- p = j
          rw [hA]
          rcases Nat.eq_or_lt_of_le (Nat.succ_le_of_lt hpq) with heq | hq2
          · rw [← heq, hB]
            exact le_of_lt hlt
          · rw [hC q (by omega) (by omega)]
            exact hs2 (j + 1) q (by omega) (by omega) hq
        · rcases Nat.eq_or_lt_of_le (Nat.succ_le_of_lt hjp2) with heq | hp2
          · -- p = j + 1
            rw [← heq, hB, hC q (by omega) (by omega)]
            exact hbr j q haj (by omega) (by omega) (by omega)
          · -- p ≥ j + 2
            rw [hC p (by omega) (by omega), hC q (by omega) (by omega)]
            exact hs2 p q (by omega) hpq hq
      have hbr' : ∀ p q, a ≤ p → p < j → j < q → q ≤ i →
          (sg (swapL l (j + 1) j) p).Order ≤ (sg (swapL l (j + 1) j) q).Order := by
        intro p q hap hpj hjq hqi
        rw [hC p (by omega) (by omega)]
        rcases Nat.eq_or_lt_of_le (Nat.succ_le_of_lt hjq) with heq | hq2
        · rw [← heq, hB]
          exact hs1 p j hap hpj (by omega)
        · rw [hC q (by omega) (by omega)]
          exact hbr p q hap (by omega) (by omega) hqi
      have hrec := insertLoop_spec a j (swapL l (j + 1) j) i (by omega)
        (by rw [length_swapL]; exact hil) hs1' hs2' hbr'
      have hres : insertLoop a l (j + 1) = insertLoop a (swapL l (j + 1) j) j := by
        rw [insertLoop]
        rw [if_pos ⟨haj, hlt0⟩]
      rw [hres]
      refine ⟨hrec.1, hrec.2.1.trans (length_swapL l (j + 1) j), fun v => ?_⟩
      rw [hrec.2.2 v, filter_swapL_adj v l j hj1l (ne_of_lt hlt)]
    · have hres : insertLoop a l (j + 1) = l := by
        rw [insertLoop, if_neg hc]
      rw [hres]
      refine ⟨?_, rfl, fun v => rfl⟩
      intro p q hap hpq hq
      by_cases haj : a ≤ j
      · have hle : (sg l j).Order ≤ (sg l (j + 1)).Order := by
          have hnl : ¬ lessO l (j + 1) j := fun h => hc ⟨haj, h⟩
          simpa [lessO] using hnl
        rcases Nat.lt_or_ge q (j + 1) with hq1 | hq1
        · exact hs1 p q hap hpq hq1
        rcases Nat.lt_or_ge p (j + 1) with hp1 | hp1
        · have hpj : p ≤ j := Nat.le_of_lt_succ hp1
          rcases Nat.eq_or_lt_of_le hq1 with heq | hq2
          · -- q = j + 1
            rw [← heq]
            rcases Nat.eq_or_lt_of_le hpj with heqp | hpj2
            · rw [heqp]
              exact hle
            · exact le_trans (hs1 p j hap hpj2 (by omega)) hle
          · -- q > j + 1
            rcases Nat.eq_or_lt_of_le hpj with heqp | hpj2
            · rw [heqp]
              exact le_trans hle (hs2 (j + 1) q (le_refl _) hq2 hq)
            · exact hbr p q hap (by omega) hq2 (by omega)
        · exact hs2 p q (by omega) hpq hq
      · -- j < a, so every index in play is at least j + 1
        exact hs2 p q (by omega) hpq hq

/-- Specification of the outer insertion loop: carrying a sorted prefix
`[a, i)` forward to the whole range `[a, b)`. -/
theorem insertOuter_spec (a b : Nat) :
    ∀ (fuel : Nat) (l : List QueryStage) (i : Nat),
      b ≤ l.length → i ≤ b → b ≤ i + fuel →
      SortedRange l a i →
      SortedRange (insertOuter a b fuel l i) a b
      ∧ (insertOuter a b fuel l i).length = l.length
      ∧ ∀ v : Int, (insertOuter a b fuel l i).filter (fun s => s.Order = v) =
          l.filter (fun s => s.Order = v)
  | 0, l, i, _, hib, hfuel, hs => by
    have hbi : i = b := by omega
    subst hbi
    exact ⟨hs, rfl, fun v => rfl⟩
  | fuel + 1, l, i, hbl, hib, hfuel, hs => by
    by_cases hib2 : i < b
    · have hres : insertOuter a b (fuel + 1) l i =
          insertOuter a b fuel (insertLoop a l i) (i + 1) := by
        rw [insertOuter, if_pos hib2]
      have hIL := insertLoop_spec a i l i (le_refl i) (by omega) hs
        (by intro p q hp hpq hq; omega)
        (by intro p q hp hpj hjq hqi; omega)
      have hrec := insertOuter_spec a b fuel (insertLoop a l i) (i + 1)
        (by rw [hIL.2.1]; exact hbl) (by omega) (by omega) hIL.1
      rw [hres]
      exact ⟨hrec.1, hrec.2.1.trans hIL.2.1,
        fun v => (hrec.2.2 v).trans (hIL.2.2 v)⟩
    · have hres : insertOuter a b (fuel + 1) l i = l := by
        rw [insertOuter, if_neg hib2]
      have hbi : i = b := by omega
      subst hbi
      rw [hres]
      exact ⟨hs, rfl, fun v => rfl⟩

/-- `insertionSort_func(data, a, b)` sorts the range `[a, b)` ascending by
`Order`, preserves the length and preserves every `Order`-class
subsequence. -/
theorem insertionSortGo_spec (l : List QueryStage) (a b : Nat) (hbl : b ≤ l.length) :
    SortedRange (insertionSortGo l a b) a b
    ∧ (insertionSortGo l a b).length = l.length
    ∧ ∀ v : Int, (insertionSortGo l a b).filter (fun s => s.Order = v) =
        l.filter (fun s => s.Order = v) := by
  unfold insertionSortGo
  by_cases hab : a + 1 ≤ b
  · exact insertOuter_spec a b (b - a) l (a + 1) hbl hab (by omega)
      (by intro p q hp hpq hq; omega)
  · have hfuel : b - a = 0 ∨ b - a = 1 := by omega
    have hres : insertOuter a b (b - a) l (a + 1) = l := by
      rcases hfuel with h0 | h1
      · rw [h0]
        rfl
      · rw [h1, insertOuter, if_neg (by omega)]
    rw [hres]
    exact ⟨by intro p q hp hpq hq; omega, rfl, fun v => rfl⟩

/-- On ranges of at most 12 elements the introsort driver reduces to the
Shell pass plus insertion sort, and on at most `a + 6` elements the Shell
pass is the identity. -/
theorem goSortSlice_short {l : List QueryStage} (h12 : l.length ≤ 12) :
    goSortSlice l = shortSortGo l 0 l.length := by
  unfold goSortSlice
  rw [quickSortGo.eq_def]
  dsimp only
  rw [if_neg (by omega)]

theorem shortSortGo_small {l : List QueryStage} (h6 : l.length ≤ 6) :
    shortSortGo l 0 l.length =
      if l.length > 1 then insertionSortGo l 0 l.length else l := by
  unfold shortSortGo
  have hfuel : l.length - (0 + 6) = 0 := by omega
  rw [hfuel]
  rfl

theorem pairwise_of_sortedRange {l : List QueryStage}
    (h : SortedRange l 0 l.length) :
    List.Pairwise (fun x y => x.Order ≤ y.Order) l := by
  rw [List.pairwise_iff_getElem]
  intro i j hi hj hij
  have hle := h i j (Nat.zero_le i) hij hj
  rwa [sg_eq_getElem hi, sg_eq_getElem hj] at hle

/-- C5 counterexample: the read-path sort is not stable.  On `c5input` the
stage named `x` precedes the stage named `y` and both have `Order` 5, yet
the sorted output lists `y` before `x`: the gap-6 Shell pass of Go's
`sort.Slice` moves the first element past position 6 before the insertion
sort runs, reordering the two equal-`Order` stages. -/
theorem claim_C5_counterexample :
    ((sortStagesByOrder c5input).filter (fun s => s.Order = 5)).map
        QueryStage.Name = ["y", "x"]
    ∧ (c5input.filter (fun s => s.Order = 5)).map QueryStage.Name = ["x", "y"] :=
  ⟨rfl, rfl⟩

/-- C5 (amended): for every list of at most six stages the read-path sort is
a stable ascending sort by `Order` — the output is ascending in `Order` and
every `Order`-class subsequence (hence the relative order of any two
equal-`Order` stages) is exactly as in the input.  For seven or more stages
the gap-6 Shell pass (and, past 12 elements, quicksort partitioning) can
reorder equal-`Order` stages, so the unrestricted claim fails. -/
theorem claim_C5_sort_stable_small (stages : List QueryStage)
    (h6 : stages.length ≤ 6) :
    List.Pairwise (fun x y => x.Order ≤ y.Order) (sortStagesByOrder stages)
    ∧ ∀ v : Int, (sortStagesByOrder stages).filter (fun s => s.Order = v) =
        stages.filter (fun s => s.Order = v) := by
  have hrun : sortStagesByOrder stages =
      if stages.length > 1 then insertionSortGo stages 0 stages.length
      else stages := by
    unfold sortStagesByOrder
    rw [goSortSlice_short (by omega), shortSortGo_small h6]
  by_cases hlen : stages.length > 1
  · rw [hrun, if_pos hlen]
    have hspec := insertionSortGo_spec stages 0 stages.length (le_refl _)
    refine ⟨?_, hspec.2.2⟩
    have hsr : SortedRange (insertionSortGo stages 0 stages.length) 0
        (insertionSortGo stages 0 stages.length).length := by
      rw [hspec.2.1]
      exact hspec.1
    exact pairwise_of_sortedRange hsr
  · rw [hrun, if_neg hlen]
    refine ⟨?_, fun v => rfl⟩
    match stages, hlen with
    | [], _ => exact List.Pairwise.nil
    | [x], _ => simp
    | x :: y :: t, h => simp at h

/-- Witness for C5 at the spec's own example: three stages with `Order`
values `[2, 0, 1]` come out ascending. -/
theorem claim_C5_witness :
    List.Pairwise (fun x y => x.Order ≤ y.Order)
      (sortStagesByOrder
        [⟨0, "a", "", "", "", "", 2, ""⟩, ⟨0, "b", "", "", "", "", 0, ""⟩,
         ⟨0, "c", "", "", "", "", 1, ""⟩]) :=
  (claim_C5_sort_stable_small _ (by decide)).1

/-! ## C6: full correctness of the embedded `sort.Slice`

The read path sorts the stage list of an arbitrary pipeline row, so the
sortedness conjunct of C6 needs the introsort driver to sort every input,
including the quicksort and heap-sort paths.  The proofs below carry, for
each component, four facts: sortedness of the worked range, length
preservation, a frame property (indices outside the worked range are
untouched) and bound preservation (any pointwise predicate holding on the
worked range still holds on it afterwards). -/

theorem boundPres_refl (l : List QueryStage) (a b : Nat) : BoundPres l l a b :=
  fun _ h => h

theorem boundPres_trans {l m r : List QueryStage} {a b : Nat}
    (h1 : BoundPres l m a b) (h2 : BoundPres m r a b) : BoundPres l r a b :=
  fun P h => h2 P (h1 P h)

/-- A swap of two in-range positions preserves any pointwise range bound. -/
theorem boundPres_swapL {l : List QueryStage} {a b i j : Nat}
    (hai : a ≤ i) (hib : i < b) (haj : a ≤ j) (hjb : j < b)
    (hil : i < l.length) (hjl : j < l.length) :
    BoundPres l (swapL l i j) a b := by
  intro P hP k hak hkb
  by_cases hkj : k = j
  · subst hkj
    rw [sg_swapL_snd hjl]
    exact hP i hai hib
  · by_cases hki : k = i
    · subst hki
      rw [sg_swapL_fst hil (fun h => hkj h.symm)]
      exact hP j haj hjb
    · rw [sg_swapL_other hki hkj]
      exact hP k hak hkb

/-- The inner insertion loop leaves every index outside `[a, j]`
untouched. -/
theorem insertLoop_frame (a : Nat) :
    ∀ (j : Nat) (l : List QueryStage) (k : Nat),
      k < a ∨ j < k → sg (insertLoop a l j) k = sg l k
  | 0, l, k, _ => rfl
  | j + 1, l, k, hk => by
    by_cases hc : a ≤ j ∧ lessO l (j + 1) j
    · have hres : insertLoop a l (j + 1) = insertLoop a (swapL l (j + 1) j) j := by
        rw [insertLoop, if_pos hc]
      rw [hres, insertLoop_frame a j _ k (by omega),
        sg_swapL_other (by omega) (by omega)]
    · rw [insertLoop, if_neg hc]

theorem insertLoop_length (a : Nat) :
    ∀ (j : Nat) (l : List QueryStage), (insertLoop a l j).length = l.length
  | 0, l => rfl
  | j + 1, l => by
    by_cases hc : a ≤ j ∧ lessO l (j + 1) j
    · rw [insertLoop, if_pos hc, insertLoop_length a j, length_swapL]
    · rw [insertLoop, if_neg hc]

/-- The inner insertion loop preserves pointwise bounds on any range
`[a, b)` containing `[a, j]`. -/
theorem insertLoop_bound (a : Nat) :
    ∀ (j : Nat) (l : List QueryStage) (b : Nat), j < b → j < l.length →
      BoundPres l (insertLoop a l j) a b
  | 0, l, b, _, _ => boundPres_refl l a b
  | j + 1, l, b, hjb, hjl => by
    by_cases hc : a ≤ j ∧ lessO l (j + 1) j
    · have haj : a ≤ j := hc.1
      have hres : insertLoop a l (j + 1) = insertLoop a (swapL l (j + 1) j) j := by
        rw [insertLoop, if_pos hc]
      rw [hres]
      refine boundPres_trans
        (boundPres_swapL (i := j + 1) (j := j) (by omega) hjb (by omega) (by omega)
          hjl (by omega)) ?_
      exact insertLoop_bound a j _ b (by omega) (by rw [length_swapL]; omega)
    · rw [insertLoop, if_neg hc]
      exact boundPres_refl l a b

/-- Frame, length and bound facts for the outer insertion loop. -/
theorem insertOuter_frame (a b : Nat) :
    ∀ (fuel : Nat) (l : List QueryStage) (i : Nat), a < i →
      (∀ k, k < a ∨ b ≤ k → sg (insertOuter a b fuel l i) k = sg l k)
      ∧ (insertOuter a b fuel l i).length = l.length
      ∧ (b ≤ l.length → BoundPres l (insertOuter a b fuel l i) a b)
  | 0, l, i, _ => ⟨fun k _ => rfl, rfl, fun _ => boundPres_refl l a b⟩
  | fuel + 1, l, i, hai => by
    by_cases hib : i < b
    · have hres : insertOuter a b (fuel + 1) l i =
          insertOuter a b fuel (insertLoop a l i) (i + 1) := by
        rw [insertOuter, if_pos hib]
      have hrec := insertOuter_frame a b fuel (insertLoop a l i) (i + 1) (by omega)
      rw [hres]
      refine ⟨?_, ?_, ?_⟩
      · intro k hk
        rw [hrec.1 k hk, insertLoop_frame a i l k (by omega)]
      · rw [hrec.2.1, insertLoop_length]
      · intro hbl
        refine boundPres_trans (insertLoop_bound a i l b hib (by omega)) ?_
        exact hrec.2.2 (by rw [insertLoop_length]; exact hbl)
    · rw [insertOuter, if_neg hib]
      exact ⟨fun k _ => rfl, rfl, fun _ => boundPres_refl l a b⟩

/-- Frame, length and bound facts for the Shell pass: only `[i - 6, b)` is
touched. -/
theorem shellLoop_facts (b : Nat) :
    ∀ (fuel : Nat) (l : List QueryStage) (i : Nat), b ≤ l.length →
      (∀ k, k + 6 < i ∨ b ≤ k → sg (shellLoop b fuel l i) k = sg l k)
      ∧ (shellLoop b fuel l i).length = l.length
      ∧ ∀ lo, lo + 6 ≤ i → BoundPres l (shellLoop b fuel l i) lo b
  | 0, l, i, _ => ⟨fun k _ => rfl, rfl, fun lo _ => boundPres_refl l lo b⟩
  | fuel + 1, l, i, hbl => by
    by_cases hib : i < b
    · have hres : shellLoop b (fuel + 1) l i =
          shellLoop b fuel (if lessO l i (i - 6) then swapL l i (i - 6) else l)
            (i + 1) := by
        rw [shellLoop, if_pos hib]
      have hlen : (if lessO l i (i - 6) then swapL l i (i - 6) else l).length =
          l.length := by
        by_cases hl : lessO l i (i - 6) <;> simp [hl, length_swapL]
      have hrec := shellLoop_facts b fuel
        (if lessO l i (i - 6) then swapL l i (i - 6) else l) (i + 1)
        (by rw [hlen]; exact hbl)
      rw [hres]
      refine ⟨?_, ?_, ?_⟩
      · intro k hk
        rw [hrec.1 k (by omega)]
        by_cases hl : lessO l i (i - 6)
        · rw [if_pos hl, sg_swapL_other (by omega) (by omega)]
        · rw [if_neg hl]
      · rw [hrec.2.1, hlen]
      · intro lo hlo
        refine boundPres_trans ?_ (hrec.2.2 lo (by omega))
        by_cases hl : lessO l i (i - 6)
        · rw [if_pos hl]
          exact boundPres_swapL (by omega) hib (by omega) (by omega)
            (by omega) (by omega)
        · rw [if_neg hl]
          exact boundPres_refl l lo b
    · rw [shellLoop, if_neg hib]
      exact ⟨fun k _ => rfl, rfl, fun lo _ => boundPres_refl l lo b⟩

/-- Full specification of the short-range branch of `quickSort_func`. -/
theorem shortSortGo_spec (l : List QueryStage) (a b : Nat) (hbl : b ≤ l.length) :
    SortedRange (shortSortGo l a b) a b
    ∧ (shortSortGo l a b).length = l.length
    ∧ (∀ k, k < a ∨ b ≤ k → sg (shortSortGo l a b) k = sg l k)
    ∧ BoundPres l (shortSortGo l a b) a b := by
  unfold shortSortGo
  by_cases hab : b - a > 1
  · rw [if_pos hab]
    have hsh := shellLoop_facts b (b - (a + 6)) l (a + 6) hbl
    set l1 := shellLoop b (b - (a + 6)) l (a + 6) with hl1
    have hbl1 : b ≤ l1.length := by rw [hsh.2.1]; exact hbl
    have hins := insertionSortGo_spec l1 a b hbl1
    have hinsf : (∀ k, k < a ∨ b ≤ k → sg (insertionSortGo l1 a b) k = sg l1 k)
        ∧ (insertionSortGo l1 a b).length = l1.length
        ∧ (b ≤ l1.length → BoundPres l1 (insertionSortGo l1 a b) a b) := by
      unfold insertionSortGo
      exact insertOuter_frame a b (b - a) l1 (a + 1) (by omega)
    refine ⟨hins.1, hins.2.1.trans hsh.2.1, ?_, ?_⟩
    · intro k hk
      rw [hinsf.1 k hk, hsh.1 k (by omega)]
    · exact boundPres_trans (hsh.2.2 a (by omega)) (hinsf.2.2 hbl1)
  · rw [if_neg hab]
    exact ⟨fun p q hp hpq hq => by omega, rfl, fun k _ => rfl,
      boundPres_refl l a b⟩

theorem lessO_iff {l : List QueryStage} {i j : Nat} :
    lessO l i j = true ↔ (sg l i).Order < (sg l j).Order := by
  simp [lessO]

/-- In a full max-heap the root is maximal. -/
theorem heapLinks_root_max {l : List QueryStage} {first hi : Nat}
    (h : HeapLinks l first hi 0) :
    ∀ k, k < hi → hval l first k ≤ hval l first 0 := by
  intro k
  induction k using Nat.strong_induction_on with
  | _ k ih =>
    intro hk
    rcases Nat.eq_zero_or_pos k with rfl | hpos
    · exact le_refl _
    · have hp : k = 2 * ((k - 1) / 2) + 1 ∨ k = 2 * ((k - 1) / 2) + 2 := by omega
      have hlink := h ((k - 1) / 2) k (Nat.zero_le _) hp hk
      exact le_trans hlink (ih ((k - 1) / 2) (by omega) (by omega))

/-- Bound preservation on a larger range follows from bound preservation on a
subrange plus a frame for the rest. -/
theorem boundPres_of_frame_sub {l r : List QueryStage} {a b a2 b2 : Nat}
    (ha : a ≤ a2) (hb : b2 ≤ b)
    (hf : ∀ k, k < a2 ∨ b2 ≤ k → sg r k = sg l k) (hbp : BoundPres l r a2 b2) :
    BoundPres l r a b := by
  intro P hP k hak hkb
  by_cases h1 : a2 ≤ k ∧ k < b2
  · exact hbp P (fun m hm1 hm2 => hP m (by omega) (by omega)) k h1.1 h1.2
  · rw [hf k (by omega)]
    exact hP k hak hkb

/-- Specification of `siftDown_func`: starting from an almost-heap whose only
possibly broken links are the ones out of `root` — with the extra premise
that `root`'s children are bounded by `root`'s parent when that parent is in
scope — sifting down restores every link from `s` upward.  Only the slice
range `[first, first + hi)` is touched. -/
theorem siftDownGo_spec (lo first : Nat) :
    ∀ (d hi root s : Nat) (l : List QueryStage),
      hi ≤ root + d →
      s ≤ root → first + hi ≤ l.length →
      (∀ i c, s ≤ i → i ≠ root → (c = 2 * i + 1 ∨ c = 2 * i + 2) → c < hi →
        hval l first c ≤ hval l first i) →
      (∀ pr c, s ≤ pr → (root = 2 * pr + 1 ∨ root = 2 * pr + 2) →
        (c = 2 * root + 1 ∨ c = 2 * root + 2) → c < hi →
        hval l first c ≤ hval l first pr) →
      HeapLinks (siftDownGo lo hi first l root) first hi s
      ∧ (siftDownGo lo hi first l root).length = l.length
      ∧ (∀ k, k < first ∨ first + hi ≤ k →
          sg (siftDownGo lo hi first l root) k = sg l k)
      ∧ BoundPres l (siftDownGo lo hi first l root) first (first + hi)
  | 0, hi, root, s, l, hd, hs, hlen, hexc, hpar => by
    have hnc : ¬ (2 * root + 1 < hi) := by omega
    rw [siftDownGo, dif_neg hnc]
    refine ⟨?_, rfl, fun k _ => rfl, boundPres_refl l first (first + hi)⟩
    intro i c hsi hcrel hchi
    by_cases hir : i = root
    · subst i
      rcases hcrel with rfl | rfl <;> exact absurd hchi (by omega)
    · exact hexc i c hsi hir hcrel hchi
  | d + 1, hi, root, s, l, hd, hs, hlen, hexc, hpar => by
    by_cases h1 : 2 * root + 1 < hi
    · rw [siftDownGo, dif_pos h1]
      have hRlen : first + root < l.length := by omega
      have hC1len : first + (2 * root + 1) < l.length := by omega
      by_cases h2 : 2 * root + 2 < hi ∧
          lessO l (first + (2 * root + 1)) (first + (2 * root + 2))
      · rw [dif_pos h2]
        have hC2len : first + (2 * root + 2) < l.length := by omega
        have hlt12 : (sg l (first + (2 * root + 1))).Order <
            (sg l (first + (2 * root + 2))).Order := lessO_iff.mp h2.2
        by_cases h3 : lessO l (first + root) (first + (2 * root + 2))
        · rw [if_pos h3]
          have hlt02 : (sg l (first + root)).Order <
              (sg l (first + (2 * root + 2))).Order := lessO_iff.mp h3
          set l2 := swapL l (first + root) (first + (2 * root + 2)) with hl2
          have vR : sg l2 (first + root) = sg l (first + (2 * root + 2)) :=
            sg_swapL_fst hRlen (by omega)
          have vC : sg l2 (first + (2 * root + 2)) = sg l (first + root) :=
            sg_swapL_snd hC2len
          have vO : ∀ k, k ≠ first + root → k ≠ first + (2 * root + 2) →
              sg l2 k = sg l k := fun k hk1 hk2 => sg_swapL_other hk1 hk2
          have hexc2 : ∀ i c, s ≤ i → i ≠ 2 * root + 2 →
              (c = 2 * i + 1 ∨ c = 2 * i + 2) → c < hi →
              hval l2 first c ≤ hval l2 first i := by
            intro i c hsi hic hcrel hchi
            unfold hval
            by_cases hir : i = root
            · subst i
              rcases hcrel with rfl | rfl
              · rw [vO (first + (2 * root + 1)) (by omega) (by omega), vR]
                exact le_of_lt hlt12
              · rw [vC, vR]
                exact le_of_lt hlt02
            · by_cases hcr : c = root
              · subst c
                rw [vR, vO (first + i) (by omega) (by omega)]
                exact hpar i (2 * root + 2) hsi hcrel (Or.inr rfl) h2.1
              · have hcc2 : c ≠ 2 * root + 2 := by
                  rcases hcrel with rfl | rfl <;> omega
                rw [vO (first + c) (by omega) (by omega),
                  vO (first + i) (by omega) (by omega)]
                exact hexc i c hsi hir hcrel hchi
          have hpar2 : ∀ pr c, s ≤ pr →
              (2 * root + 2 = 2 * pr + 1 ∨ 2 * root + 2 = 2 * pr + 2) →
              (c = 2 * (2 * root + 2) + 1 ∨ c = 2 * (2 * root + 2) + 2) →
              c < hi → hval l2 first c ≤ hval l2 first pr := by
            intro pr c hspr hprrel hcrel hchi
            have hpr : pr = root := by rcases hprrel with h | h <;> omega
            subst pr
            unfold hval
            rw [vR, vO (first + c) (by omega) (by omega)]
            exact hexc (2 * root + 2) c (by omega) (by omega) hcrel hchi
          have hrec := siftDownGo_spec lo first d hi (2 * root + 2) s l2
            (by omega) (by omega) (by rw [hl2, length_swapL]; exact hlen)
            hexc2 hpar2
          refine ⟨hrec.1, hrec.2.1.trans (by rw [hl2, length_swapL]), ?_, ?_⟩
          · intro k hk
            rw [hrec.2.2.1 k hk, vO k (by omega) (by omega)]
          · exact boundPres_trans
              (boundPres_swapL (by omega) (by omega) (by omega) (by omega)
                hRlen hC2len) hrec.2.2.2
        · rw [if_neg h3]
          have hle : (sg l (first + (2 * root + 2))).Order ≤
              (sg l (first + root)).Order := by
            have hnl : ¬ ((sg l (first + root)).Order <
                (sg l (first + (2 * root + 2))).Order) := fun hx => h3 (lessO_iff.mpr hx)
            omega
          refine ⟨?_, rfl, fun k _ => rfl, boundPres_refl l first (first + hi)⟩
          intro i c hsi hcrel hchi
          by_cases hir : i = root
          · subst i
            unfold hval
            rcases hcrel with rfl | rfl
            · exact le_trans (le_of_lt hlt12) hle
            · exact hle
          · exact hexc i c hsi hir hcrel hchi
      · rw [dif_neg h2]
        by_cases h3 : lessO l (first + root) (first + (2 * root + 1))
        · rw [if_pos h3]
          have hlt01 : (sg l (first + root)).Order <
              (sg l (first + (2 * root + 1))).Order := lessO_iff.mp h3
          have hsib : 2 * root + 2 < hi →
              (sg l (first + (2 * root + 2))).Order ≤
                (sg l (first + (2 * root + 1))).Order := by
            intro hc2
            have hnl : ¬ lessO l (first + (2 * root + 1)) (first + (2 * root + 2)) :=
              fun hx => h2 ⟨hc2, hx⟩
            have hge : ¬ ((sg l (first + (2 * root + 1))).Order <
                (sg l (first + (2 * root + 2))).Order) :=
              fun hx => hnl (lessO_iff.mpr hx)
            omega
          set l2 := swapL l (first + root) (first + (2 * root + 1)) with hl2
          have vR : sg l2 (first + root) = sg l (first + (2 * root + 1)) :=
            sg_swapL_fst hRlen (by omega)
          have vC : sg l2 (first + (2 * root + 1)) = sg l (first + root) :=
            sg_swapL_snd hC1len
          have vO : ∀ k, k ≠ first + root → k ≠ first + (2 * root + 1) →
              sg l2 k = sg l k := fun k hk1 hk2 => sg_swapL_other hk1 hk2
          have hexc2 : ∀ i c, s ≤ i → i ≠ 2 * root + 1 →
              (c = 2 * i + 1 ∨ c = 2 * i + 2) → c < hi →
              hval l2 first c ≤ hval l2 first i := by
            intro i c hsi hic hcrel hchi
            unfold hval
            by_cases hir : i = root
            · subst i
              rcases hcrel with rfl | rfl
              · rw [vC, vR]
                exact le_of_lt hlt01
              · rw [vO (first + (2 * root + 2)) (by omega) (by omega), vR]
                exact hsib hchi
            · by_cases hcr : c = root
              · subst c
                rw [vR, vO (first + i) (by omega) (by omega)]
                exact hpar i (2 * root + 1) hsi hcrel (Or.inl rfl) (by omega)
              · have hcc1 : c ≠ 2 * root + 1 := by
                  rcases hcrel with rfl | rfl <;> omega
                rw [vO (first + c) (by omega) (by omega),
                  vO (first + i) (by omega) (by omega)]
                exact hexc i c hsi hir hcrel hchi
          have hpar2 : ∀ pr c, s ≤ pr →
              (2 * root + 1 = 2 * pr + 1 ∨ 2 * root + 1 = 2 * pr + 2) →
              (c = 2 * (2 * root + 1) + 1 ∨ c = 2 * (2 * root + 1) + 2) →
              c < hi → hval l2 first c ≤ hval l2 first pr := by
            intro pr c hspr hprrel hcrel hchi
            have hpr : pr = root := by rcases hprrel with h | h <;> omega
            subst pr
            unfold hval
            rw [vR, vO (first + c) (by omega) (by omega)]
            exact hexc (2 * root + 1) c (by omega) (by omega) hcrel hchi
          have hrec := siftDownGo_spec lo first d hi (2 * root + 1) s l2
            (by omega) (by omega) (by rw [hl2, length_swapL]; exact hlen)
            hexc2 hpar2
          refine ⟨hrec.1, hrec.2.1.trans (by rw [hl2, length_swapL]), ?_, ?_⟩
          · intro k hk
            rw [hrec.2.2.1 k hk, vO k (by omega) (by omega)]
          · exact boundPres_trans
              (boundPres_swapL (by omega) (by omega) (by omega) (by omega)
                hRlen hC1len) hrec.2.2.2
        · rw [if_neg h3]
          have hle1 : (sg l (first + (2 * root + 1))).Order ≤
              (sg l (first + root)).Order := by
            have hnl : ¬ ((sg l (first + root)).Order <
                (sg l (first + (2 * root + 1))).Order) :=
              fun hx => h3 (lessO_iff.mpr hx)
            omega
          refine ⟨?_, rfl, fun k _ => rfl, boundPres_refl l first (first + hi)⟩
          intro i c hsi hcrel hchi
          by_cases hir : i = root
          · subst i
            unfold hval
            rcases hcrel with rfl | rfl
            · exact hle1
            · have hnl : ¬ lessO l (first + (2 * root + 1)) (first + (2 * root + 2)) :=
                fun hx => h2 ⟨hchi, hx⟩
              have hle2 : ¬ ((sg l (first + (2 * root + 1))).Order <
                  (sg l (first + (2 * root + 2))).Order) :=
                fun hx => hnl (lessO_iff.mpr hx)
              omega
          · exact hexc i c hsi hir hcrel hchi
    · rw [siftDownGo, dif_neg h1]
      refine ⟨?_, rfl, fun k _ => rfl, boundPres_refl l first (first + hi)⟩
      intro i c hsi hcrel hchi
      by_cases hir : i = root
      · subst i
        rcases hcrel with rfl | rfl <;> exact absurd hchi (by omega)
      · exact hexc i c hsi hir hcrel hchi

/-- The heap-building loop of `heapSort_func` establishes all links. -/
theorem heapBuild_spec (hi first : Nat) :
    ∀ (n : Nat) (l : List QueryStage),
      first + hi ≤ l.length →
      HeapLinks l first hi n →
      HeapLinks (heapBuild hi first l n) first hi 0
      ∧ (heapBuild hi first l n).length = l.length
      ∧ (∀ k, k < first ∨ first + hi ≤ k → sg (heapBuild hi first l n) k = sg l k)
      ∧ BoundPres l (heapBuild hi first l n) first (first + hi)
  | 0, l, _, hl => ⟨hl, rfl, fun k _ => rfl, boundPres_refl _ _ _⟩
  | n + 1, l, hlen, hl => by
    have hsd := siftDownGo_spec 0 first hi hi n n l (by omega) (le_refl n) hlen
      (fun i c hsi hin hcrel hchi => hl i c (by omega) hcrel hchi)
      (fun pr c hspr hprrel _ _ => absurd hprrel (by omega))
    have hrec := heapBuild_spec hi first n (siftDownGo 0 hi first l n)
      (by rw [hsd.2.1]; exact hlen) hsd.1
    rw [heapBuild]
    refine ⟨hrec.1, hrec.2.1.trans hsd.2.1, ?_, ?_⟩
    · intro k hk
      rw [hrec.2.2.1 k hk, hsd.2.2.1 k hk]
    · exact boundPres_trans hsd.2.2.2 hrec.2.2.2

/-- The extraction loop of `heapSort_func`: with a max-heap on `[0, i)`, the
already-extracted suffix `[i, hi)` sorted and dominating the heap, repeated
extraction sorts the whole range. -/
theorem heapExtract_spec (first hi : Nat) :
    ∀ (i : Nat) (l : List QueryStage),
      i ≤ hi → first + hi ≤ l.length →
      HeapLinks l first i 0 →
      (∀ k m, k < i → i ≤ m → m < hi → hval l first k ≤ hval l first m) →
      SortedRange l (first + i) (first + hi) →
      SortedRange (heapExtract first l i) first (first + hi)
      ∧ (heapExtract first l i).length = l.length
      ∧ (∀ k, k < first ∨ first + hi ≤ k → sg (heapExtract first l i) k = sg l k)
      ∧ BoundPres l (heapExtract first l i) first (first + hi)
  | 0, l, _, _, _, _, hsort => by
    refine ⟨?_, rfl, fun k _ => rfl, boundPres_refl _ _ _⟩
    intro p q hp hpq hq
    exact hsort p q (by omega) hpq hq
  | i + 1, l, hik, hlen, hheap, hcross, hsort => by
    have hfl : first < l.length := by omega
    have hfil : first + i < l.length := by omega
    have hmax := heapLinks_root_max hheap
    set l1 := swapL l first (first + i) with hl1
    have v0 : sg l1 first = sg l (first + i) := by
      rcases Nat.eq_zero_or_pos i with rfl | hpos
      · simpa using sg_swapL_snd (by simpa using hfl)
      · exact sg_swapL_fst hfl (by omega)
    have vi : sg l1 (first + i) = sg l first := sg_swapL_snd hfil
    have vO : ∀ k, k ≠ first → k ≠ first + i → sg l1 k = sg l k :=
      fun k h1 h2 => sg_swapL_other h1 h2
    have hlen1 : first + i ≤ l1.length := by rw [hl1, length_swapL]; omega
    have hsd := siftDownGo_spec 0 first i i 0 0 l1 (by omega) (le_refl 0) hlen1
      (fun j c hj hj0 hcrel hchi => by
        unfold hval
        rw [vO (first + c) (by omega) (by omega), vO (first + j) (by omega) (by omega)]
        exact hheap j c (Nat.zero_le j) hcrel (by omega))
      (fun pr c hspr hprrel _ _ => absurd hprrel (by omega))
    set l2 := siftDownGo 0 i first l1 0 with hl2
    have hlen2 : first + hi ≤ l2.length := by
      rw [hsd.2.1, hl1, length_swapL]; exact hlen
    -- values on the extracted suffix
    have v2i : sg l2 (first + i) = sg l first := by
      rw [hsd.2.2.1 (first + i) (by omega)]; exact vi
    have v2m : ∀ m, i < m → sg l2 (first + m) = sg l (first + m) := by
      intro m hm
      rw [hsd.2.2.1 (first + m) (by omega), vO (first + m) (by omega) (by omega)]
    -- every heap value of l2 is bounded by the extracted maximum
    have hbnd : ∀ k, k < i → (sg l2 (first + k)).Order ≤ (sg l first).Order := by
      intro k hk
      have hP := hsd.2.2.2 (fun x => x.Order ≤ (sg l first).Order) ?_ (first + k)
        (by omega) (by omega)
      · exact hP
      · intro m hm1 hm2
        by_cases hmf : m = first
        · subst m
          rw [v0]
          exact hmax i (by omega)
        · rw [vO m hmf (by omega)]
          have hm : m - first < i + 1 := by omega
          have := hmax (m - first) (by omega)
          unfold hval at this
          have hmeq : first + (m - first) = m := by omega
          rw [hmeq] at this
          exact this
    have hrec := heapExtract_spec first hi i l2 (by omega) hlen2 hsd.1
      (by
        intro k m hk hm1 hm2
        unfold hval
        rcases Nat.eq_or_lt_of_le hm1 with rfl | hm3
        · rw [v2i]
          exact hbnd k hk
        · rw [v2m m hm3]
          refine le_trans (hbnd k hk) ?_
          have := hcross 0 m (by omega) (by omega) hm2
          unfold hval at this
          simpa using this)
      (by
        intro p q hp hpq hq
        have hq2 : first + i < q := by omega
        have hqeq : q = first + (q - first) := by omega
        have v2q : sg l2 q = sg l q := by rw [hqeq]; exact v2m (q - first) (by omega)
        rcases Nat.eq_or_lt_of_le hp with rfl | hp2
        · rw [v2i, v2q]
          have := hcross 0 (q - first) (by omega) (by omega) (by omega)
          unfold hval at this
          rw [← hqeq] at this
          simpa using this
        · have hpeq : p = first + (p - first) := by omega
          have v2p : sg l2 p = sg l p := by rw [hpeq]; exact v2m (p - first) (by omega)
          rw [v2p, v2q]
          exact hsort p q (by omega) hpq hq)
    rw [heapExtract]
    refine ⟨hrec.1, ?_, ?_, ?_⟩
    · rw [hrec.2.1, hsd.2.1, hl1, length_swapL]
    · intro k hk
      rw [hrec.2.2.1 k hk, hsd.2.2.1 k (by omega), vO k (by omega) (by omega)]
    · refine boundPres_trans (boundPres_swapL (le_refl first) (by omega) (by omega)
        (by omega) hfl hfil) (boundPres_trans ?_ hrec.2.2.2)
      exact boundPres_of_frame_sub (le_refl first) (by omega) hsd.2.2.1 hsd.2.2.2

/-- `heapSort_func(data, a, b)` sorts the range `[a, b)` and touches nothing
else. -/
theorem heapSortGo_spec (l : List QueryStage) (a b : Nat) (hbl : b ≤ l.length) :
    SortedRange (heapSortGo l a b) a b
    ∧ (heapSortGo l a b).length = l.length
    ∧ (∀ k, k < a ∨ b ≤ k → sg (heapSortGo l a b) k = sg l k)
    ∧ BoundPres l (heapSortGo l a b) a b := by
  by_cases hab : a ≤ b
  · have hlen : a + (b - a) ≤ l.length := by omega
    have hbuild := heapBuild_spec (b - a) a ((b - a - 1) / 2 + 1) l hlen
      (fun i c hsi hcrel hchi => absurd hchi (by omega))
    have hext := heapExtract_spec a (b - a) (b - a)
      (heapBuild (b - a) a l ((b - a - 1) / 2 + 1)) (le_refl _)
      (by rw [hbuild.2.1]; exact hlen) hbuild.1
      (fun k m _ hm1 hm2 => absurd hm2 (by omega))
      (fun p q _ hpq hq => absurd (lt_of_lt_of_le hpq (by omega : q ≤ a + (b - a))) (by omega))
    unfold heapSortGo
    refine ⟨?_, hext.2.1.trans hbuild.2.1, ?_, ?_⟩
    · intro p q hp hpq hq
      exact hext.1 p q hp hpq (by omega)
    · intro k hk
      rw [hext.2.2.1 k (by omega), hbuild.2.2.1 k (by omega)]
    · have h1 := boundPres_trans hbuild.2.2.2 hext.2.2.2
      intro P hP k hak hkb
      exact h1 P (fun m hm1 hm2 => hP m hm1 (by omega)) k hak (by omega)
  · -- empty range: both phases reduce to the identity
    have hhi : b - a = 0 := by omega
    have hsift : siftDownGo 0 0 a l 0 = l := by
      rw [siftDownGo, dif_neg (by omega)]
    have hres : heapSortGo l a b = l := by
      unfold heapSortGo
      rw [hhi]
      show heapExtract a (heapBuild 0 a l ((0 - 1) / 2 + 1)) 0 = l
      have hb1 : heapBuild 0 a l ((0 - 1) / 2 + 1) = l := by
        show heapBuild 0 a l 1 = l
        rw [heapBuild, hsift, heapBuild]
      rw [hb1, heapExtract]
    rw [hres]
    exact ⟨fun p q hp hpq hq => by omega, rfl, fun k _ => rfl, boundPres_refl _ _ _⟩

/-! ### The index scans of `doPivot_func` -/

/-- `for ; a < c && data.Less(a, pivot); a++`: the scanned positions are
strictly below the pivot, and with enough fuel a non-`c` exit refutes the
scan condition. -/
theorem dpScanA_spec (l : List QueryStage) (pivot c : Nat) :
    ∀ (fuel a : Nat),
      a ≤ dpScanA l pivot c fuel a
      ∧ (a ≤ c → dpScanA l pivot c fuel a ≤ c)
      ∧ (∀ k, a ≤ k → k < dpScanA l pivot c fuel a →
          (sg l k).Order < (sg l pivot).Order)
      ∧ (c ≤ fuel + a → dpScanA l pivot c fuel a < c →
          ¬ ((sg l (dpScanA l pivot c fuel a)).Order < (sg l pivot).Order))
  | 0, a => by
    simp only [dpScanA]
    refine ⟨le_refl a, fun h => h, fun k h1 h2 => absurd h2 (by omega), ?_⟩
    intro hfuel hlt
    omega
  | fuel + 1, a => by
    by_cases hc : a < c ∧ lessO l a pivot
    · rw [dpScanA, if_pos hc]
      have hrec := dpScanA_spec l pivot c fuel (a + 1)
      refine ⟨by omega, fun _ => hrec.2.1 (by omega), ?_, fun hf => hrec.2.2.2 (by omega)⟩
      intro k h1 h2
      rcases Nat.eq_or_lt_of_le h1 with rfl | h3
      · exact lessO_iff.mp hc.2
      · exact hrec.2.2.1 k h3 h2
    · rw [dpScanA, if_neg hc]
      refine ⟨le_refl a, fun h => h, fun k h1 h2 => absurd h2 (by omega), ?_⟩
      intro _ hlt
      intro hx
      exact hc ⟨hlt, lessO_iff.mpr hx⟩

/-- `for ; b < c && !data.Less(pivot, b); b++`. -/
theorem dpScanB_spec (l : List QueryStage) (pivot c : Nat) :
    ∀ (fuel b : Nat),
      b ≤ dpScanB l pivot c fuel b
      ∧ (b ≤ c → dpScanB l pivot c fuel b ≤ c)
      ∧ (∀ k, b ≤ k → k < dpScanB l pivot c fuel b →
          ¬ ((sg l pivot).Order < (sg l k).Order))
      ∧ (c ≤ fuel + b → dpScanB l pivot c fuel b < c →
          (sg l pivot).Order < (sg l (dpScanB l pivot c fuel b)).Order)
  | 0, b => by
    simp only [dpScanB]
    refine ⟨le_refl b, fun h => h, fun k h1 h2 => absurd h2 (by omega), ?_⟩
    intro hfuel hlt
    omega
  | fuel + 1, b => by
    by_cases hc : b < c ∧ ¬ lessO l pivot b
    · rw [dpScanB, if_pos hc]
      have hrec := dpScanB_spec l pivot c fuel (b + 1)
      refine ⟨by omega, fun _ => hrec.2.1 (by omega), ?_, fun hf => hrec.2.2.2 (by omega)⟩
      intro k h1 h2
      rcases Nat.eq_or_lt_of_le h1 with rfl | h3
      · exact fun hx => hc.2 (lessO_iff.mpr hx)
      · exact hrec.2.2.1 k h3 h2
    · rw [dpScanB, if_neg hc]
      refine ⟨le_refl b, fun h => h, fun k h1 h2 => absurd h2 (by omega), ?_⟩
      intro _ hlt
      by_cases hx : lessO l pivot b
      · exact lessO_iff.mp hx
      · exact absurd ⟨hlt, hx⟩ hc

/-- `for ; b < c && data.Less(pivot, c-1); c--`. -/
theorem dpScanC_spec (l : List QueryStage) (pivot b : Nat) :
    ∀ (fuel c : Nat),
      dpScanC l pivot b fuel c ≤ c
      ∧ (b ≤ c → b ≤ dpScanC l pivot b fuel c)
      ∧ (∀ k, dpScanC l pivot b fuel c ≤ k → k < c →
          (sg l pivot).Order < (sg l k).Order)
      ∧ (c ≤ fuel + b → b < dpScanC l pivot b fuel c →
          ¬ ((sg l pivot).Order < (sg l (dpScanC l pivot b fuel c - 1)).Order))
  | 0, c => by
    simp only [dpScanC]
    refine ⟨le_refl c, fun h => h, fun k h1 h2 => absurd h2 (by omega), ?_⟩
    intro hfuel hlt
    omega
  | fuel + 1, c => by
    by_cases hc : b < c ∧ lessO l pivot (c - 1)
    · rw [dpScanC, if_pos hc]
      have hrec := dpScanC_spec l pivot b fuel (c - 1)
      refine ⟨by omega, fun _ => hrec.2.1 (by omega), ?_, fun hf => hrec.2.2.2 (by omega)⟩
      intro k h1 h2
      rcases Nat.eq_or_lt_of_le (Nat.le_of_lt_succ (by omega : k < c - 1 + 1)) with h3 | h3
      · have hk : k = c - 1 := by omega
        subst hk
        exact lessO_iff.mp hc.2
      · exact hrec.2.2.1 k h1 (by omega)
    · rw [dpScanC, if_neg hc]
      refine ⟨le_refl c, fun h => h, fun k h1 h2 => absurd h2 (by omega), ?_⟩
      intro _ hlt
      intro hx
      exact hc ⟨hlt, lessO_iff.mpr hx⟩

/-- `for ; a < b && !data.Less(b-1, pivot); b--` (the `protect` loop's upper
scan): the passed positions are not below the pivot. -/
theorem dpScanB2_spec (l : List QueryStage) (pivot a : Nat) :
    ∀ (fuel b : Nat),
      dpScanB2 l pivot a fuel b ≤ b
      ∧ (a ≤ b → a ≤ dpScanB2 l pivot a fuel b)
      ∧ (∀ k, dpScanB2 l pivot a fuel b ≤ k → k < b →
          ¬ ((sg l k).Order < (sg l pivot).Order))
      ∧ (b ≤ fuel + a → a < dpScanB2 l pivot a fuel b →
          (sg l (dpScanB2 l pivot a fuel b - 1)).Order < (sg l pivot).Order)
  | 0, b => by
    simp only [dpScanB2]
    refine ⟨le_refl b, fun h => h, fun k h1 h2 => absurd h2 (by omega), ?_⟩
    intro hfuel hlt
    omega
  | fuel + 1, b => by
    by_cases hc : a < b ∧ ¬ lessO l (b - 1) pivot
    · rw [dpScanB2, if_pos hc]
      have hrec := dpScanB2_spec l pivot a fuel (b - 1)
      refine ⟨by omega, fun _ => hrec.2.1 (by omega), ?_, fun hf => hrec.2.2.2 (by omega)⟩
      intro k h1 h2
      rcases Nat.eq_or_lt_of_le (Nat.le_of_lt_succ (by omega : k < b - 1 + 1)) with h3 | h3
      · have hk : k = b - 1 := by omega
        subst hk
        exact fun hx => hc.2 (lessO_iff.mpr hx)
      · exact hrec.2.2.1 k h1 (by omega)
    · rw [dpScanB2, if_neg hc]
      refine ⟨le_refl b, fun h => h, fun k h1 h2 => absurd h2 (by omega), ?_⟩
      intro _ hlt
      by_cases hx : lessO l (b - 1) pivot
      · exact lessO_iff.mp hx
      · exact absurd ⟨hlt, hx⟩ hc

/-- `for ; a < b && data.Less(a, pivot); a++` (the `protect` loop's lower
scan). -/
theorem dpScanA2_spec (l : List QueryStage) (pivot b : Nat) :
    ∀ (fuel a : Nat),
      a ≤ dpScanA2 l pivot b fuel a
      ∧ (a ≤ b → dpScanA2 l pivot b fuel a ≤ b)
      ∧ (∀ k, a ≤ k → k < dpScanA2 l pivot b fuel a →
          (sg l k).Order < (sg l pivot).Order)
      ∧ (b ≤ fuel + a → dpScanA2 l pivot b fuel a < b →
          ¬ ((sg l (dpScanA2 l pivot b fuel a)).Order < (sg l pivot).Order))
  | 0, a => by
    simp only [dpScanA2]
    refine ⟨le_refl a, fun h => h, fun k h1 h2 => absurd h2 (by omega), ?_⟩
    intro hfuel hlt
    omega
  | fuel + 1, a => by
    by_cases hc : a < b ∧ lessO l a pivot
    · rw [dpScanA2, if_pos hc]
      have hrec := dpScanA2_spec l pivot b fuel (a + 1)
      refine ⟨by omega, fun _ => hrec.2.1 (by omega), ?_, fun hf => hrec.2.2.2 (by omega)⟩
      intro k h1 h2
      rcases Nat.eq_or_lt_of_le h1 with rfl | h3
      · exact lessO_iff.mp hc.2
      · exact hrec.2.2.1 k h3 h2
    · rw [dpScanA2, if_neg hc]
      refine ⟨le_refl a, fun h => h, fun k h1 h2 => absurd h2 (by omega), ?_⟩
      intro _ hlt
      intro hx
      exact hc ⟨hlt, lessO_iff.mpr hx⟩

/-! ### `medianOfThree_func` -/

/-- The second and third comparison of `medianOfThree_func`, assuming the
first already ensured `data[m0] <= data[m1]`. -/
theorem medianStage2_spec (s1 : List QueryStage) (m1 m0 m2 : Nat)
    (r : List QueryStage)
    (hr : r = if lessO s1 m2 m1 then
        (if lessO (swapL s1 m2 m1) m1 m0 then swapL (swapL s1 m2 m1) m1 m0
         else swapL s1 m2 m1) else s1)
    (h01 : m0 ≠ m1) (h02 : m0 ≠ m2) (h12 : m1 ≠ m2)
    (hl0 : m0 < s1.length) (hl1 : m1 < s1.length) (hl2 : m2 < s1.length)
    (hc : (sg s1 m0).Order ≤ (sg s1 m1).Order) :
    (sg r m0).Order ≤ (sg r m1).Order ∧ (sg r m1).Order ≤ (sg r m2).Order ∧
    r.length = s1.length ∧
    (∀ k, k ≠ m0 → k ≠ m1 → k ≠ m2 → sg r k = sg s1 k) ∧
    (∀ a b, a ≤ m0 → a ≤ m1 → a ≤ m2 → m0 < b → m1 < b → m2 < b →
      BoundPres s1 r a b) := by
  by_cases h2 : lessO s1 m2 m1 = true
  · rw [if_pos h2] at hr
    have hlen2 : (swapL s1 m2 m1).length = s1.length := length_swapL s1 m2 m1
    have f1 : sg (swapL s1 m2 m1) m1 = sg s1 m2 := sg_swapL_snd hl1
    have f2 : sg (swapL s1 m2 m1) m2 = sg s1 m1 := sg_swapL_fst hl2 h12
    have f3 : sg (swapL s1 m2 m1) m0 = sg s1 m0 := sg_swapL_other h02 h01
    by_cases h3 : lessO (swapL s1 m2 m1) m1 m0 = true
    · rw [if_pos h3] at hr
      have g1 : sg r m0 = sg (swapL s1 m2 m1) m1 := by
        rw [hr]; exact sg_swapL_snd (by omega)
      have g2 : sg r m1 = sg (swapL s1 m2 m1) m0 := by
        rw [hr]; exact sg_swapL_fst (by omega) h01
      have g3 : sg r m2 = sg (swapL s1 m2 m1) m2 := by
        rw [hr]; exact sg_swapL_other (Ne.symm h12) (Ne.symm h02)
      refine ⟨?_, ?_, ?_, ?_, ?_⟩
      · rw [g1, g2]
        exact le_of_lt (lessO_iff.mp h3)
      · rw [g2, g3, f3, f2]
        exact hc
      · rw [hr, length_swapL, length_swapL]
      · intro k hk0 hk1 hk2
        rw [hr, sg_swapL_other hk1 hk0, sg_swapL_other hk2 hk1]
      · intro a b ha0 ha1 ha2 hb0 hb1 hb2
        rw [hr]
        exact boundPres_trans (boundPres_swapL ha2 hb2 ha1 hb1 hl2 hl1)
          (boundPres_swapL ha1 hb1 ha0 hb0 (by omega) (by omega))
    · rw [if_neg h3] at hr
      have h3x : ¬ ((sg (swapL s1 m2 m1) m1).Order <
          (sg (swapL s1 m2 m1) m0).Order) := fun hx => h3 (lessO_iff.mpr hx)
      refine ⟨?_, ?_, ?_, ?_, ?_⟩
      · rw [hr]
        exact le_of_not_lt h3x
      · rw [hr, f1, f2]
        exact le_of_lt (lessO_iff.mp h2)
      · rw [hr, length_swapL]
      · intro k hk0 hk1 hk2
        rw [hr, sg_swapL_other hk2 hk1]
      · intro a b ha0 ha1 ha2 hb0 hb1 hb2
        rw [hr]
        exact boundPres_swapL ha2 hb2 ha1 hb1 hl2 hl1
  · rw [if_neg h2] at hr
    have h2x : ¬ ((sg s1 m2).Order < (sg s1 m1).Order) :=
      fun hx => h2 (lessO_iff.mpr hx)
    rw [hr]
    exact ⟨hc, le_of_not_lt h2x, rfl, fun k _ _ _ => rfl,
      fun a b _ _ _ _ _ _ => boundPres_refl s1 a b⟩

/-- `medianOfThree_func(data, m1, m0, m2)` sorts the three positions:
afterwards `data[m0] <= data[m1] <= data[m2]`; only the three positions are
touched, and any pointwise bound over a range containing them is preserved. -/
theorem medianOfThreeGo_spec (l : List QueryStage) (m1 m0 m2 : Nat)
    (h01 : m0 ≠ m1) (h02 : m0 ≠ m2) (h12 : m1 ≠ m2)
    (hl0 : m0 < l.length) (hl1 : m1 < l.length) (hl2 : m2 < l.length) :
    (sg (medianOfThreeGo l m1 m0 m2) m0).Order ≤
      (sg (medianOfThreeGo l m1 m0 m2) m1).Order ∧
    (sg (medianOfThreeGo l m1 m0 m2) m1).Order ≤
      (sg (medianOfThreeGo l m1 m0 m2) m2).Order ∧
    (medianOfThreeGo l m1 m0 m2).length = l.length ∧
    (∀ k, k ≠ m0 → k ≠ m1 → k ≠ m2 → sg (medianOfThreeGo l m1 m0 m2) k = sg l k) ∧
    (∀ a b, a ≤ m0 → a ≤ m1 → a ≤ m2 → m0 < b → m1 < b → m2 < b →
      BoundPres l (medianOfThreeGo l m1 m0 m2) a b) := by
  unfold medianOfThreeGo
  by_cases h1 : lessO l m1 m0 = true
  · rw [if_pos h1]
    have hs : (swapL l m1 m0).length = l.length := length_swapL l m1 m0
    have f0 : sg (swapL l m1 m0) m0 = sg l m1 := sg_swapL_snd hl0
    have f1 : sg (swapL l m1 m0) m1 = sg l m0 := sg_swapL_fst hl1 h01
    have hstage := medianStage2_spec (swapL l m1 m0) m1 m0 m2 _ rfl h01 h02 h12
      (by omega) (by omega) (by omega)
      (by rw [f0, f1]; exact le_of_lt (lessO_iff.mp h1))
    refine ⟨hstage.1, hstage.2.1, by rw [hstage.2.2.1, hs], ?_, ?_⟩
    · intro k hk0 hk1 hk2
      rw [hstage.2.2.2.1 k hk0 hk1 hk2, sg_swapL_other hk1 hk0]
    · intro a b ha0 ha1 ha2 hb0 hb1 hb2
      exact boundPres_trans (boundPres_swapL ha1 hb1 ha0 hb0 hl1 hl0)
        (hstage.2.2.2.2 a b ha0 ha1 ha2 hb0 hb1 hb2)
  · rw [if_neg h1]
    have h1x : ¬ ((sg l m1).Order < (sg l m0).Order) :=
      fun hx => h1 (lessO_iff.mpr hx)
    exact medianStage2_spec l m1 m0 m2 _ rfl h01 h02 h12 hl0 hl1 hl2
      (le_of_not_lt h1x)

/-- The main partition loop of `doPivot_func`.  From a state with
`pivot < b ≤ c ≤ |l|` and enough fuel it terminates with `b = c`, having
moved only positions in `[b, c)`: everything in `[b_entry, b_final)` ends up
at most the pivot value and everything in `[c_final, c_entry)` strictly
above it. -/
theorem dpMainLoop_spec (pivot : Nat) :
    ∀ (fuel : Nat) (l : List QueryStage) (b c : Nat),
      pivot < b → b ≤ c → c ≤ l.length → c ≤ fuel + b →
      (dpMainLoop pivot fuel l b c).2.1 = (dpMainLoop pivot fuel l b c).2.2
      ∧ b ≤ (dpMainLoop pivot fuel l b c).2.1
      ∧ (dpMainLoop pivot fuel l b c).2.2 ≤ c
      ∧ (dpMainLoop pivot fuel l b c).1.length = l.length
      ∧ (∀ k, k < b ∨ c ≤ k → sg (dpMainLoop pivot fuel l b c).1 k = sg l k)
      ∧ (∀ k, b ≤ k → k < (dpMainLoop pivot fuel l b c).2.1 →
          (sg (dpMainLoop pivot fuel l b c).1 k).Order ≤ (sg l pivot).Order)
      ∧ (∀ k, (dpMainLoop pivot fuel l b c).2.2 ≤ k → k < c →
          (sg l pivot).Order < (sg (dpMainLoop pivot fuel l b c).1 k).Order)
      ∧ BoundPres l (dpMainLoop pivot fuel l b c).1 b c
  | 0, l, b, c => by
    intro hpb hbc hcl hfuel
    refine ⟨?_, ?_, ?_, ?_, ?_, ?_, ?_, ?_⟩
    · show b = c
      omega
    · show b ≤ b
      exact le_refl b
    · show c ≤ c
      exact le_refl c
    · show l.length = l.length
      rfl
    · show ∀ k, k < b ∨ c ≤ k → sg l k = sg l k
      exact fun k _ => rfl
    · show ∀ k, b ≤ k → k < b → _
      intro k h1 h2
      exact absurd (h1.trans_lt h2) (by omega)
    · show ∀ k, c ≤ k → k < c → _
      intro k h1 h2
      exact absurd (h1.trans_lt h2) (by omega)
    · show BoundPres l l b c
      exact boundPres_refl l b c
  | fuel + 1, l, b, c => by
    intro hpb hbc hcl hfuel
    have hB := dpScanB_spec l pivot c (c - b) b
    set sb := dpScanB l pivot c (c - b) b with hsb
    have hsbc : sb ≤ c := hB.2.1 hbc
    have hC := dpScanC_spec l pivot sb (c - sb) c
    set sc := dpScanC l pivot sb (c - sb) c with hsc
    have hscc : sc ≤ c := hC.1
    have hbsc : sb ≤ sc := hC.2.1 hsbc
    have hR : dpMainLoop pivot (fuel + 1) l b c =
        if sb ≥ sc then (l, sb, sc)
        else dpMainLoop pivot fuel (swapL l sb (sc - 1)) (sb + 1) (sc - 1) := rfl
    by_cases h : sb ≥ sc
    · rw [hR, if_pos h]
      refine ⟨?_, ?_, ?_, ?_, ?_, ?_, ?_, ?_⟩
      · show sb = sc
        omega
      · show b ≤ sb
        exact hB.1
      · show sc ≤ c
        exact hscc
      · show l.length = l.length
        rfl
      · show ∀ k, k < b ∨ c ≤ k → sg l k = sg l k
        exact fun k _ => rfl
      · show ∀ k, b ≤ k → k < sb → _
        intro k h1 h2
        exact le_of_not_lt (hB.2.2.1 k h1 h2)
      · show ∀ k, sc ≤ k → k < c → _
        intro k h1 h2
        exact hC.2.2.1 k h1 h2
      · show BoundPres l l b c
        exact boundPres_refl l b c
    · rw [hR, if_neg h]
      have hlt : sb < sc := by omega
      have hvb : (sg l pivot).Order < (sg l sb).Order :=
        hB.2.2.2 (by omega) (by omega)
      have hvc : ¬ ((sg l pivot).Order < (sg l (sc - 1)).Order) :=
        hC.2.2.2 (by omega) (by omega)
      have hsep : sb < sc - 1 := by
        rcases Nat.lt_or_ge sb (sc - 1) with h1 | h1
        · exact h1
        · have hx : sb = sc - 1 := by omega
          rw [hx] at hvb
          exact absurd hvb hvc
      have hlen2 : (swapL l sb (sc - 1)).length = l.length :=
        length_swapL l sb (sc - 1)
      have hv1 : sg (swapL l sb (sc - 1)) sb = sg l (sc - 1) :=
        sg_swapL_fst (by omega) (by omega)
      have hv2 : sg (swapL l sb (sc - 1)) (sc - 1) = sg l sb :=
        sg_swapL_snd (by omega)
      have hvp : sg (swapL l sb (sc - 1)) pivot = sg l pivot :=
        sg_swapL_other (by omega) (by omega)
      have IH := dpMainLoop_spec pivot fuel (swapL l sb (sc - 1)) (sb + 1)
        (sc - 1) (by omega) (by omega) (by omega) (by omega)
      refine ⟨IH.1, by have := IH.2.1; omega, by have := IH.2.2.1; omega,
        by rw [IH.2.2.2.1, hlen2], ?_, ?_, ?_, ?_⟩
      · intro k hk
        rw [IH.2.2.2.2.1 k (by omega), sg_swapL_other (by omega) (by omega)]
      · intro k h1 h2
        rcases Nat.lt_or_ge k sb with h3 | h3
        · rw [IH.2.2.2.2.1 k (by omega), sg_swapL_other (by omega) (by omega)]
          exact le_of_not_lt (hB.2.2.1 k h1 h3)
        · rcases Nat.eq_or_lt_of_le h3 with h4 | h4
          · rw [IH.2.2.2.2.1 k (by omega)]
            rw [← h4, hv1]
            exact le_of_not_lt hvc
          · have := IH.2.2.2.2.2.1 k (by omega) h2
            rw [hvp] at this
            exact this
      · intro k h1 h2
        rcases Nat.lt_or_ge k (sc - 1) with h3 | h3
        · have := IH.2.2.2.2.2.2.1 k h1 h3
          rw [hvp] at this
          exact this
        · rcases Nat.eq_or_lt_of_le h3 with h4 | h4
          · rw [IH.2.2.2.2.1 k (by omega), ← h4, hv2]
            exact hvb
          · rw [IH.2.2.2.2.1 k (by omega),
              sg_swapL_other (by omega) (by omega)]
            exact hC.2.2.1 k (by omega) h2
      · refine boundPres_trans
          (boundPres_swapL (by omega) (by omega) (by omega) (by omega)
            (by omega) (by omega))
          (boundPres_of_frame_sub (by omega) (by omega) ?_
            IH.2.2.2.2.2.2.2)
        intro k hk
        exact IH.2.2.2.2.1 k hk

/-- The `protect` loop of `doPivot_func`.  From a state where everything in
`(pivot, b)` is at most the pivot value and everything in `[b, C)` equals it,
the loop returns a new boundary `bf ≤ b` with the same two facts at `bf`,
touching only `[a, b)`. -/
theorem dpProtectLoop_spec (pivot C : Nat) :
    ∀ (fuel : Nat) (l : List QueryStage) (a b : Nat),
      pivot < a → a ≤ b → b ≤ l.length → b ≤ C → b ≤ fuel + a →
      (∀ k, pivot < k → k < b → (sg l k).Order ≤ (sg l pivot).Order) →
      (∀ k, b ≤ k → k < C → (sg l k).Order = (sg l pivot).Order) →
      (pivot < (dpProtectLoop pivot fuel l a b).2
        ∧ (dpProtectLoop pivot fuel l a b).2 ≤ b)
      ∧ (dpProtectLoop pivot fuel l a b).1.length = l.length
      ∧ (∀ k, k < a ∨ b ≤ k → sg (dpProtectLoop pivot fuel l a b).1 k = sg l k)
      ∧ (∀ k, pivot < k → k < (dpProtectLoop pivot fuel l a b).2 →
          (sg (dpProtectLoop pivot fuel l a b).1 k).Order ≤ (sg l pivot).Order)
      ∧ (∀ k, (dpProtectLoop pivot fuel l a b).2 ≤ k → k < C →
          (sg (dpProtectLoop pivot fuel l a b).1 k).Order = (sg l pivot).Order)
      ∧ BoundPres l (dpProtectLoop pivot fuel l a b).1 a b
  | 0, l, a, b => by
    intro hpa hab hbl hbC hfuel H1 H2
    refine ⟨⟨?_, ?_⟩, ?_, ?_, ?_, ?_, ?_⟩
    · show pivot < b
      omega
    · show b ≤ b
      exact le_refl b
    · show l.length = l.length
      rfl
    · show ∀ k, k < a ∨ b ≤ k → sg l k = sg l k
      exact fun k _ => rfl
    · show ∀ k, pivot < k → k < b → _
      exact H1
    · show ∀ k, b ≤ k → k < C → _
      exact H2
    · show BoundPres l l a b
      exact boundPres_refl l a b
  | fuel + 1, l, a, b => by
    intro hpa hab hbl hbC hfuel H1 H2
    have hB2 := dpScanB2_spec l pivot a (b - a) b
    set b2 := dpScanB2 l pivot a (b - a) b with hb2
    have hb2b : b2 ≤ b := hB2.1
    have hab2 : a ≤ b2 := hB2.2.1 hab
    have hA2 := dpScanA2_spec l pivot b2 (b2 - a) a
    set a2 := dpScanA2 l pivot b2 (b2 - a) a with ha2
    have haa2 : a ≤ a2 := hA2.1
    have ha2b2 : a2 ≤ b2 := hA2.2.1 hab2
    have hmid : ∀ k, b2 ≤ k → k < b →
        (sg l k).Order = (sg l pivot).Order := by
      intro k h1 h2
      have hge := hB2.2.2.1 k h1 h2
      have hle := H1 k (by omega) h2
      omega
    have hR : dpProtectLoop pivot (fuel + 1) l a b =
        if a2 ≥ b2 then (l, b2)
        else dpProtectLoop pivot fuel (swapL l a2 (b2 - 1)) (a2 + 1) (b2 - 1) :=
      rfl
    by_cases h : a2 ≥ b2
    · rw [hR, if_pos h]
      refine ⟨⟨?_, ?_⟩, ?_, ?_, ?_, ?_, ?_⟩
      · show pivot < b2
        omega
      · show b2 ≤ b
        exact hb2b
      · show l.length = l.length
        rfl
      · show ∀ k, k < a ∨ b ≤ k → sg l k = sg l k
        exact fun k _ => rfl
      · show ∀ k, pivot < k → k < b2 → _
        intro k h1 h2
        exact H1 k h1 (by omega)
      · show ∀ k, b2 ≤ k → k < C → _
        intro k h1 h2
        rcases Nat.lt_or_ge k b with h3 | h3
        · exact hmid k h1 h3
        · exact H2 k h3 h2
      · show BoundPres l l a b
        exact boundPres_refl l a b
    · rw [hR, if_neg h]
      have hlt : a2 < b2 := by omega
      have hva : ¬ ((sg l a2).Order < (sg l pivot).Order) :=
        hA2.2.2.2 (by omega) hlt
      have hvaeq : (sg l a2).Order = (sg l pivot).Order := by
        have := H1 a2 (by omega) (by omega)
        omega
      have hvb : (sg l (b2 - 1)).Order < (sg l pivot).Order :=
        hB2.2.2.2 (by omega) (by omega)
      have hsep : a2 < b2 - 1 := by
        rcases Nat.lt_or_ge a2 (b2 - 1) with h1 | h1
        · exact h1
        · have hx : a2 = b2 - 1 := by omega
          rw [← hx] at hvb
          omega
      have hlen2 : (swapL l a2 (b2 - 1)).length = l.length :=
        length_swapL l a2 (b2 - 1)
      have hv1 : sg (swapL l a2 (b2 - 1)) a2 = sg l (b2 - 1) :=
        sg_swapL_fst (by omega) (by omega)
      have hv2 : sg (swapL l a2 (b2 - 1)) (b2 - 1) = sg l a2 :=
        sg_swapL_snd (by omega)
      have hvp : sg (swapL l a2 (b2 - 1)) pivot = sg l pivot :=
        sg_swapL_other (by omega) (by omega)
      have IH := dpProtectLoop_spec pivot C fuel (swapL l a2 (b2 - 1))
        (a2 + 1) (b2 - 1) (by omega) (by omega) (by omega) (by omega)
        (by omega) ?H1 ?H2
      case H1 =>
        intro k h1 h2
        rw [hvp]
        rcases eq_or_ne k a2 with rfl | hka
        · rw [hv1]
          exact le_of_lt hvb
        · rw [sg_swapL_other hka (by omega)]
          exact H1 k h1 (by omega)
      case H2 =>
        intro k h1 h2
        rw [hvp]
        rcases eq_or_ne k (b2 - 1) with rfl | hkb
        · rw [hv2]
          exact hvaeq
        · rw [sg_swapL_other (by omega) hkb]
          rcases Nat.lt_or_ge k b with h3 | h3
          · exact hmid k (by omega) h3
          · exact H2 k h3 h2
      rw [hvp] at IH
      refine ⟨⟨IH.1.1, by have := IH.1.2; omega⟩,
        by rw [IH.2.1, hlen2], ?_, ?_, ?_, ?_⟩
      · intro k hk
        rw [IH.2.2.1 k (by omega), sg_swapL_other (by omega) (by omega)]
      · intro k h1 h2
        exact IH.2.2.2.1 k h1 h2
      · intro k h1 h2
        exact IH.2.2.2.2.1 k h1 h2
      · refine boundPres_trans
          (boundPres_swapL (by omega) (by omega) (by omega) (by omega)
            (by omega) (by omega))
          (boundPres_of_frame_sub (by omega) (by omega) ?_ IH.2.2.2.2.2)
        intro k hk
        exact IH.2.2.1 k hk

/-- `doPivotGo` factors through the median-of-three preparation, the first
scan, the partition loop and `dpTail`, definitionally. -/
theorem doPivotGo_eq (l l2 : List QueryStage) (lo hi m a0 : Nat)
    (hm : m = (lo + hi) / 2)
    (hl2 : l2 = medianOfThreeGo
      (if hi - lo > 40 then
        let s := (hi - lo) / 8
        let l := medianOfThreeGo l lo (lo + s) (lo + 2 * s)
        let l := medianOfThreeGo l m (m - s) (m + s)
        medianOfThreeGo l (hi - 1) (hi - 1 - s) (hi - 1 - 2 * s)
      else l) lo m (hi - 1))
    (ha0 : a0 = dpScanA l2 lo (hi - 1) (hi - 1 - (lo + 1)) (lo + 1)) :
    doPivotGo l lo hi =
      dpTail lo hi m (dpMainLoop lo (hi - 1 - a0) l2 a0 (hi - 1)).1
        (dpMainLoop lo (hi - 1 - a0) l2 a0 (hi - 1)).2.1
        (dpMainLoop lo (hi - 1 - a0) l2 a0 (hi - 1)).2.2 := by
  subst ha0
  subst hl2
  subst hm
  rfl

/-- First step of the `dups` heuristic: if `data[hi-1]` is not above the
pivot it is swapped to position `c` (and equals the pivot value there); in
both cases everything from the new `c` up to `hi` stays strictly above the
pivot. -/
theorem dpDups1_spec (lo hi : Nat) (l : List QueryStage) (c : Nat)
    (T : List QueryStage × Nat × Nat)
    (hT : T = if ¬ lessO l lo (hi - 1) then (swapL l c (hi - 1), c + 1, 1)
        else (l, c, 0))
    (hclo : lo < c) (hchi : c ≤ hi - 1) (hlen : hi ≤ l.length)
    (hlo_hi : lo + 2 < hi)
    (Hhigh : ∀ k, c ≤ k → k < hi - 1 → (sg l lo).Order < (sg l k).Order)
    (Hend : (sg l lo).Order ≤ (sg l (hi - 1)).Order) :
    c ≤ T.2.1 ∧ T.2.1 ≤ hi
    ∧ T.1.length = l.length
    ∧ (∀ k, k < c ∨ hi ≤ k → sg T.1 k = sg l k)
    ∧ (∀ k, c ≤ k → k < T.2.1 → (sg T.1 k).Order = (sg l lo).Order)
    ∧ (∀ k, T.2.1 ≤ k → k < hi → (sg l lo).Order < (sg T.1 k).Order)
    ∧ BoundPres l T.1 lo hi := by
  subst hT
  by_cases h1 : lessO l lo (hi - 1) = true
  · rw [if_neg (not_not_intro h1)]
    refine ⟨?_, ?_, ?_, ?_, ?_, ?_, ?_⟩
    · show c ≤ c
      exact le_refl c
    · show c ≤ hi
      omega
    · show l.length = l.length
      rfl
    · show ∀ k, k < c ∨ hi ≤ k → sg l k = sg l k
      exact fun k _ => rfl
    · show ∀ k, c ≤ k → k < c → _
      intro k h2 h3
      exact absurd (h2.trans_lt h3) (by omega)
    · show ∀ k, c ≤ k → k < hi → _
      intro k h2 h3
      rcases Nat.lt_or_ge k (hi - 1) with h4 | h4
      · exact Hhigh k h2 h4
      · have hk : k = hi - 1 := by omega
        rw [hk]
        exact lessO_iff.mp h1
    · show BoundPres l l lo hi
      exact boundPres_refl l lo hi
  · rw [if_pos h1]
    have hle : (sg l (hi - 1)).Order ≤ (sg l lo).Order :=
      le_of_not_lt (fun hx => h1 (lessO_iff.mpr hx))
    have heq : (sg l (hi - 1)).Order = (sg l lo).Order :=
      le_antisymm hle Hend
    refine ⟨?_, ?_, ?_, ?_, ?_, ?_, ?_⟩
    · show c ≤ c + 1
      omega
    · show c + 1 ≤ hi
      omega
    · show (swapL l c (hi - 1)).length = l.length
      exact length_swapL l c (hi - 1)
    · show ∀ k, k < c ∨ hi ≤ k → sg (swapL l c (hi - 1)) k = sg l k
      intro k hk
      exact sg_swapL_other (by omega) (by omega)
    · show ∀ k, c ≤ k → k < c + 1 → _
      intro k h2 h3
      have hk : k = c := by omega
      subst hk
      rcases eq_or_ne k (hi - 1) with hce | hce
      · rw [hce, sg_swapL_snd (by omega), ← hce]
        rw [hce]
        exact heq
      · rw [sg_swapL_fst (by omega) (Ne.symm hce)]
        exact heq
    · show ∀ k, c + 1 ≤ k → k < hi → _
      intro k h2 h3
      rcases eq_or_ne k (hi - 1) with rfl | hke
      · rw [sg_swapL_snd (by omega)]
        exact Hhigh c (le_refl c) (by omega)
      · rw [sg_swapL_other (by omega) hke]
        exact Hhigh k (by omega) (by omega)
    · show BoundPres l (swapL l c (hi - 1)) lo hi
      exact boundPres_swapL (by omega) (by omega) (by omega) (by omega)
        (by omega) (by omega)

/-- Second step of the `dups` heuristic: if `data[b-1]` is not below the
pivot, `b` steps down over it; everything in the skipped range equals the
pivot value. -/
theorem dpDups2_spec (lo : Nat) (l : List QueryStage) (b : Nat)
    (T : Nat × Nat)
    (hT : T = if ¬ lessO l (b - 1) lo then (b - 1, 1) else (b, 0))
    (hblo : lo + 1 < b)
    (Hlow : ∀ k, lo < k → k < b → (sg l k).Order ≤ (sg l lo).Order) :
    T.1 ≤ b ∧ b ≤ T.1 + 1 ∧ lo + 1 ≤ T.1
    ∧ (∀ k, T.1 ≤ k → k < b → (sg l k).Order = (sg l lo).Order) := by
  subst hT
  by_cases h2 : lessO l (b - 1) lo = true
  · rw [if_neg (not_not_intro h2)]
    refine ⟨?_, ?_, ?_, ?_⟩
    · show b ≤ b
      exact le_refl b
    · show b ≤ b + 1
      omega
    · show lo + 1 ≤ b
      omega
    · show ∀ k, b ≤ k → k < b → _
      intro k h3 h4
      exact absurd (h3.trans_lt h4) (by omega)
  · rw [if_pos h2]
    have hge : ¬ ((sg l (b - 1)).Order < (sg l lo).Order) :=
      fun hx => h2 (lessO_iff.mpr hx)
    refine ⟨?_, ?_, ?_, ?_⟩
    · show b - 1 ≤ b
      omega
    · show b ≤ b - 1 + 1
      omega
    · show lo + 1 ≤ b - 1
      omega
    · show ∀ k, b - 1 ≤ k → k < b → _
      intro k h3 h4
      have hk : k = b - 1 := by omega
      subst hk
      have := Hlow (b - 1) (by omega) (by omega)
      omega

/-- Third step of the `dups` heuristic: if `data[m]` is not below the pivot
it is swapped to `b-1` (where it equals the pivot value) and `b` steps
down. -/
theorem dpDups3_spec (lo hi m : Nat) (l : List QueryStage) (b : Nat)
    (T : List QueryStage × Nat × Nat)
    (hT : T = if ¬ lessO l m lo then (swapL l m (b - 1), b - 1, 1)
        else (l, b, 0))
    (hmlo : lo < m) (hmb : m < b) (hblo : lo + 1 < b) (hbhi : b ≤ hi)
    (hlen : hi ≤ l.length)
    (Hlow : ∀ k, lo < k → k < b → (sg l k).Order ≤ (sg l lo).Order) :
    lo + 1 ≤ T.2.1 ∧ T.2.1 ≤ b ∧ b ≤ T.2.1 + 1
    ∧ T.1.length = l.length
    ∧ (∀ k, k ≤ lo ∨ b ≤ k → sg T.1 k = sg l k)
    ∧ (∀ k, lo < k → k < T.2.1 → (sg T.1 k).Order ≤ (sg l lo).Order)
    ∧ (∀ k, T.2.1 ≤ k → k < b → (sg T.1 k).Order = (sg l lo).Order)
    ∧ BoundPres l T.1 lo hi := by
  subst hT
  by_cases h3 : lessO l m lo = true
  · rw [if_neg (not_not_intro h3)]
    refine ⟨?_, ?_, ?_, ?_, ?_, ?_, ?_, ?_⟩
    · show lo + 1 ≤ b
      omega
    · show b ≤ b
      exact le_refl b
    · show b ≤ b + 1
      omega
    · show l.length = l.length
      rfl
    · show ∀ k, k ≤ lo ∨ b ≤ k → sg l k = sg l k
      exact fun k _ => rfl
    · show ∀ k, lo < k → k < b → _
      exact Hlow
    · show ∀ k, b ≤ k → k < b → _
      intro k h4 h5
      exact absurd (h4.trans_lt h5) (by omega)
    · show BoundPres l l lo hi
      exact boundPres_refl l lo hi
  · rw [if_pos h3]
    have hge : ¬ ((sg l m).Order < (sg l lo).Order) :=
      fun hx => h3 (lessO_iff.mpr hx)
    have heq : (sg l m).Order = (sg l lo).Order := by
      have := Hlow m hmlo hmb
      omega
    refine ⟨?_, ?_, ?_, ?_, ?_, ?_, ?_, ?_⟩
    · show lo + 1 ≤ b - 1
      omega
    · show b - 1 ≤ b
      omega
    · show b ≤ b - 1 + 1
      omega
    · show (swapL l m (b - 1)).length = l.length
      exact length_swapL l m (b - 1)
    · show ∀ k, k ≤ lo ∨ b ≤ k → sg (swapL l m (b - 1)) k = sg l k
      intro k hk
      exact sg_swapL_other (by omega) (by omega)
    · show ∀ k, lo < k → k < b - 1 → _
      intro k h4 h5
      rcases eq_or_ne k m with rfl | hkm
      · rw [sg_swapL_fst (by omega) (by omega)]
        exact Hlow (b - 1) (by omega) (by omega)
      · rw [sg_swapL_other hkm (by omega)]
        exact Hlow k h4 (by omega)
    · show ∀ k, b - 1 ≤ k → k < b → _
      intro k h4 h5
      have hk : k = b - 1 := by omega
      subst hk
      rw [sg_swapL_snd (by omega)]
      exact heq
    · show BoundPres l (swapL l m (b - 1)) lo hi
      exact boundPres_swapL (by omega) (by omega) (by omega) (by omega)
        (by omega) (by omega)

/-- The final swap of `doPivot_func`: the pivot at `lo` moves to `b-1`,
producing the three-way partition around `(b-1, c)`. -/
theorem dpFinalSwap_spec (lo hi : Nat) (l5 : List QueryStage) (b5 c4 : Nat)
    (hb5 : lo < b5) (hb5c : b5 ≤ c4) (hc4 : c4 ≤ hi) (hlen : hi ≤ l5.length)
    (Hlow : ∀ k, lo < k → k < b5 → (sg l5 k).Order ≤ (sg l5 lo).Order)
    (Hmid : ∀ k, b5 ≤ k → k < c4 → (sg l5 k).Order = (sg l5 lo).Order)
    (Hhigh : ∀ k, c4 ≤ k → k < hi → (sg l5 lo).Order ≤ (sg l5 k).Order) :
    lo ≤ b5 - 1 ∧ b5 - 1 < c4 ∧ c4 ≤ hi
    ∧ (swapL l5 lo (b5 - 1)).length = l5.length
    ∧ (∀ k, k < lo ∨ hi ≤ k → sg (swapL l5 lo (b5 - 1)) k = sg l5 k)
    ∧ sg (swapL l5 lo (b5 - 1)) (b5 - 1) = sg l5 lo
    ∧ (∀ k, lo ≤ k → k < b5 - 1 →
        (sg (swapL l5 lo (b5 - 1)) k).Order ≤ (sg l5 lo).Order)
    ∧ (∀ k, b5 - 1 ≤ k → k < c4 →
        (sg (swapL l5 lo (b5 - 1)) k).Order = (sg l5 lo).Order)
    ∧ (∀ k, c4 ≤ k → k < hi →
        (sg l5 lo).Order ≤ (sg (swapL l5 lo (b5 - 1)) k).Order)
    ∧ BoundPres l5 (swapL l5 lo (b5 - 1)) lo hi := by
  have hswap_at : sg (swapL l5 lo (b5 - 1)) (b5 - 1) = sg l5 lo :=
    sg_swapL_snd (by omega)
  refine ⟨by omega, by omega, hc4, length_swapL l5 lo (b5 - 1), ?_,
    hswap_at, ?_, ?_, ?_, ?_⟩
  · intro k hk
    exact sg_swapL_other (by omega) (by omega)
  · intro k h1 h2
    rcases eq_or_ne k lo with rfl | hklo
    · rw [sg_swapL_fst (by omega) (by omega)]
      exact Hlow (b5 - 1) (by omega) (by omega)
    · rw [sg_swapL_other hklo (by omega)]
      exact Hlow k (by omega) (by omega)
  · intro k h1 h2
    rcases eq_or_ne k (b5 - 1) with rfl | hkb
    · rw [hswap_at]
    · rw [sg_swapL_other (by omega) hkb]
      exact Hmid k (by omega) h2
  · intro k h1 h2
    rw [sg_swapL_other (by omega) (by omega)]
    exact Hhigh k h1 h2
  · exact boundPres_swapL (by omega) (by omega) (by omega) (by omega)
      (by omega) (by omega)

/-- `dpFinish` (optional `protect` pass + final pivot swap) turns the
low/mid/high state after the `dups` step into the final three-way
partition returned by `doPivot_func`. -/
theorem dpFinish_spec (lo hi : Nat) (l4 : List QueryStage) (b4 c4 : Nat)
    (pr4 : Bool)
    (hblo : lo + 1 ≤ b4) (hbc : b4 ≤ c4) (hc4 : c4 ≤ hi)
    (hlen : hi ≤ l4.length)
    (Hlow : ∀ k, lo < k → k < b4 → (sg l4 k).Order ≤ (sg l4 lo).Order)
    (Hmid : ∀ k, b4 ≤ k → k < c4 → (sg l4 k).Order = (sg l4 lo).Order)
    (Hhigh : ∀ k, c4 ≤ k → k < hi → (sg l4 lo).Order ≤ (sg l4 k).Order) :
    lo ≤ (dpFinish lo hi l4 b4 c4 pr4).2.1
    ∧ (dpFinish lo hi l4 b4 c4 pr4).2.1 < (dpFinish lo hi l4 b4 c4 pr4).2.2
    ∧ (dpFinish lo hi l4 b4 c4 pr4).2.2 ≤ hi
    ∧ (dpFinish lo hi l4 b4 c4 pr4).1.length = l4.length
    ∧ (∀ k, k < lo ∨ hi ≤ k →
        sg (dpFinish lo hi l4 b4 c4 pr4).1 k = sg l4 k)
    ∧ sg (dpFinish lo hi l4 b4 c4 pr4).1 (dpFinish lo hi l4 b4 c4 pr4).2.1
        = sg l4 lo
    ∧ (∀ k, lo ≤ k → k < (dpFinish lo hi l4 b4 c4 pr4).2.1 →
        (sg (dpFinish lo hi l4 b4 c4 pr4).1 k).Order ≤ (sg l4 lo).Order)
    ∧ (∀ k, (dpFinish lo hi l4 b4 c4 pr4).2.1 ≤ k →
        k < (dpFinish lo hi l4 b4 c4 pr4).2.2 →
        (sg (dpFinish lo hi l4 b4 c4 pr4).1 k).Order = (sg l4 lo).Order)
    ∧ (∀ k, (dpFinish lo hi l4 b4 c4 pr4).2.2 ≤ k → k < hi →
        (sg l4 lo).Order ≤ (sg (dpFinish lo hi l4 b4 c4 pr4).1 k).Order)
    ∧ BoundPres l4 (dpFinish lo hi l4 b4 c4 pr4).1 lo hi := by
  by_cases hp : pr4 = true
  · have hPL := dpProtectLoop_spec lo c4 (b4 - (lo + 1)) l4 (lo + 1) b4
      (by omega) hblo (by omega) hbc (by omega) Hlow Hmid
    set P := dpProtectLoop lo (b4 - (lo + 1)) l4 (lo + 1) b4 with hPd
    have hR0 : dpFinish lo hi l4 b4 c4 pr4 =
        (swapL (if pr4 then P else (l4, b4)).1 lo
          ((if pr4 then P else (l4, b4)).2 - 1),
         (if pr4 then P else (l4, b4)).2 - 1, c4) := rfl
    rw [if_pos hp] at hR0
    have hplo : sg P.1 lo = sg l4 lo := hPL.2.2.1 lo (Or.inl (by omega))
    have hFS := dpFinalSwap_spec lo hi P.1 P.2 c4 hPL.1.1
      (le_trans hPL.1.2 hbc) hc4 (by rw [hPL.2.1]; exact hlen) ?Hl ?Hm ?Hh
    case Hl =>
      intro k h1 h2
      rw [hplo]
      exact hPL.2.2.2.1 k h1 h2
    case Hm =>
      intro k h1 h2
      rw [hplo]
      exact hPL.2.2.2.2.1 k h1 h2
    case Hh =>
      intro k h1 h2
      rw [hplo, hPL.2.2.1 k (Or.inr (by omega))]
      exact Hhigh k h1 h2
    rw [hplo] at hFS
    rw [hR0]
    refine ⟨hFS.1, hFS.2.1, hc4, ?_, ?_, hFS.2.2.2.2.2.1, hFS.2.2.2.2.2.2.1,
      hFS.2.2.2.2.2.2.2.1, hFS.2.2.2.2.2.2.2.2.1, ?_⟩
    · show (swapL P.1 lo (P.2 - 1)).length = l4.length
      rw [hFS.2.2.2.1, hPL.2.1]
    · show ∀ k, k < lo ∨ hi ≤ k → sg (swapL P.1 lo (P.2 - 1)) k = sg l4 k
      intro k hk
      rw [hFS.2.2.2.2.1 k hk, hPL.2.2.1 k (by omega)]
    · show BoundPres l4 (swapL P.1 lo (P.2 - 1)) lo hi
      refine boundPres_trans
        (boundPres_of_frame_sub (by omega) (by omega) ?_
          hPL.2.2.2.2.2)
        hFS.2.2.2.2.2.2.2.2.2
      intro k hk
      exact hPL.2.2.1 k hk
  · have hR0 : dpFinish lo hi l4 b4 c4 pr4 =
        (swapL (if pr4 then dpProtectLoop lo (b4 - (lo + 1)) l4 (lo + 1) b4
            else (l4, b4)).1 lo
          ((if pr4 then dpProtectLoop lo (b4 - (lo + 1)) l4 (lo + 1) b4
            else (l4, b4)).2 - 1),
         (if pr4 then dpProtectLoop lo (b4 - (lo + 1)) l4 (lo + 1) b4
            else (l4, b4)).2 - 1, c4) := rfl
    rw [if_neg hp] at hR0
    have hFS := dpFinalSwap_spec lo hi l4 b4 c4 (by omega) hbc hc4 hlen
      Hlow Hmid Hhigh
    rw [hR0]
    exact ⟨hFS.1, hFS.2.1, hc4, hFS.2.2.2.1, hFS.2.2.2.2.1,
      hFS.2.2.2.2.2.1, hFS.2.2.2.2.2.2.1, hFS.2.2.2.2.2.2.2.1,
      hFS.2.2.2.2.2.2.2.2.1, hFS.2.2.2.2.2.2.2.2.2⟩

/-- `dpTail` (the `dups` heuristic, optional `protect` pass and final swap)
turns the partition-loop postcondition into the three-way partition of
`doPivot_func`. -/
theorem dpTail_spec (lo hi m : Nat) (l3 : List QueryStage) (b c : Nat)
    (hm : m = (lo + hi) / 2) (hrange : lo + 12 < hi) (hlen : hi ≤ l3.length)
    (hbc : b = c) (hblo : lo + 1 ≤ b) (hchi : c ≤ hi - 1)
    (Hlow : ∀ k, lo < k → k < b → (sg l3 k).Order ≤ (sg l3 lo).Order)
    (Hhigh : ∀ k, c ≤ k → k < hi - 1 → (sg l3 lo).Order < (sg l3 k).Order)
    (Hend : (sg l3 lo).Order ≤ (sg l3 (hi - 1)).Order) :
    lo ≤ (dpTail lo hi m l3 b c).2.1
    ∧ (dpTail lo hi m l3 b c).2.1 < (dpTail lo hi m l3 b c).2.2
    ∧ (dpTail lo hi m l3 b c).2.2 ≤ hi
    ∧ (dpTail lo hi m l3 b c).1.length = l3.length
    ∧ (∀ k, k < lo ∨ hi ≤ k → sg (dpTail lo hi m l3 b c).1 k = sg l3 k)
    ∧ sg (dpTail lo hi m l3 b c).1 (dpTail lo hi m l3 b c).2.1 = sg l3 lo
    ∧ (∀ k, lo ≤ k → k < (dpTail lo hi m l3 b c).2.1 →
        (sg (dpTail lo hi m l3 b c).1 k).Order ≤ (sg l3 lo).Order)
    ∧ (∀ k, (dpTail lo hi m l3 b c).2.1 ≤ k →
        k < (dpTail lo hi m l3 b c).2.2 →
        (sg (dpTail lo hi m l3 b c).1 k).Order = (sg l3 lo).Order)
    ∧ (∀ k, (dpTail lo hi m l3 b c).2.2 ≤ k → k < hi →
        (sg l3 lo).Order ≤ (sg (dpTail lo hi m l3 b c).1 k).Order)
    ∧ BoundPres l3 (dpTail lo hi m l3 b c).1 lo hi := by
  by_cases hd : (!decide (hi - c < 5) && decide (hi - c < (hi - lo) / 4))
      = true
  · have hd1 : ¬ (hi - c < 5) := by
      have := (Bool.and_eq_true_iff.mp hd).1
      simp at this
      omega
    have hd2 : hi - c < (hi - lo) / 4 :=
      of_decide_eq_true (Bool.and_eq_true_iff.mp hd).2
    set D1 := (if ¬ lessO l3 lo (hi - 1) then (swapL l3 c (hi - 1), c + 1, 1)
        else (l3, c, 0)) with hD1
    have h1 := dpDups1_spec lo hi l3 c D1 hD1 (by omega) hchi hlen (by omega)
      Hhigh Hend
    have hD1lo : sg D1.1 lo = sg l3 lo := h1.2.2.2.1 lo (Or.inl (by omega))
    have Hlow_D1 : ∀ k, lo < k → k < b →
        (sg D1.1 k).Order ≤ (sg D1.1 lo).Order := by
      intro k hk1 hk2
      rw [hD1lo, h1.2.2.2.1 k (Or.inl (by omega))]
      exact Hlow k hk1 hk2
    set D2 := (if ¬ lessO D1.1 (b - 1) lo then (b - 1, 1) else (b, 0))
      with hD2
    have h2 := dpDups2_spec lo D1.1 b D2 hD2 (by omega) Hlow_D1
    set D3 := (if ¬ lessO D1.1 m lo then
        (swapL D1.1 m (D2.1 - 1), D2.1 - 1, 1) else (D1.1, D2.1, 0)) with hD3
    have h3 := dpDups3_spec lo hi m D1.1 D2.1 D3 hD3 (by omega) (by omega)
      (by omega) (by omega) (by rw [h1.2.2.1]; exact hlen)
      (fun k hk1 hk2 => Hlow_D1 k hk1 (by omega))
    have hD3lo : sg D3.1 lo = sg l3 lo := by
      rw [h3.2.2.2.2.1 lo (Or.inl (le_refl lo)), hD1lo]
    have hT0 : dpTail lo hi m l3 b c =
        dpFinish lo hi
          (if (!decide (hi - c < 5) && decide (hi - c < (hi - lo) / 4))
              = true
           then (D3.1, D3.2.1, D1.2.1,
             decide (D1.2.2 + D2.2 + D3.2.2 > 1))
           else (l3, b, c, decide (hi - c < 5))).1
          (if (!decide (hi - c < 5) && decide (hi - c < (hi - lo) / 4))
              = true
           then (D3.1, D3.2.1, D1.2.1,
             decide (D1.2.2 + D2.2 + D3.2.2 > 1))
           else (l3, b, c, decide (hi - c < 5))).2.1
          (if (!decide (hi - c < 5) && decide (hi - c < (hi - lo) / 4))
              = true
           then (D3.1, D3.2.1, D1.2.1,
             decide (D1.2.2 + D2.2 + D3.2.2 > 1))
           else (l3, b, c, decide (hi - c < 5))).2.2.1
          (if (!decide (hi - c < 5) && decide (hi - c < (hi - lo) / 4))
              = true
           then (D3.1, D3.2.1, D1.2.1,
             decide (D1.2.2 + D2.2 + D3.2.2 > 1))
           else (l3, b, c, decide (hi - c < 5))).2.2.2 := rfl
    rw [if_pos hd] at hT0
    have hF := dpFinish_spec lo hi D3.1 D3.2.1 D1.2.1
      (decide (D1.2.2 + D2.2 + D3.2.2 > 1)) h3.1 (by omega)
      h1.2.1 (by rw [h3.2.2.2.1, h1.2.2.1]; exact hlen) ?Hl ?Hm ?Hh
    case Hl =>
      intro k hk1 hk2
      rw [hD3lo]
      have := h3.2.2.2.2.2.1 k hk1 hk2
      rw [hD1lo] at this
      exact this
    case Hm =>
      intro k hk1 hk2
      rw [hD3lo]
      rcases Nat.lt_or_ge k D2.1 with hk3 | hk3
      · have := h3.2.2.2.2.2.2.1 k hk1 hk3
        rw [hD1lo] at this
        exact this
      · rw [h3.2.2.2.2.1 k (Or.inr hk3)]
        rcases Nat.lt_or_ge k b with hk4 | hk4
        · have := h2.2.2.2 k hk3 hk4
          rw [hD1lo] at this
          exact this
        · exact h1.2.2.2.2.1 k (by omega) hk2
    case Hh =>
      intro k hk1 hk2
      rw [hD3lo, h3.2.2.2.2.1 k (Or.inr (by omega))]
      exact le_of_lt (h1.2.2.2.2.2.1 k hk1 hk2)
    rw [hD3lo] at hF
    rw [hT0]
    refine ⟨hF.1, hF.2.1, hF.2.2.1, ?_, ?_, ?_, hF.2.2.2.2.2.2.1,
      hF.2.2.2.2.2.2.2.1, hF.2.2.2.2.2.2.2.2.1, ?_⟩
    · rw [hF.2.2.2.1, h3.2.2.2.1, h1.2.2.1]
    · intro k hk
      rw [hF.2.2.2.2.1 k hk, h3.2.2.2.2.1 k (by omega),
        h1.2.2.2.1 k (by omega)]
    · exact hF.2.2.2.2.2.1
    · exact boundPres_trans h1.2.2.2.2.2.2
        (boundPres_trans h3.2.2.2.2.2.2.2 hF.2.2.2.2.2.2.2.2.2)
  · have hT0 : dpTail lo hi m l3 b c =
        dpFinish lo hi
          (if (!decide (hi - c < 5) && decide (hi - c < (hi - lo) / 4))
              = true
           then
             (fun q : List QueryStage × Nat × Nat =>
               (fun p : Nat × Nat =>
                 (fun r : List QueryStage × Nat × Nat =>
                   (r.1, r.2.1, q.2.1, decide (q.2.2 + p.2 + r.2.2 > 1)))
                 (if ¬ lessO q.1 m lo then
                   (swapL q.1 m (p.1 - 1), p.1 - 1, 1) else (q.1, p.1, 0)))
               (if ¬ lessO q.1 (b - 1) lo then (b - 1, 1) else (b, 0)))
             (if ¬ lessO l3 lo (hi - 1) then
               (swapL l3 c (hi - 1), c + 1, 1) else (l3, c, 0))
           else (l3, b, c, decide (hi - c < 5))).1
          (if (!decide (hi - c < 5) && decide (hi - c < (hi - lo) / 4))
              = true
           then
             (fun q : List QueryStage × Nat × Nat =>
               (fun p : Nat × Nat =>
                 (fun r : List QueryStage × Nat × Nat =>
                   (r.1, r.2.1, q.2.1, decide (q.2.2 + p.2 + r.2.2 > 1)))
                 (if ¬ lessO q.1 m lo then
                   (swapL q.1 m (p.1 - 1), p.1 - 1, 1) else (q.1, p.1, 0)))
               (if ¬ lessO q.1 (b - 1) lo then (b - 1, 1) else (b, 0)))
             (if ¬ lessO l3 lo (hi - 1) then
               (swapL l3 c (hi - 1), c + 1, 1) else (l3, c, 0))
           else (l3, b, c, decide (hi - c < 5))).2.1
          (if (!decide (hi - c < 5) && decide (hi - c < (hi - lo) / 4))
              = true
           then
             (fun q : List QueryStage × Nat × Nat =>
               (fun p : Nat × Nat =>
                 (fun r : List QueryStage × Nat × Nat =>
                   (r.1, r.2.1, q.2.1, decide (q.2.2 + p.2 + r.2.2 > 1)))
                 (if ¬ lessO q.1 m lo then
                   (swapL q.1 m (p.1 - 1), p.1 - 1, 1) else (q.1, p.1, 0)))
               (if ¬ lessO q.1 (b - 1) lo then (b - 1, 1) else (b, 0)))
             (if ¬ lessO l3 lo (hi - 1) then
               (swapL l3 c (hi - 1), c + 1, 1) else (l3, c, 0))
           else (l3, b, c, decide (hi - c < 5))).2.2.1
          (if (!decide (hi - c < 5) && decide (hi - c < (hi - lo) / 4))
              = true
           then
             (fun q : List QueryStage × Nat × Nat =>
               (fun p : Nat × Nat =>
                 (fun r : List QueryStage × Nat × Nat =>
                   (r.1, r.2.1, q.2.1, decide (q.2.2 + p.2 + r.2.2 > 1)))
                 (if ¬ lessO q.1 m lo then
                   (swapL q.1 m (p.1 - 1), p.1 - 1, 1) else (q.1, p.1, 0)))
               (if ¬ lessO q.1 (b - 1) lo then (b - 1, 1) else (b, 0)))
             (if ¬ lessO l3 lo (hi - 1) then
               (swapL l3 c (hi - 1), c + 1, 1) else (l3, c, 0))
           else (l3, b, c, decide (hi - c < 5))).2.2.2 := rfl
    rw [if_neg hd] at hT0
    have hF := dpFinish_spec lo hi l3 b c (decide (hi - c < 5)) hblo
      (by omega) (by omega) hlen Hlow ?Hm ?Hh
    case Hm =>
      intro k hk1 hk2
      exact absurd (hk1.trans_lt hk2) (by omega)
    case Hh =>
      intro k hk1 hk2
      rcases Nat.lt_or_ge k (hi - 1) with hk3 | hk3
      · exact le_of_lt (Hhigh k hk1 hk3)
      · have hk : k = hi - 1 := by omega
        rw [hk]
        exact Hend
    rw [hT0]
    exact ⟨hF.1, hF.2.1, hF.2.2.1, hF.2.2.2.1, hF.2.2.2.2.1,
      hF.2.2.2.2.2.1, hF.2.2.2.2.2.2.1, hF.2.2.2.2.2.2.2.1,
      hF.2.2.2.2.2.2.2.2.1, hF.2.2.2.2.2.2.2.2.2⟩

/-- The core of `doPivot_func` after the (optional) ninther preparation:
final median-of-three, the first scan, the partition loop and `dpTail`
produce a three-way partition of `[lo, hi)`. -/
theorem doPivotCore_spec (l1 : List QueryStage) (lo hi m a0 : Nat)
    (l2 : List QueryStage)
    (hm : m = (lo + hi) / 2)
    (hl2 : l2 = medianOfThreeGo l1 lo m (hi - 1))
    (ha0 : a0 = dpScanA l2 lo (hi - 1) (hi - 1 - (lo + 1)) (lo + 1))
    (hrange : lo + 12 < hi) (hhl : hi ≤ l1.length) :
    lo ≤ (dpTail lo hi m (dpMainLoop lo (hi - 1 - a0) l2 a0 (hi - 1)).1
        (dpMainLoop lo (hi - 1 - a0) l2 a0 (hi - 1)).2.1
        (dpMainLoop lo (hi - 1 - a0) l2 a0 (hi - 1)).2.2).2.1
    ∧ (dpTail lo hi m (dpMainLoop lo (hi - 1 - a0) l2 a0 (hi - 1)).1
        (dpMainLoop lo (hi - 1 - a0) l2 a0 (hi - 1)).2.1
        (dpMainLoop lo (hi - 1 - a0) l2 a0 (hi - 1)).2.2).2.1
      < (dpTail lo hi m (dpMainLoop lo (hi - 1 - a0) l2 a0 (hi - 1)).1
        (dpMainLoop lo (hi - 1 - a0) l2 a0 (hi - 1)).2.1
        (dpMainLoop lo (hi - 1 - a0) l2 a0 (hi - 1)).2.2).2.2
    ∧ (dpTail lo hi m (dpMainLoop lo (hi - 1 - a0) l2 a0 (hi - 1)).1
        (dpMainLoop lo (hi - 1 - a0) l2 a0 (hi - 1)).2.1
        (dpMainLoop lo (hi - 1 - a0) l2 a0 (hi - 1)).2.2).2.2 ≤ hi
    ∧ (dpTail lo hi m (dpMainLoop lo (hi - 1 - a0) l2 a0 (hi - 1)).1
        (dpMainLoop lo (hi - 1 - a0) l2 a0 (hi - 1)).2.1
        (dpMainLoop lo (hi - 1 - a0) l2 a0 (hi - 1)).2.2).1.length
      = l1.length
    ∧ (∀ k, k < lo ∨ hi ≤ k →
        sg (dpTail lo hi m (dpMainLoop lo (hi - 1 - a0) l2 a0 (hi - 1)).1
          (dpMainLoop lo (hi - 1 - a0) l2 a0 (hi - 1)).2.1
          (dpMainLoop lo (hi - 1 - a0) l2 a0 (hi - 1)).2.2).1 k = sg l1 k)
    ∧ (∀ k, lo ≤ k →
        k < (dpTail lo hi m (dpMainLoop lo (hi - 1 - a0) l2 a0 (hi - 1)).1
          (dpMainLoop lo (hi - 1 - a0) l2 a0 (hi - 1)).2.1
          (dpMainLoop lo (hi - 1 - a0) l2 a0 (hi - 1)).2.2).2.1 →
        (sg (dpTail lo hi m (dpMainLoop lo (hi - 1 - a0) l2 a0 (hi - 1)).1
          (dpMainLoop lo (hi - 1 - a0) l2 a0 (hi - 1)).2.1
          (dpMainLoop lo (hi - 1 - a0) l2 a0 (hi - 1)).2.2).1 k).Order
        ≤ (sg (dpTail lo hi m
            (dpMainLoop lo (hi - 1 - a0) l2 a0 (hi - 1)).1
            (dpMainLoop lo (hi - 1 - a0) l2 a0 (hi - 1)).2.1
            (dpMainLoop lo (hi - 1 - a0) l2 a0 (hi - 1)).2.2).1
          (dpTail lo hi m (dpMainLoop lo (hi - 1 - a0) l2 a0 (hi - 1)).1
            (dpMainLoop lo (hi - 1 - a0) l2 a0 (hi - 1)).2.1
            (dpMainLoop lo (hi - 1 - a0) l2 a0 (hi - 1)).2.2).2.1).Order)
    ∧ (∀ k, (dpTail lo hi m (dpMainLoop lo (hi - 1 - a0) l2 a0 (hi - 1)).1
          (dpMainLoop lo (hi - 1 - a0) l2 a0 (hi - 1)).2.1
          (dpMainLoop lo (hi - 1 - a0) l2 a0 (hi - 1)).2.2).2.1 ≤ k →
        k < (dpTail lo hi m (dpMainLoop lo (hi - 1 - a0) l2 a0 (hi - 1)).1
          (dpMainLoop lo (hi - 1 - a0) l2 a0 (hi - 1)).2.1
          (dpMainLoop lo (hi - 1 - a0) l2 a0 (hi - 1)).2.2).2.2 →
        (sg (dpTail lo hi m (dpMainLoop lo (hi - 1 - a0) l2 a0 (hi - 1)).1
          (dpMainLoop lo (hi - 1 - a0) l2 a0 (hi - 1)).2.1
          (dpMainLoop lo (hi - 1 - a0) l2 a0 (hi - 1)).2.2).1 k).Order
        = (sg (dpTail lo hi m
            (dpMainLoop lo (hi - 1 - a0) l2 a0 (hi - 1)).1
            (dpMainLoop lo (hi - 1 - a0) l2 a0 (hi - 1)).2.1
            (dpMainLoop lo (hi - 1 - a0) l2 a0 (hi - 1)).2.2).1
          (dpTail lo hi m (dpMainLoop lo (hi - 1 - a0) l2 a0 (hi - 1)).1
            (dpMainLoop lo (hi - 1 - a0) l2 a0 (hi - 1)).2.1
            (dpMainLoop lo (hi - 1 - a0) l2 a0 (hi - 1)).2.2).2.1).Order)
    ∧ (∀ k, (dpTail lo hi m (dpMainLoop lo (hi - 1 - a0) l2 a0 (hi - 1)).1
          (dpMainLoop lo (hi - 1 - a0) l2 a0 (hi - 1)).2.1
          (dpMainLoop lo (hi - 1 - a0) l2 a0 (hi - 1)).2.2).2.2 ≤ k →
        k < hi →
        (sg (dpTail lo hi m
            (dpMainLoop lo (hi - 1 - a0) l2 a0 (hi - 1)).1
            (dpMainLoop lo (hi - 1 - a0) l2 a0 (hi - 1)).2.1
            (dpMainLoop lo (hi - 1 - a0) l2 a0 (hi - 1)).2.2).1
          (dpTail lo hi m (dpMainLoop lo (hi - 1 - a0) l2 a0 (hi - 1)).1
            (dpMainLoop lo (hi - 1 - a0) l2 a0 (hi - 1)).2.1
            (dpMainLoop lo (hi - 1 - a0) l2 a0 (hi - 1)).2.2).2.1).Order
        ≤ (sg (dpTail lo hi m (dpMainLoop lo (hi - 1 - a0) l2 a0 (hi - 1)).1
          (dpMainLoop lo (hi - 1 - a0) l2 a0 (hi - 1)).2.1
          (dpMainLoop lo (hi - 1 - a0) l2 a0 (hi - 1)).2.2).1 k).Order)
    ∧ BoundPres l1 (dpTail lo hi m
        (dpMainLoop lo (hi - 1 - a0) l2 a0 (hi - 1)).1
        (dpMainLoop lo (hi - 1 - a0) l2 a0 (hi - 1)).2.1
        (dpMainLoop lo (hi - 1 - a0) l2 a0 (hi - 1)).2.2).1 lo hi := by
  have hMed0 := medianOfThreeGo_spec l1 lo m (hi - 1) (by omega) (by omega)
    (by omega) (by omega) (by omega) (by omega)
  rw [← hl2] at hMed0
  have hlen2 : l2.length = l1.length := hMed0.2.2.1
  have hA0 := dpScanA_spec l2 lo (hi - 1) (hi - 1 - (lo + 1)) (lo + 1)
  rw [← ha0] at hA0
  have ha0lo : lo + 1 ≤ a0 := hA0.1
  have ha0hi : a0 ≤ hi - 1 := hA0.2.1 (by omega)
  have hMain := dpMainLoop_spec lo (hi - 1 - a0) l2 a0 (hi - 1) (by omega)
    ha0hi (by omega) (by omega)
  set M := dpMainLoop lo (hi - 1 - a0) l2 a0 (hi - 1) with hMd
  have hMlo : sg M.1 lo = sg l2 lo := hMain.2.2.2.2.1 lo (Or.inl (by omega))
  have hT := dpTail_spec lo hi m M.1 M.2.1 M.2.2 hm hrange
    (by rw [hMain.2.2.2.1, hlen2]; exact hhl) hMain.1
    (by have := hMain.2.1; omega) hMain.2.2.1 ?Hl ?Hh ?He
  case Hl =>
    intro k hk1 hk2
    rw [hMlo]
    rcases Nat.lt_or_ge k a0 with hk3 | hk3
    · rw [hMain.2.2.2.2.1 k (Or.inl hk3)]
      exact le_of_lt (hA0.2.2.1 k (by omega) hk3)
    · exact hMain.2.2.2.2.2.1 k hk3 hk2
  case Hh =>
    intro k hk1 hk2
    rw [hMlo]
    exact hMain.2.2.2.2.2.2.1 k hk1 hk2
  case He =>
    rw [hMlo, hMain.2.2.2.2.1 (hi - 1) (Or.inr (le_refl (hi - 1)))]
    exact hMed0.2.1
  have hTlo : sg (dpTail lo hi m M.1 M.2.1 M.2.2).1
      (dpTail lo hi m M.1 M.2.1 M.2.2).2.1 = sg M.1 lo := hT.2.2.2.2.2.1
  refine ⟨hT.1, hT.2.1, hT.2.2.1, ?_, ?_, ?_, ?_, ?_, ?_⟩
  · rw [hT.2.2.2.1, hMain.2.2.2.1, hlen2]
  · intro k hk
    rw [hT.2.2.2.2.1 k hk, hMain.2.2.2.2.1 k (by omega),
      hMed0.2.2.2.1 k (by omega) (by omega) (by omega)]
  · intro k hk1 hk2
    rw [hTlo]
    exact hT.2.2.2.2.2.2.1 k hk1 hk2
  · intro k hk1 hk2
    rw [hTlo]
    exact hT.2.2.2.2.2.2.2.1 k hk1 hk2
  · intro k hk1 hk2
    rw [hTlo]
    exact hT.2.2.2.2.2.2.2.2.1 k hk1 hk2
  · refine boundPres_trans (hMed0.2.2.2.2 lo hi (by omega) (by omega)
      (by omega) (by omega) (by omega) (by omega)) ?_
    refine boundPres_trans (boundPres_of_frame_sub (by omega) (by omega) ?_
      hMain.2.2.2.2.2.2.2) hT.2.2.2.2.2.2.2.2.2
    intro k hk
    exact hMain.2.2.2.2.1 k (by omega)

/-- `doPivot_func(data, lo, hi)` (called only for ranges longer than 12):
it permutes only `[lo, hi)` and returns `midlo < midhi` such that the range
splits into a `≤ pivot` prefix, a `= pivot` middle and a `≥ pivot`
suffix. -/
theorem doPivotGo_spec (l : List QueryStage) (lo hi : Nat)
    (hrange : lo + 12 < hi) (hhl : hi ≤ l.length) :
    lo ≤ (doPivotGo l lo hi).2.1
    ∧ (doPivotGo l lo hi).2.1 < (doPivotGo l lo hi).2.2
    ∧ (doPivotGo l lo hi).2.2 ≤ hi
    ∧ (doPivotGo l lo hi).1.length = l.length
    ∧ (∀ k, k < lo ∨ hi ≤ k → sg (doPivotGo l lo hi).1 k = sg l k)
    ∧ (∀ k, lo ≤ k → k < (doPivotGo l lo hi).2.1 →
        (sg (doPivotGo l lo hi).1 k).Order
          ≤ (sg (doPivotGo l lo hi).1 (doPivotGo l lo hi).2.1).Order)
    ∧ (∀ k, (doPivotGo l lo hi).2.1 ≤ k → k < (doPivotGo l lo hi).2.2 →
        (sg (doPivotGo l lo hi).1 k).Order
          = (sg (doPivotGo l lo hi).1 (doPivotGo l lo hi).2.1).Order)
    ∧ (∀ k, (doPivotGo l lo hi).2.2 ≤ k → k < hi →
        (sg (doPivotGo l lo hi).1 (doPivotGo l lo hi).2.1).Order
          ≤ (sg (doPivotGo l lo hi).1 k).Order)
    ∧ BoundPres l (doPivotGo l lo hi).1 lo hi := by
  set Mv := (lo + hi) / 2 with hMv
  set LIF := (if hi - lo > 40 then
      let s := (hi - lo) / 8
      let l2 := medianOfThreeGo l lo (lo + s) (lo + 2 * s)
      let l3 := medianOfThreeGo l2 Mv (Mv - s) (Mv + s)
      medianOfThreeGo l3 (hi - 1) (hi - 1 - s) (hi - 1 - 2 * s)
    else l) with hLIF
  have hIF : LIF.length = l.length
      ∧ (∀ k, k < lo ∨ hi ≤ k → sg LIF k = sg l k)
      ∧ BoundPres l LIF lo hi := by
    rw [hLIF]
    by_cases h40 : hi - lo > 40
    · rw [if_pos h40]
      have hM1 := medianOfThreeGo_spec l lo (lo + (hi - lo) / 8)
        (lo + 2 * ((hi - lo) / 8)) (by omega) (by omega) (by omega)
        (by omega) (by omega) (by omega)
      set T1 := medianOfThreeGo l lo (lo + (hi - lo) / 8)
        (lo + 2 * ((hi - lo) / 8)) with hT1
      have hM2 := medianOfThreeGo_spec T1 Mv (Mv - (hi - lo) / 8)
        (Mv + (hi - lo) / 8) (by omega) (by omega) (by omega)
        (by rw [hM1.2.2.1]; omega) (by rw [hM1.2.2.1]; omega)
        (by rw [hM1.2.2.1]; omega)
      set T2 := medianOfThreeGo T1 Mv (Mv - (hi - lo) / 8)
        (Mv + (hi - lo) / 8) with hT2
      have hM3 := medianOfThreeGo_spec T2 (hi - 1) (hi - 1 - (hi - lo) / 8)
        (hi - 1 - 2 * ((hi - lo) / 8)) (by omega) (by omega) (by omega)
        (by rw [hM2.2.2.1, hM1.2.2.1]; omega)
        (by rw [hM2.2.2.1, hM1.2.2.1]; omega)
        (by rw [hM2.2.2.1, hM1.2.2.1]; omega)
      refine ⟨?_, ?_, ?_⟩
      · rw [hM3.2.2.1, hM2.2.2.1, hM1.2.2.1]
      · intro k hk
        rw [hM3.2.2.2.1 k (by omega) (by omega) (by omega),
          hM2.2.2.2.1 k (by omega) (by omega) (by omega),
          hM1.2.2.2.1 k (by omega) (by omega) (by omega)]
      · exact boundPres_trans
          (hM1.2.2.2.2 lo hi (by omega) (by omega) (by omega) (by omega)
            (by omega) (by omega))
          (boundPres_trans
            (hM2.2.2.2.2 lo hi (by omega) (by omega) (by omega) (by omega)
              (by omega) (by omega))
            (hM3.2.2.2.2 lo hi (by omega) (by omega) (by omega) (by omega)
              (by omega) (by omega)))
    · rw [if_neg h40]
      exact ⟨rfl, fun k _ => rfl, boundPres_refl l lo hi⟩
  have hEq := doPivotGo_eq l (medianOfThreeGo LIF lo Mv (hi - 1)) lo hi Mv
    (dpScanA (medianOfThreeGo LIF lo Mv (hi - 1)) lo (hi - 1)
      (hi - 1 - (lo + 1)) (lo + 1)) hMv (by rw [hLIF]) rfl
  have hCore := doPivotCore_spec LIF lo hi Mv
    (dpScanA (medianOfThreeGo LIF lo Mv (hi - 1)) lo (hi - 1)
      (hi - 1 - (lo + 1)) (lo + 1))
    (medianOfThreeGo LIF lo Mv (hi - 1)) hMv rfl rfl hrange
    (by rw [hIF.1]; exact hhl)
  rw [hEq]
  refine ⟨hCore.1, hCore.2.1, hCore.2.2.1, ?_, ?_, hCore.2.2.2.2.2.1,
    hCore.2.2.2.2.2.2.1, hCore.2.2.2.2.2.2.2.1, ?_⟩
  · rw [hCore.2.2.2.1, hIF.1]
  · intro k hk
    rw [hCore.2.2.2.2.1 k hk, hIF.2.1 k hk]
  · exact boundPres_trans hIF.2.2 hCore.2.2.2.2.2.2.2.2

/-- Gluing a three-way partition whose outer parts are sorted into a sorted
range. -/
theorem sortedRange_of_partition (r : List QueryStage)
    (a mlo mhi b : Nat) (h1 : a ≤ mlo) (h2 : mlo < mhi) (h3 : mhi ≤ b)
    (hs1 : SortedRange r a mlo) (hs2 : SortedRange r mhi b)
    (hlowle : ∀ k, a ≤ k → k < mlo → (sg r k).Order ≤ (sg r mlo).Order)
    (hmid : ∀ k, mlo ≤ k → k < mhi → (sg r k).Order = (sg r mlo).Order)
    (hhigh : ∀ k, mhi ≤ k → k < b → (sg r mlo).Order ≤ (sg r k).Order) :
    SortedRange r a b := by
  intro p q hap hpq hqb
  rcases Nat.lt_or_ge p mlo with hp1 | hp1
  · rcases Nat.lt_or_ge q mlo with hq1 | hq1
    · exact hs1 p q hap hpq hq1
    · rcases Nat.lt_or_ge q mhi with hq2 | hq2
      · rw [hmid q hq1 hq2]
        exact hlowle p hap hp1
      · exact le_trans (hlowle p hap hp1) (hhigh q hq2 hqb)
  · rcases Nat.lt_or_ge p mhi with hp2 | hp2
    · rcases Nat.lt_or_ge q mhi with hq2 | hq2
      · rw [hmid p hp1 hp2, hmid q (by omega) hq2]
      · rw [hmid p hp1 hp2]
        exact hhigh q hq2 hqb
    · exact hs2 p q hp2 hpq hqb

/-- `quickSort_func(data, a, b, maxDepth)` sorts the range `[a, b)` in
ascending `Order`, touches nothing outside it, preserves the length and any
pointwise range bound (`b - a` fuel always suffices). -/
theorem quickSortGo_spec :
    ∀ (fuel : Nat) (l : List QueryStage) (a b maxDepth : Nat),
      b ≤ l.length → b ≤ fuel + a →
      SortedRange (quickSortGo fuel l a b maxDepth) a b
      ∧ (quickSortGo fuel l a b maxDepth).length = l.length
      ∧ (∀ k, k < a ∨ b ≤ k →
          sg (quickSortGo fuel l a b maxDepth) k = sg l k)
      ∧ BoundPres l (quickSortGo fuel l a b maxDepth) a b
  | 0, l, a, b, maxDepth => by
    intro hbl hfuel
    have h12 : ¬ (b - a > 12) := by omega
    have hq : quickSortGo 0 l a b maxDepth = shortSortGo l a b := by
      rw [quickSortGo.eq_def]
      dsimp only
      rw [if_neg h12]
    rw [hq]
    exact shortSortGo_spec l a b hbl
  | fuel + 1, l, a, b, maxDepth => by
    intro hbl hfuel
    by_cases h12 : b - a > 12
    · by_cases hd0 : maxDepth = 0
      · have hq : quickSortGo (fuel + 1) l a b maxDepth = heapSortGo l a b := by
          rw [quickSortGo.eq_def]
          dsimp only
          rw [if_pos h12, if_pos hd0]
        rw [hq]
        exact heapSortGo_spec l a b hbl
      · have hP := doPivotGo_spec l a b (by omega) hbl
        have hm1 : a ≤ (doPivotGo l a b).2.1 := hP.1
        have hm2 : (doPivotGo l a b).2.1 < (doPivotGo l a b).2.2 := hP.2.1
        have hm3 : (doPivotGo l a b).2.2 ≤ b := hP.2.2.1
        have hPlen : (doPivotGo l a b).1.length = l.length := hP.2.2.2.1
        by_cases hside :
            (doPivotGo l a b).2.1 - a < b - (doPivotGo l a b).2.2
        · have hq : quickSortGo (fuel + 1) l a b maxDepth =
              quickSortGo fuel
                (quickSortGo fuel (doPivotGo l a b).1 a
                  (doPivotGo l a b).2.1 (maxDepth - 1))
                (doPivotGo l a b).2.2 b (maxDepth - 1) := by
            rw [quickSortGo.eq_def]
            dsimp only
            rw [if_pos h12, if_neg hd0, if_pos hside]
          rw [hq]
          have hIH1 := quickSortGo_spec fuel (doPivotGo l a b).1 a
            (doPivotGo l a b).2.1 (maxDepth - 1)
            (by rw [hPlen]; omega) (by omega)
          set Q1 := quickSortGo fuel (doPivotGo l a b).1 a
            (doPivotGo l a b).2.1 (maxDepth - 1) with hQ1
          have hIH2 := quickSortGo_spec fuel Q1 (doPivotGo l a b).2.2 b
            (maxDepth - 1) (by rw [hIH1.2.1, hPlen]; exact hbl) (by omega)
          set R := quickSortGo fuel Q1 (doPivotGo l a b).2.2 b
            (maxDepth - 1) with hRd
          have hrP : ∀ k, (doPivotGo l a b).2.1 ≤ k →
              k < (doPivotGo l a b).2.2 → sg R k = sg (doPivotGo l a b).1 k := by
            intro k h1 h2
            rw [hIH2.2.2.1 k (Or.inl h2), hIH1.2.2.1 k (Or.inr h1)]
          have hrmlo : sg R (doPivotGo l a b).2.1
              = sg (doPivotGo l a b).1 (doPivotGo l a b).2.1 :=
            hrP _ (le_refl _) hm2
          refine ⟨?_, ?_, ?_, ?_⟩
          · refine sortedRange_of_partition R a (doPivotGo l a b).2.1
              (doPivotGo l a b).2.2 b hm1 hm2 hm3 ?_ hIH2.1 ?_ ?_ ?_
            · intro p q h1 h2 h3
              rw [hIH2.2.2.1 p (Or.inl (by omega)),
                hIH2.2.2.1 q (Or.inl (by omega))]
              exact hIH1.1 p q h1 h2 h3
            · intro k h1 h2
              rw [hrmlo, hIH2.2.2.1 k (Or.inl (by omega))]
              exact hIH1.2.2.2
                (fun x => x.Order ≤
                  (sg (doPivotGo l a b).1 (doPivotGo l a b).2.1).Order)
                (fun j hj1 hj2 => hP.2.2.2.2.2.1 j hj1 hj2) k h1 h2
            · intro k h1 h2
              rw [hrmlo, hrP k h1 h2]
              exact hP.2.2.2.2.2.2.1 k h1 h2
            · intro k h1 h2
              rw [hrmlo]
              exact hIH2.2.2.2
                (fun x => (sg (doPivotGo l a b).1
                  (doPivotGo l a b).2.1).Order ≤ x.Order)
                (fun j hj1 hj2 => by
                  rw [hIH1.2.2.1 j (Or.inr (by omega))]
                  exact hP.2.2.2.2.2.2.2.1 j hj1 hj2) k h1 h2
          · rw [hIH2.2.1, hIH1.2.1, hPlen]
          · intro k hk
            rw [hIH2.2.2.1 k (by omega), hIH1.2.2.1 k (by omega),
              hP.2.2.2.2.1 k hk]
          · exact boundPres_trans hP.2.2.2.2.2.2.2.2 (boundPres_trans
              (boundPres_of_frame_sub (le_refl a) (by omega)
                (fun k hk => hIH1.2.2.1 k hk) hIH1.2.2.2)
              (boundPres_of_frame_sub (by omega) (le_refl b)
                (fun k hk => hIH2.2.2.1 k hk) hIH2.2.2.2))
        · have hq : quickSortGo (fuel + 1) l a b maxDepth =
              quickSortGo fuel
                (quickSortGo fuel (doPivotGo l a b).1
                  (doPivotGo l a b).2.2 b (maxDepth - 1))
                a (doPivotGo l a b).2.1 (maxDepth - 1) := by
            rw [quickSortGo.eq_def]
            dsimp only
            rw [if_pos h12, if_neg hd0, if_neg hside]
          rw [hq]
          have hIH1 := quickSortGo_spec fuel (doPivotGo l a b).1
            (doPivotGo l a b).2.2 b (maxDepth - 1)
            (by rw [hPlen]; exact hbl) (by omega)
          set Q1 := quickSortGo fuel (doPivotGo l a b).1
            (doPivotGo l a b).2.2 b (maxDepth - 1) with hQ1
          have hIH2 := quickSortGo_spec fuel Q1 a (doPivotGo l a b).2.1
            (maxDepth - 1) (by rw [hIH1.2.1, hPlen]; omega) (by omega)
          set R := quickSortGo fuel Q1 a (doPivotGo l a b).2.1
            (maxDepth - 1) with hRd
          have hrP : ∀ k, (doPivotGo l a b).2.1 ≤ k →
              k < (doPivotGo l a b).2.2 → sg R k = sg (doPivotGo l a b).1 k := by
            intro k h1 h2
            rw [hIH2.2.2.1 k (Or.inr h1), hIH1.2.2.1 k (Or.inl h2)]
          have hrmlo : sg R (doPivotGo l a b).2.1
              = sg (doPivotGo l a b).1 (doPivotGo l a b).2.1 :=
            hrP _ (le_refl _) hm2
          refine ⟨?_, ?_, ?_, ?_⟩
          · refine sortedRange_of_partition R a (doPivotGo l a b).2.1
              (doPivotGo l a b).2.2 b hm1 hm2 hm3 hIH2.1 ?_ ?_ ?_ ?_
            · intro p q h1 h2 h3
              rw [hIH2.2.2.1 p (Or.inr (by omega)),
                hIH2.2.2.1 q (Or.inr (by omega))]
              exact hIH1.1 p q h1 h2 h3
            · intro k h1 h2
              rw [hrmlo]
              exact hIH2.2.2.2
                (fun x => x.Order ≤
                  (sg (doPivotGo l a b).1 (doPivotGo l a b).2.1).Order)
                (fun j hj1 hj2 => by
                  rw [hIH1.2.2.1 j (Or.inl (by omega))]
                  exact hP.2.2.2.2.2.1 j hj1 hj2) k h1 h2
            · intro k h1 h2
              rw [hrmlo, hrP k h1 h2]
              exact hP.2.2.2.2.2.2.1 k h1 h2
            · intro k h1 h2
              rw [hrmlo, hIH2.2.2.1 k (Or.inr (by omega))]
              exact hIH1.2.2.2
                (fun x => (sg (doPivotGo l a b).1
                  (doPivotGo l a b).2.1).Order ≤ x.Order)
                (fun j hj1 hj2 => hP.2.2.2.2.2.2.2.1 j hj1 hj2) k h1 h2
          · rw [hIH2.2.1, hIH1.2.1, hPlen]
          · intro k hk
            rw [hIH2.2.2.1 k (by omega), hIH1.2.2.1 k (by omega),
              hP.2.2.2.2.1 k hk]
          · exact boundPres_trans hP.2.2.2.2.2.2.2.2 (boundPres_trans
              (boundPres_of_frame_sub (by omega) (le_refl b)
                (fun k hk => hIH1.2.2.1 k hk) hIH1.2.2.2)
              (boundPres_of_frame_sub (le_refl a) (by omega)
                (fun k hk => hIH2.2.2.1 k hk) hIH2.2.2.2))
    · have hq : quickSortGo (fuel + 1) l a b maxDepth = shortSortGo l a b := by
        rw [quickSortGo.eq_def]
        dsimp only
        rw [if_neg h12]
      rw [hq]
      exact shortSortGo_spec l a b hbl

/-- `sortStagesByOrder` (Go `sort.Slice` by `Order`) returns a list
ascending in `Order`, of the same length. -/
theorem sortStagesByOrder_spec (l : List QueryStage) :
    List.Pairwise (fun x y => x.Order ≤ y.Order) (sortStagesByOrder l)
    ∧ (sortStagesByOrder l).length = l.length := by
  have h := quickSortGo_spec l.length l 0 l.length (maxDepthGo l.length)
    (le_refl _) (by omega)
  have hlen : (goSortSlice l).length = l.length := h.2.1
  constructor
  · apply pairwise_of_sortedRange
    show SortedRange (goSortSlice l) 0 (goSortSlice l).length
    rw [hlen]
    exact h.1
  · exact hlen

/-- C6: for every pipeline present in the read-model store,
`GetCDPipelineByName` returns the enriched view: the Jenkins (CI) link is
attached, the stages are sorted ascending in `Order` (and none are dropped),
each stage carries its derived OpenShift project link, and every branch
association's `AppName` equals its parent codebase's `Name`. -/
theorem claim_C6_enriched_view (env : Env) (n : String) (p : QueryCDPipeline)
    (h : env.dbPipeline n = .ok (some p)) :
    getCDPipelineByName env n =
      (.ok (some (enrichPipeline env.cfg p)), [.dbGetPipeline n])
    ∧ (enrichPipeline env.cfg p).JenkinsLink = jenkinsLinkOf env.cfg p.Name
    ∧ List.Pairwise (fun s t => s.Order ≤ t.Order)
        (enrichPipeline env.cfg p).Stage
    ∧ (enrichPipeline env.cfg p).Stage.length = p.Stage.length
    ∧ (∀ st ∈ (enrichPipeline env.cfg p).Stage,
        st.OpenshiftProjectLink = openshiftProjectLinkOf env.cfg p.Name st.Name)
    ∧ (∀ br ∈ (enrichPipeline env.cfg p).CodebaseBranch,
        br.AppName = br.Codebase.Name) := by
  refine ⟨getCDPipelineByName_of_some h, ?_, ?_, ?_, ?_, ?_⟩
  · unfold enrichPipeline
    dsimp only
    by_cases hS : (createJenkinsLink env.cfg p).Stage.length ≠ 0
    · rw [if_pos hS]
      rfl
    · rw [if_neg hS]
      rfl
  · unfold enrichPipeline
    dsimp only
    by_cases hS : (createJenkinsLink env.cfg p).Stage.length ≠ 0
    · rw [if_pos hS]
      show List.Pairwise _ (createOpenshiftProjectLinks env.cfg
        (sortStagesByOrder (createJenkinsLink env.cfg p).Stage)
        (createJenkinsLink env.cfg p).Name)
      unfold createOpenshiftProjectLinks
      rw [List.pairwise_map]
      exact (sortStagesByOrder_spec _).1
    · rw [if_neg hS]
      have hnil : (createJenkinsLink env.cfg p).Stage = [] :=
        List.length_eq_zero.mp (not_not.mp hS)
      show List.Pairwise _ (createJenkinsLink env.cfg p).Stage
      rw [hnil]
      exact List.Pairwise.nil
  · unfold enrichPipeline
    dsimp only
    by_cases hS : (createJenkinsLink env.cfg p).Stage.length ≠ 0
    · rw [if_pos hS]
      show (createOpenshiftProjectLinks env.cfg
        (sortStagesByOrder (createJenkinsLink env.cfg p).Stage)
        (createJenkinsLink env.cfg p).Name).length = p.Stage.length
      unfold createOpenshiftProjectLinks
      rw [List.length_map]
      exact (sortStagesByOrder_spec _).2
    · rw [if_neg hS]
      rfl
  · unfold enrichPipeline
    dsimp only
    by_cases hS : (createJenkinsLink env.cfg p).Stage.length ≠ 0
    · rw [if_pos hS]
      show ∀ st ∈ createOpenshiftProjectLinks env.cfg
        (sortStagesByOrder (createJenkinsLink env.cfg p).Stage)
        (createJenkinsLink env.cfg p).Name, _
      intro st hst
      unfold createOpenshiftProjectLinks at hst
      rw [List.mem_map] at hst
      obtain ⟨a, ha, rfl⟩ := hst
      rfl
    · rw [if_neg hS]
      have hnil : (createJenkinsLink env.cfg p).Stage = [] :=
        List.length_eq_zero.mp (not_not.mp hS)
      show ∀ st ∈ (createJenkinsLink env.cfg p).Stage, _
      rw [hnil]
      intro st hst
      exact absurd hst (List.not_mem_nil st)
  · unfold enrichPipeline
    dsimp only
    by_cases hS : (createJenkinsLink env.cfg p).Stage.length ≠ 0
    · rw [if_pos hS]
      intro br hbr
      rw [List.mem_map] at hbr
      obtain ⟨a, ha, rfl⟩ := hbr
      rfl
    · rw [if_neg hS]
      intro br hbr
      rw [List.mem_map] at hbr
      obtain ⟨a, ha, rfl⟩ := hbr
      rfl

/-- Witness for C6: in the concrete environment `wEnv6`, the stored pipeline
`wP6` has stage `Order` values `[2, 0, 1]`, its read-model lookup succeeds,
and the enriched view lists the stages ascending, as `[0, 1, 2]`. -/
theorem claim_C6_witness :
    wEnv6.dbPipeline "release-pipe" = Except.ok (some wP6)
    ∧ List.Pairwise (fun s t => s.Order ≤ t.Order)
        (enrichPipeline wEnv6.cfg wP6).Stage
    ∧ (enrichPipeline wEnv6.cfg wP6).Stage.map QueryStage.Order
        = [0, 1, 2] :=
  ⟨rfl, (claim_C6_enriched_view wEnv6 "release-pipe" wP6 rfl).2.2.1, by rfl⟩

end Edp
